import Mathlib

/-! # Tiled: `AbstractObjectTool` context menu

A shallow embedding of `src/tiled/abstractobjecttool.cpp`: the two definition
loaders of `showContextMenu` (custom properties, custom templates), the menu
they build, the command dispatch of `addProperty` / `applyTemplate`, and the
routing of the chosen menu entry.

Pointers to `QMenu` / `QAction` objects are indices into the list of objects
created by one invocation (`nodes`); the null pointer is `none`.  Calls into
collaborators that live outside the file (scene, document, undo stack, console)
are recorded in a call log.
-/

namespace Tiled

/-! ## The XML reader -/

/-- The values of `QXmlStreamReader::TokenType`. -/
inductive TokenType
  | NoToken
  | Invalid
  | StartDocument
  | EndDocument
  | StartElement
  | EndElement
  | Characters
  | Comment
  | DTD
  | EntityReference
  | ProcessingInstruction
  deriving DecidableEq, Repr

/-- One token delivered by `reader.readNext()`: its type, `reader.name()`,
`reader.attributes().value("name")` and `reader.text()`. -/
structure Token where
  tokenType : TokenType
  name : String
  nameAttr : String
  text : String
  deriving DecidableEq, Repr

/-- Modelled from the spec: the payload read of the loader ("read the element's
full text content as the value"), which the source delegates to
`QXmlStreamReader::readElementText()`.  Called on a start element, it reads on:
character data and entity references are appended to the result, comments and
processing instructions are skipped, the first end element ends the read, and
anything else (a child element, the end of the input) raises the reader's
error.  Returns the text, the tokens not yet read and the error flag. -/
def readElementText : List Token → String → String × List Token × Bool
  | [], acc => (acc, [], true)
  | t :: rest, acc =>
    match t.tokenType with
    | TokenType.Characters => readElementText rest (acc ++ t.text)
    | TokenType.EntityReference => readElementText rest (acc ++ t.text)
    | TokenType.EndElement => (acc, rest, false)
    | TokenType.ProcessingInstruction => readElementText rest acc
    | TokenType.Comment => readElementText rest acc
    | _ => (acc, rest, true)

/-! ## Registries, menus and actions -/

/-- The `Property` record held in `mCustomProperties` and in a template. -/
structure Property where
  name : String
  value : String
  deriving DecidableEq, Repr

/-- Modelled from the spec: the draw order of an object group, "index vs.
depth-sorted"; the enumeration is declared outside this file. -/
inductive DrawOrder
  | TopDownOrder
  | IndexOrder
  deriving DecidableEq, Repr

/-- An `ObjectGroup` of the map, as far as the tool reads it; `id` stands for
the identity of the object behind the pointer. -/
structure ObjectGroup where
  id : Nat
  name : String
  drawOrder : DrawOrder
  deriving DecidableEq, Repr

/-- The slots of the tool that a menu action can be connected to.  For
`addProperty` and `applyTemplate` the argument is the integer that the action's
`QSignalMapper` maps it to. -/
inductive Slot
  | duplicateObjects
  | removeObjects
  | flipHorizontally
  | flipVertically
  | raise
  | lower
  | raiseToTop
  | lowerToBottom
  | addProperty (propertyId : Int)
  | applyTemplate (templateId : Int)
  deriving DecidableEq, Repr

/-- A menu text: a plain string, or a `tr` text with a `%n` count. -/
inductive Label
  | plain (s : String)
  | plural (s : String) (n : Nat)
  deriving DecidableEq, Repr

/-- What an entry of a menu is. -/
inductive NodeKind
  | menu
  | action
  | separator
  deriving DecidableEq, Repr

/-- A `QMenu`, `QAction` or separator created while the context menu is built.
`parent` is the menu it was added to (`QObject::parent()` for a menu). -/
structure Node where
  kind : NodeKind
  text : Label
  parent : Option Nat
  slot : Option Slot
  data : Option ObjectGroup
  shortcut : String
  icon : String
  enabled : Bool
  deriving DecidableEq, Repr

/-- The node of `parent->addMenu(title)`. -/
def Node.submenu (title : Label) (parent : Nat) : Node :=
  { kind := NodeKind.menu, text := title, parent := some parent, slot := none,
    data := none, shortcut := "", icon := "", enabled := true }

/-- The node of `parent->addAction(text, receiver, slot)`. -/
def Node.act (text : Label) (parent : Nat) (slot : Option Slot) : Node :=
  { kind := NodeKind.action, text := text, parent := some parent, slot := slot,
    data := none, shortcut := "", icon := "", enabled := true }

/-- The node of `parent->addSeparator()`. -/
def Node.sep (parent : Nat) : Node :=
  { kind := NodeKind.separator, text := Label.plain "", parent := some parent,
    slot := none, data := none, shortcut := "", icon := "", enabled := true }

/-- The pointer result of `(QMenu*) m->parent()` for a non-null `m`. -/
def parentOf (nodes : List Node) (m : Nat) : Option Nat :=
  nodes[m]?.bind Node.parent

/-- The ways the source can fail at run time. -/
inductive Crash
  | nullPointer
  | indexOutOfRange
  | emptyList
  deriving DecidableEq, Repr

deriving instance DecidableEq for Except

/-! ## The custom-property loader (`showContextMenu`, first loop) -/

/-- The variables of the custom-property loop. -/
structure PropertyLoader where
  nodes : List Node
  parentMenu : Option Nat
  propertyMenu : Option Nat
  propertyName : String
  mCustomProperties : List Property
  deriving DecidableEq, Repr

/-- The body of the custom-property loop for the token `t` that `readNext`
returned, `rest` being the tokens not read yet.  Returns the new variables, the
tokens still unread and `reader.hasError()`. -/
def propertiesStep (t : Token) (rest : List Token) (s : PropertyLoader) :
    Except Crash (PropertyLoader × List Token × Bool) :=
  let err := decide (t.tokenType = TokenType.Invalid)
  if t.name = "menu" then
    if t.tokenType = TokenType.StartElement then
      match s.parentMenu with
      | none => Except.error Crash.nullPointer
      | some p =>
        Except.ok ({ s with nodes := s.nodes ++ [Node.submenu (Label.plain t.nameAttr) p],
                            parentMenu := some s.nodes.length }, rest, err)
    else if t.tokenType = TokenType.EndElement then
      match s.parentMenu with
      | none => Except.error Crash.nullPointer
      | some p => Except.ok ({ s with parentMenu := parentOf s.nodes p }, rest, err)
    else Except.ok (s, rest, err)
  else if t.name = "property" then
    if t.tokenType = TokenType.StartElement then
      match s.parentMenu with
      | none => Except.error Crash.nullPointer
      | some p =>
        Except.ok ({ s with nodes := s.nodes ++ [Node.submenu (Label.plain t.nameAttr) p],
                            propertyMenu := some s.nodes.length,
                            propertyName := t.nameAttr }, rest, err)
    else if t.tokenType = TokenType.EndElement then
      Except.ok ({ s with propertyMenu := none }, rest, err)
    else Except.ok (s, rest, err)
  else if t.name = "value" then
    if t.tokenType = TokenType.StartElement then
      match s.propertyMenu with
      | none => Except.ok (s, rest, err)
      | some pm =>
        let r := readElementText rest ""
        let prop : Property := { name := s.propertyName, value := r.1 }
        let registry := s.mCustomProperties ++ [prop]
        let propertyId : Int := (registry.length : Int) - 1
        Except.ok ({ s with nodes := s.nodes ++
                              [Node.act (Label.plain prop.value) pm (some (Slot.addProperty propertyId))],
                            mCustomProperties := registry }, r.2.1, r.2.2)
    else Except.ok (s, rest, err)
  else Except.ok (s, rest, err)

/-- The custom-property loop `while (!reader.atEnd() && !reader.hasError())`,
with a bound on the number of iterations. -/
def propertiesLoop : Nat → List Token → PropertyLoader → Except Crash PropertyLoader
  | 0, _, s => Except.ok s
  | _ + 1, [], s => Except.ok s
  | n + 1, t :: rest, s =>
    match propertiesStep t rest s with
    | Except.error e => Except.error e
    | Except.ok (s1, rest1, err) =>
      if err then Except.ok s1 else propertiesLoop n rest1 s1

/-- The custom-property loop run to its end: every iteration reads at least one
token, so as many iterations as there are tokens suffice. -/
def loadProperties (tokens : List Token) (s : PropertyLoader) : Except Crash PropertyLoader :=
  propertiesLoop tokens.length tokens s

/-! ## The custom-template loader (`showContextMenu`, second loop) -/

/-- The variables of the custom-template loop. -/
structure TemplateLoader where
  nodes : List Node
  parentMenu : Option Nat
  templateName : String
  currentTemplate : List Property
  mCustomTemplates : List (List Property)
  deriving DecidableEq, Repr

/-- The body of the custom-template loop, as `propertiesStep`. -/
def templatesStep (t : Token) (rest : List Token) (s : TemplateLoader) :
    Except Crash (TemplateLoader × List Token × Bool) :=
  let err := decide (t.tokenType = TokenType.Invalid)
  if t.name = "menu" then
    if t.tokenType = TokenType.StartElement then
      match s.parentMenu with
      | none => Except.error Crash.nullPointer
      | some p =>
        Except.ok ({ s with nodes := s.nodes ++ [Node.submenu (Label.plain t.nameAttr) p],
                            parentMenu := some s.nodes.length }, rest, err)
    else if t.tokenType = TokenType.EndElement then
      match s.parentMenu with
      | none => Except.error Crash.nullPointer
      | some p => Except.ok ({ s with parentMenu := parentOf s.nodes p }, rest, err)
    else Except.ok (s, rest, err)
  else if t.name = "template" then
    if t.tokenType = TokenType.StartElement then
      Except.ok ({ s with templateName := t.nameAttr }, rest, err)
    else if t.tokenType = TokenType.EndElement then
      match s.parentMenu with
      | none => Except.error Crash.nullPointer
      | some p =>
        let registry := s.mCustomTemplates ++ [s.currentTemplate]
        let templateId : Int := (registry.length : Int) - 1
        Except.ok ({ s with nodes := s.nodes ++
                              [Node.act (Label.plain s.templateName) p (some (Slot.applyTemplate templateId))],
                            mCustomTemplates := registry,
                            currentTemplate := [],
                            templateName := "" }, rest, err)
    else Except.ok (s, rest, err)
  else if t.name = "property" then
    if t.tokenType = TokenType.StartElement then
      let r := readElementText rest ""
      let prop : Property := { name := t.nameAttr, value := r.1 }
      Except.ok ({ s with currentTemplate := s.currentTemplate ++ [prop] }, r.2.1, r.2.2)
    else Except.ok (s, rest, err)
  else Except.ok (s, rest, err)

/-- The custom-template loop, with a bound on the number of iterations. -/
def templatesLoop : Nat → List Token → TemplateLoader → Except Crash TemplateLoader
  | 0, _, s => Except.ok s
  | _ + 1, [], s => Except.ok s
  | n + 1, t :: rest, s =>
    match templatesStep t rest s with
    | Except.error e => Except.error e
    | Except.ok (s1, rest1, err) =>
      if err then Except.ok s1 else templatesLoop n rest1 s1

/-- The custom-template loop run to its end. -/
def loadTemplates (tokens : List Token) (s : TemplateLoader) : Except Crash TemplateLoader :=
  templatesLoop tokens.length tokens s

/-! ## The tool, the document and the scene -/

/-- The registries of the tool: `mCustomProperties` and `mCustomTemplates`. -/
structure AbstractObjectTool where
  mCustomProperties : List Property
  mCustomTemplates : List (List Property)
  deriving DecidableEq, Repr

/-- What the tool reads from `mapDocument()`: `selectedObjects()`,
`map()->objectGroups()`, `currentObject()` and `currentObjects()`.  Map
objects are numbered. -/
structure MapDocument where
  selectedObjects : List Nat
  objectGroups : List ObjectGroup
  currentObject : Option Nat
  currentObjects : List Nat
  deriving DecidableEq, Repr

/-- The scene: its set of selected object items.  Object items are numbered. -/
structure MapScene where
  selectedObjectItems : Finset Nat
  deriving DecidableEq

/-- Modelled from the spec: `MapScene::setSelectedObjectItems`, which is not in
this file ("replace the selection with just that item"). -/
def MapScene.setSelectedObjectItems (_scene : MapScene) (items : Finset Nat) : MapScene :=
  { selectedObjectItems := items }

/-- The argument of `flipSelectedObjects`. -/
inductive FlipDirection
  | FlipHorizontally
  | FlipVertically
  deriving DecidableEq, Repr

/-- The commands the tool pushes on the undo stack. -/
inductive Command
  | SetProperty (objects : List Nat) (name : String) (value : String)
  | ApplyTemplate (objects : List Nat) (properties : List Property)
  deriving DecidableEq, Repr

/-- A call into a collaborator of the tool. -/
inductive Call
  | setSelectedObjectItems (items : Finset Nat)
  | print (message : String)
  | setThemeIcon (action : Nat) (name : String)
  | exec (screenPos : Int × Int)
  | duplicateObjects (objects : List Nat)
  | removeObjects (objects : List Nat)
  | flipSelectedObjects (direction : FlipDirection)
  | raise
  | lower
  | raiseToTop
  | lowerToBottom
  | undoPush (command : Command)
  | setCurrentObject (object : Nat)
  | emitEditCurrentObject
  | moveObjectsToGroup (objects : List Nat) (group : ObjectGroup)
  deriving DecidableEq

/-- Modelled from the spec: `RaiseLowerHelper::sameObjectGroup`, which is not in
this file ("all selected objects share one containing group"): the group that
contains every item of the set, or null. -/
def sameObjectGroup (objectGroupOf : Nat → ObjectGroup) (items : Finset Nat) :
    Option ObjectGroup :=
  if h : items.Nonempty then
    if ∀ i ∈ items, objectGroupOf i = objectGroupOf (items.min' h) then
      some (objectGroupOf (items.min' h))
    else none
  else none

/-! ## The slots -/

/-- The method `AbstractObjectTool::duplicateObjects`. -/
def AbstractObjectTool.duplicateObjects (doc : MapDocument) : List Call :=
  [Call.duplicateObjects doc.selectedObjects]

/-- The method `AbstractObjectTool::removeObjects`. -/
def AbstractObjectTool.removeObjects (doc : MapDocument) : List Call :=
  [Call.removeObjects doc.selectedObjects]

/-- The method `AbstractObjectTool::addProperty`: the tool afterwards and the
calls made. -/
def AbstractObjectTool.addProperty (tool : AbstractObjectTool) (doc : MapDocument)
    (propertyId : Int) : Except Crash (AbstractObjectTool × List Call) :=
  match doc.currentObject with
  | none => Except.ok (tool, [])
  | some _ =>
    if 0 ≤ propertyId then
      match tool.mCustomProperties[propertyId.toNat]? with
      | none => Except.error Crash.indexOutOfRange
      | some p =>
        Except.ok (tool, [Call.undoPush (Command.SetProperty doc.currentObjects p.name p.value)])
    else Except.error Crash.indexOutOfRange

/-- The method `AbstractObjectTool::applyTemplate`: the tool afterwards and the
calls made. -/
def AbstractObjectTool.applyTemplate (tool : AbstractObjectTool) (doc : MapDocument)
    (templateId : Int) : Except Crash (AbstractObjectTool × List Call) :=
  match doc.currentObject with
  | none => Except.ok (tool, [])
  | some _ =>
    if 0 ≤ templateId then
      match tool.mCustomTemplates[templateId.toNat]? with
      | none => Except.error Crash.indexOutOfRange
      | some t =>
        Except.ok (tool, [Call.undoPush (Command.ApplyTemplate doc.currentObjects t)])
    else Except.error Crash.indexOutOfRange

/-- What a triggered action does through its connection. -/
def runSlot (tool : AbstractObjectTool) (doc : MapDocument) :
    Slot → Except Crash (AbstractObjectTool × List Call)
  | Slot.duplicateObjects => Except.ok (tool, AbstractObjectTool.duplicateObjects doc)
  | Slot.removeObjects => Except.ok (tool, AbstractObjectTool.removeObjects doc)
  | Slot.flipHorizontally =>
    Except.ok (tool, [Call.flipSelectedObjects FlipDirection.FlipHorizontally])
  | Slot.flipVertically =>
    Except.ok (tool, [Call.flipSelectedObjects FlipDirection.FlipVertically])
  | Slot.raise => Except.ok (tool, [Call.raise])
  | Slot.lower => Except.ok (tool, [Call.lower])
  | Slot.raiseToTop => Except.ok (tool, [Call.raiseToTop])
  | Slot.lowerToBottom => Except.ok (tool, [Call.lowerToBottom])
  | Slot.addProperty i => tool.addProperty doc i
  | Slot.applyTemplate i => tool.applyTemplate doc i

/-! ## `showContextMenu` -/

/-- What one invocation of `showContextMenu` finds around it: the document, the
object group of every object item, the tokens of the two definition files
(`none` when the file cannot be opened) and the entry the user picks in the
menu (`none` when the menu is dismissed). -/
structure Env where
  doc : MapDocument
  objectGroupOf : Nat → ObjectGroup
  propertiesFile : Option (List Token)
  templatesFile : Option (List Token)
  chosen : Option Nat

/-- Lines 193-198: the local `selection`, the scene and the calls made. -/
def adjustSelection (scene : MapScene) (clickedObjectItem : Option Nat) :
    Finset Nat × MapScene × List Call :=
  match clickedObjectItem with
  | some c =>
    if c ∉ scene.selectedObjectItems then
      ({c}, scene.setSelectedObjectItems {c}, [Call.setSelectedObjectItems {c}])
    else (scene.selectedObjectItems, scene, [])
  | none => (scene.selectedObjectItems, scene, [])

/-- The `QMenu menu` itself: node 0, without a parent. -/
def Node.root : Node :=
  { kind := NodeKind.menu, text := Label.plain "", parent := none, slot := none,
    data := none, shortcut := "", icon := "", enabled := true }

/-- Lines 205-220: the menu, the duplicate and remove actions, a separator and
the submenu "Add custom property" (node 4). -/
def menuStart (selection : Finset Nat) : List Node :=
  [ Node.root,
    { Node.act (Label.plural "Duplicate %n Object(s)" selection.card) 0
        (some Slot.duplicateObjects) with icon := ":/images/16x16/stock-duplicate-16.png" },
    { Node.act (Label.plural "Remove %n Object(s)" selection.card) 0
        (some Slot.removeObjects) with icon := ":/images/16x16/edit-delete.png" },
    Node.sep 0,
    Node.submenu (Label.plain "Add custom property") 0 ]

/-- Lines 322-325: a separator and the two flip actions. -/
def flipNodes : List Node :=
  [ Node.sep 0,
    { Node.act (Label.plain "Flip Horizontally") 0 (some Slot.flipHorizontally) with
        shortcut := "X" },
    { Node.act (Label.plain "Flip Vertically") 0 (some Slot.flipVertically) with
        shortcut := "Y" } ]

/-- The four actions of lines 330-333. -/
def raiseLowerActions : List Node :=
  [ { Node.act (Label.plain "Raise Object") 0 (some Slot.raise) with shortcut := "PgUp" },
    { Node.act (Label.plain "Lower Object") 0 (some Slot.lower) with shortcut := "PgDown" },
    { Node.act (Label.plain "Raise Object to Top") 0 (some Slot.raiseToTop) with
        shortcut := "Home" },
    { Node.act (Label.plain "Lower Object to Bottom") 0 (some Slot.lowerToBottom) with
        shortcut := "End" } ]

/-- Lines 327-334. -/
def raiseLowerNodes (objectGroupOf : Nat → ObjectGroup) (selection : Finset Nat) : List Node :=
  match sameObjectGroup objectGroupOf selection with
  | some objectGroup =>
    if objectGroup.drawOrder = DrawOrder.IndexOrder then Node.sep 0 :: raiseLowerActions
    else []
  | none => []

/-- Lines 336-344, `first` being the number of nodes created before. -/
def moveToLayerNodes (doc : MapDocument) (first : Nat) : List Node :=
  if doc.objectGroups.length > 1 then
    [ Node.sep 0,
      Node.submenu (Label.plural "Move %n Object(s) to Layer" doc.selectedObjects.length) 0 ] ++
    doc.objectGroups.map fun objectGroup =>
      { Node.act (Label.plain objectGroup.name) (first + 1) none with data := some objectGroup }
  else []

/-- Lines 346-351: a separator and the properties action. -/
def propertiesNodes (doc : MapDocument) : List Node :=
  [ Node.sep 0,
    { Node.act (Label.plain "Object &Properties...") 0 none with
        icon := ":images/16x16/document-properties.png",
        enabled := decide (doc.selectedObjects.length = 1) } ]

/-- Lines 226-266: the custom-property file is read if it can be opened. -/
def readPropertiesFile (file : Option (List Token)) (s : PropertyLoader) :
    Except Crash (PropertyLoader × List Call) :=
  match file with
  | some tokens =>
    match loadProperties tokens s with
    | Except.error e => Except.error e
    | Except.ok s1 => Except.ok (s1, [])
  | none => Except.ok (s, [Call.print "Can't open customProperties.xml"])

/-- Lines 278-320: the custom-template file is read if it can be opened. -/
def readTemplatesFile (file : Option (List Token)) (s : TemplateLoader) :
    Except Crash (TemplateLoader × List Call) :=
  match file with
  | some tokens =>
    match loadTemplates tokens s with
    | Except.error e => Except.error e
    | Except.ok s1 => Except.ok (s1, [])
  | none => Except.ok (s, [Call.print "Can't open customTemplates.xml"])

/-- The menu as `menu.exec` gets it. -/
structure Built where
  nodes : List Node
  propertiesAction : Nat
  tool : AbstractObjectTool
  calls : List Call
  deriving DecidableEq

/-- Lines 322-354, after the two loaders: `nodes` are the nodes created so far. -/
def menuEnd (env : Env) (selection : Finset Nat) (nodes : List Node) : List Node :=
  let nodes1 := nodes ++ flipNodes ++ raiseLowerNodes env.objectGroupOf selection
  let nodes2 := nodes1 ++ moveToLayerNodes env.doc nodes1.length
  nodes2 ++ propertiesNodes env.doc

/-- The variables of the custom-property loop when it starts (lines 217-224);
`addCustomPropertyMenu` is node 4. -/
def propertiesInit (selection : Finset Nat) (tool : AbstractObjectTool) : PropertyLoader :=
  { nodes := menuStart selection, parentMenu := some 4, propertyMenu := none,
    propertyName := "", mCustomProperties := tool.mCustomProperties }

/-- The variables of the custom-template loop when it starts (lines 270-276),
`nodes` being the nodes created so far. -/
def templatesInit (nodes : List Node) (tool : AbstractObjectTool) : TemplateLoader :=
  { nodes := nodes ++ [Node.submenu (Label.plain "Apply custom template") 0],
    parentMenu := some nodes.length, templateName := "", currentTemplate := [],
    mCustomTemplates := tool.mCustomTemplates }

/-- Lines 205-354 of `showContextMenu`: the menu is built and the registries
are filled. -/
def buildMenu (env : Env) (selection : Finset Nat) (tool : AbstractObjectTool) :
    Except Crash Built :=
  match readPropertiesFile env.propertiesFile (propertiesInit selection tool) with
  | Except.error e => Except.error e
  | Except.ok (ps, calls1) =>
    match readTemplatesFile env.templatesFile (templatesInit ps.nodes tool) with
    | Except.error e => Except.error e
    | Except.ok (ts, calls2) =>
      let nodes := menuEnd env selection ts.nodes
      let removeAction := 2
      let propertiesAction := nodes.length - 1
      Except.ok
        { nodes := nodes,
          propertiesAction := propertiesAction,
          tool := { mCustomProperties := ps.mCustomProperties,
                    mCustomTemplates := ts.mCustomTemplates },
          calls := calls1 ++ calls2 ++
            [Call.setThemeIcon removeAction "edit-delete",
             Call.setThemeIcon propertiesAction "document-properties"] }

/-- Modelled from the spec: the result of `menu.exec` ("block until dismissed or
an entry chosen"): the entry the user picks if it is an enabled action of the
menu, null otherwise. -/
def execResult (nodes : List Node) (chosen : Option Nat) : Option Nat :=
  match chosen with
  | none => none
  | some a =>
    match nodes[a]? with
    | some node => if node.kind = NodeKind.action ∧ node.enabled = true then some a else none
    | none => none

/-- The work of `menu.exec` and lines 357-370: the triggered action runs its slot
inside `exec`, then the action returned is routed. -/
def route (env : Env) (b : Built) (action : Option Nat) :
    Except Crash (AbstractObjectTool × List Call) :=
  match action with
  | none => Except.ok (b.tool, [])
  | some a =>
    match b.nodes[a]? with
    | none => Except.ok (b.tool, [])
    | some node =>
      let triggered :=
        match node.slot with
        | some slot => runSlot b.tool env.doc slot
        | none => Except.ok (b.tool, [])
      match triggered with
      | Except.error e => Except.error e
      | Except.ok (tool1, calls1) =>
        if a = b.propertiesAction then
          match env.doc.selectedObjects.head? with
          | none => Except.error Crash.emptyList
          | some mapObject =>
            Except.ok (tool1, calls1 ++
              [Call.setCurrentObject mapObject, Call.emitEditCurrentObject])
        else
          match node.data with
          | some objectGroup =>
            Except.ok (tool1, calls1 ++
              [Call.moveObjectsToGroup env.doc.selectedObjects objectGroup])
          | none => Except.ok (tool1, calls1)

/-- What `showContextMenu` leaves behind: the tool, the scene, the nodes of the
menu that was shown (`none` when the function returned before building one) and
the calls made. -/
structure Outcome where
  tool : AbstractObjectTool
  scene : MapScene
  menu : Option (List Node)
  calls : List Call
  deriving DecidableEq

/-- The method `AbstractObjectTool::showContextMenu`. -/
def showContextMenu (env : Env) (tool : AbstractObjectTool) (scene : MapScene)
    (clickedObjectItem : Option Nat) (screenPos : Int × Int) : Except Crash Outcome :=
  let sel := adjustSelection scene clickedObjectItem
  if sel.1 = ∅ then
    Except.ok { tool := tool, scene := sel.2.1, menu := none, calls := sel.2.2 }
  else
    match buildMenu env sel.1 tool with
    | Except.error e => Except.error e
    | Except.ok b =>
      match route env b (execResult b.nodes env.chosen) with
      | Except.error e => Except.error e
      | Except.ok (tool1, calls1) =>
        Except.ok { tool := tool1, scene := sel.2.1, menu := some b.nodes,
                    calls := sel.2.2 ++ b.calls ++ [Call.exec screenPos] ++ calls1 }

/-! ## Reading a menu -/

/-- Is the slot one of `raise`, `lower`, `raiseToTop`, `lowerToBottom`? -/
def Slot.isRaiseLower : Slot → Bool
  | Slot.raise => true
  | Slot.lower => true
  | Slot.raiseToTop => true
  | Slot.lowerToBottom => true
  | _ => false

/-- Is the node an action connected to one of the four raise/lower slots? -/
def Node.isRaiseLower (n : Node) : Bool :=
  match n.slot with
  | some slot => slot.isRaiseLower
  | none => false

/-- Is the node the submenu "Move %n Object(s) to Layer"? -/
def Node.isMoveToLayerMenu (n : Node) : Bool :=
  match n.text with
  | Label.plural text _ => decide (text = "Move %n Object(s) to Layer" ∧ n.kind = NodeKind.menu)
  | Label.plain _ => false

/-- The entries of menu `m`, in the order they were added. -/
def menuEntries (nodes : List Node) (m : Nat) : List Node :=
  nodes.filter fun n => decide (n.parent = some m)

/-- Is the call a `moveObjectsToGroup`? -/
def Call.isMove : Call → Bool
  | Call.moveObjectsToGroup _ _ => true
  | _ => false

/-- Is the call a `setSelectedObjectItems`? -/
def Call.isSetSelection : Call → Bool
  | Call.setSelectedObjectItems _ => true
  | _ => false

/-! ## Well-formed definition streams -/

/-- The token of a start tag `<name name="attr">`. -/
def tStart (name attr : String) : Token :=
  { tokenType := TokenType.StartElement, name := name, nameAttr := attr, text := "" }

/-- The token of an end tag `</name>`. -/
def tEnd (name : String) : Token :=
  { tokenType := TokenType.EndElement, name := name, nameAttr := "", text := "" }

/-- The token of character data. -/
def tChars (text : String) : Token :=
  { tokenType := TokenType.Characters, name := "", nameAttr := "", text := text }

/-- May character data hold this token?  `readElementText` reads over character
data, entity references, comments and processing instructions. -/
def isTextToken (t : Token) : Bool :=
  decide (t.tokenType = TokenType.Characters ∨ t.tokenType = TokenType.EntityReference ∨
    t.tokenType = TokenType.Comment ∨ t.tokenType = TokenType.ProcessingInstruction)

/-- The text that a run of text tokens adds to `acc`. -/
def appendText (acc : String) : List Token → String
  | [] => acc
  | t :: rest =>
    if t.tokenType = TokenType.Characters ∨ t.tokenType = TokenType.EntityReference then
      appendText (acc ++ t.text) rest
    else appendText acc rest

/-- The text content of an element whose content is `payload`. -/
def payloadText (payload : List Token) : String :=
  appendText "" payload

/-- A token between the elements of a custom-property file that is not an error
and not the start or end of a `menu`, `property` or `value` element: white
space, a comment, the start or end of the document or of an element with
another name. -/
def isPropertyFiller (t : Token) : Bool :=
  decide (t.tokenType ≠ TokenType.Invalid ∧
    ((t.tokenType = TokenType.StartElement ∨ t.tokenType = TokenType.EndElement) →
      t.name ≠ "menu" ∧ t.name ≠ "property" ∧ t.name ≠ "value"))

/-- The content of a `property` element of a custom-property file: filler
tokens and `value` elements that hold text. -/
inductive PropertyItem
  | filler (t : Token)
  | value (payload : List Token)

/-- A well-nested custom-property stream: filler tokens, `menu` elements that
hold such a stream again, and `property` elements. -/
inductive PropertyDef
  | done
  | filler (t : Token) (rest : PropertyDef)
  | menu (name : String) (children : PropertyDef) (rest : PropertyDef)
  | property (name : String) (content : List PropertyItem) (rest : PropertyDef)

/-- The tokens the reader delivers for an item of a `property` element. -/
def PropertyItem.tokens : PropertyItem → List Token
  | PropertyItem.filler t => [t]
  | PropertyItem.value payload => tStart "value" "" :: (payload ++ [tEnd "value"])

/-- The tokens of the content of a `property` element. -/
def contentTokens : List PropertyItem → List Token
  | [] => []
  | item :: rest => item.tokens ++ contentTokens rest

/-- The tokens the reader delivers for a custom-property stream. -/
def PropertyDef.tokens : PropertyDef → List Token
  | PropertyDef.done => []
  | PropertyDef.filler t rest => t :: rest.tokens
  | PropertyDef.menu name children rest =>
    tStart "menu" name :: (children.tokens ++ tEnd "menu" :: rest.tokens)
  | PropertyDef.property name content rest =>
    tStart "property" name :: (contentTokens content ++ tEnd "property" :: rest.tokens)

/-- Fillers are fillers and values hold text only. -/
def PropertyItem.wellFormed : PropertyItem → Bool
  | PropertyItem.filler t => isPropertyFiller t
  | PropertyItem.value payload => payload.all isTextToken

/-- Fillers are fillers and values hold text only, throughout the stream. -/
def PropertyDef.wellFormed : PropertyDef → Bool
  | PropertyDef.done => true
  | PropertyDef.filler t rest => isPropertyFiller t && rest.wellFormed
  | PropertyDef.menu _ children rest => children.wellFormed && rest.wellFormed
  | PropertyDef.property _ content rest =>
    content.all PropertyItem.wellFormed && rest.wellFormed

/-- The texts of the `value` elements of a `property` element, in order. -/
def contentValues : List PropertyItem → List String
  | [] => []
  | PropertyItem.filler _ :: rest => contentValues rest
  | PropertyItem.value payload :: rest => payloadText payload :: contentValues rest

/-- The number of `value` elements of the stream. -/
def PropertyDef.valueCount : PropertyDef → Nat
  | PropertyDef.done => 0
  | PropertyDef.filler _ rest => rest.valueCount
  | PropertyDef.menu _ children rest => children.valueCount + rest.valueCount
  | PropertyDef.property _ content rest => (contentValues content).length + rest.valueCount

/-- Spec: the records of the stream, one `{name, value}` per `value` element, in
document order. -/
def PropertyDef.records : PropertyDef → List Property
  | PropertyDef.done => []
  | PropertyDef.filler _ rest => rest.records
  | PropertyDef.menu _ children rest => children.records ++ rest.records
  | PropertyDef.property name content rest =>
    (contentValues content).map (fun v => { name := name, value := v }) ++ rest.records

/-- Spec: the menu entries of the values of one property, under the property's
submenu `pm`, bound to consecutive indices from `firstId` on. -/
def valueNodes (pm : Nat) : Nat → List String → List Node
  | _, [] => []
  | firstId, v :: rest =>
    Node.act (Label.plain v) pm (some (Slot.addProperty (firstId : Int))) ::
      valueNodes pm (firstId + 1) rest

/-- The number of nodes the stream stands for. -/
def PropertyDef.nodeCount : PropertyDef → Nat
  | PropertyDef.done => 0
  | PropertyDef.filler _ rest => rest.nodeCount
  | PropertyDef.menu _ children rest => 1 + children.nodeCount + rest.nodeCount
  | PropertyDef.property _ content rest => 1 + (contentValues content).length + rest.nodeCount

/-- Spec: the menu tree of the stream under the menu `parent`, when `first` nodes
and `firstId` records exist already: a submenu per group, a submenu per
property and, under it, an entry per value bound to the value's record. -/
def PropertyDef.nodes : PropertyDef → Nat → Nat → Nat → List Node
  | PropertyDef.done, _, _, _ => []
  | PropertyDef.filler _ rest, parent, first, firstId => rest.nodes parent first firstId
  | PropertyDef.menu name children rest, parent, first, firstId =>
    Node.submenu (Label.plain name) parent ::
      (children.nodes first (first + 1) firstId ++
        rest.nodes parent (first + 1 + children.nodeCount) (firstId + children.valueCount))
  | PropertyDef.property name content rest, parent, first, firstId =>
    Node.submenu (Label.plain name) parent ::
      (valueNodes first firstId (contentValues content) ++
        rest.nodes parent (first + 1 + (contentValues content).length)
          (firstId + (contentValues content).length))

/-- The index an action is bound to through `addProperty`, if any. -/
def Node.propertyId (n : Node) : Option Int :=
  match n.slot with
  | some (Slot.addProperty i) => some i
  | _ => none

/-- The index an action is bound to through `applyTemplate`, if any. -/
def Node.templateId (n : Node) : Option Int :=
  match n.slot with
  | some (Slot.applyTemplate i) => some i
  | _ => none

/-- Is the node an action? -/
def Node.isAction (n : Node) : Bool :=
  decide (n.kind = NodeKind.action)

/-- A token between the elements of a custom-template file that is not an error
and not the start or end of a `menu`, `template` or `property` element. -/
def isTemplateFiller (t : Token) : Bool :=
  decide (t.tokenType ≠ TokenType.Invalid ∧
    ((t.tokenType = TokenType.StartElement ∨ t.tokenType = TokenType.EndElement) →
      t.name ≠ "menu" ∧ t.name ≠ "template" ∧ t.name ≠ "property"))

/-- The content of a `template` element: filler tokens and `property` elements
with a name attribute and a text payload. -/
inductive TemplateItem
  | filler (t : Token)
  | property (name : String) (payload : List Token)

/-- A well-nested custom-template stream: filler tokens, `menu` elements that
hold such a stream again, and `template` elements. -/
inductive TemplateDef
  | done
  | filler (t : Token) (rest : TemplateDef)
  | menu (name : String) (children : TemplateDef) (rest : TemplateDef)
  | template (name : String) (content : List TemplateItem) (rest : TemplateDef)

/-- The tokens the reader delivers for an item of a `template` element. -/
def TemplateItem.tokens : TemplateItem → List Token
  | TemplateItem.filler t => [t]
  | TemplateItem.property name payload =>
    tStart "property" name :: (payload ++ [tEnd "property"])

/-- The tokens of the content of a `template` element. -/
def templateTokens : List TemplateItem → List Token
  | [] => []
  | item :: rest => item.tokens ++ templateTokens rest

/-- The tokens the reader delivers for a custom-template stream. -/
def TemplateDef.tokens : TemplateDef → List Token
  | TemplateDef.done => []
  | TemplateDef.filler t rest => t :: rest.tokens
  | TemplateDef.menu name children rest =>
    tStart "menu" name :: (children.tokens ++ tEnd "menu" :: rest.tokens)
  | TemplateDef.template name content rest =>
    tStart "template" name :: (templateTokens content ++ tEnd "template" :: rest.tokens)

/-- Fillers are fillers and properties hold text only. -/
def TemplateItem.wellFormed : TemplateItem → Bool
  | TemplateItem.filler t => isTemplateFiller t
  | TemplateItem.property _ payload => payload.all isTextToken

/-- Fillers are fillers and properties hold text only, throughout the stream. -/
def TemplateDef.wellFormed : TemplateDef → Bool
  | TemplateDef.done => true
  | TemplateDef.filler t rest => isTemplateFiller t && rest.wellFormed
  | TemplateDef.menu _ children rest => children.wellFormed && rest.wellFormed
  | TemplateDef.template _ content rest =>
    content.all TemplateItem.wellFormed && rest.wellFormed

/-- Spec: the (name attribute, text) pairs of the `property` elements of a
`template` element, in order. -/
def templateProperties : List TemplateItem → List Property
  | [] => []
  | TemplateItem.filler _ :: rest => templateProperties rest
  | TemplateItem.property name payload :: rest =>
    { name := name, value := payloadText payload } :: templateProperties rest

/-- The number of `template` elements of the stream. -/
def TemplateDef.templateCount : TemplateDef → Nat
  | TemplateDef.done => 0
  | TemplateDef.filler _ rest => rest.templateCount
  | TemplateDef.menu _ children rest => children.templateCount + rest.templateCount
  | TemplateDef.template _ _ rest => 1 + rest.templateCount

/-- The names of the `template` elements of the stream, in document order. -/
def TemplateDef.names : TemplateDef → List String
  | TemplateDef.done => []
  | TemplateDef.filler _ rest => rest.names
  | TemplateDef.menu _ children rest => children.names ++ rest.names
  | TemplateDef.template name _ rest => name :: rest.names

/-- Spec: the records of the stream, one per `template` element in document
order, each the properties nested in that element. -/
def TemplateDef.records : TemplateDef → List (List Property)
  | TemplateDef.done => []
  | TemplateDef.filler _ rest => rest.records
  | TemplateDef.menu _ children rest => children.records ++ rest.records
  | TemplateDef.template _ content rest => templateProperties content :: rest.records

/-- The number of nodes the stream stands for. -/
def TemplateDef.nodeCount : TemplateDef → Nat
  | TemplateDef.done => 0
  | TemplateDef.filler _ rest => rest.nodeCount
  | TemplateDef.menu _ children rest => 1 + children.nodeCount + rest.nodeCount
  | TemplateDef.template _ _ rest => 1 + rest.nodeCount

/-- Spec: the menu tree of the stream under the menu `parent`, when `first` nodes
and `firstId` records exist already: a submenu per group and, under the
enclosing group, one action per template, labelled with the template's name and
bound to the template's record. -/
def TemplateDef.nodes : TemplateDef → Nat → Nat → Nat → List Node
  | TemplateDef.done, _, _, _ => []
  | TemplateDef.filler _ rest, parent, first, firstId => rest.nodes parent first firstId
  | TemplateDef.menu name children rest, parent, first, firstId =>
    Node.submenu (Label.plain name) parent ::
      (children.nodes first (first + 1) firstId ++
        rest.nodes parent (first + 1 + children.nodeCount) (firstId + children.templateCount))
  | TemplateDef.template name _ rest, parent, first, firstId =>
    Node.act (Label.plain name) parent (some (Slot.applyTemplate (firstId : Int))) ::
      rest.nodes parent (first + 1) (firstId + 1)

/-- The custom-template stream of `sampleTemplates`. -/
def sampleTemplateDef : TemplateDef :=
  TemplateDef.menu "Units"
    (TemplateDef.template "guard"
      [TemplateItem.property "team" [tChars "red"], TemplateItem.property "hp" [tChars "10"]]
      TemplateDef.done)
    TemplateDef.done

/-! ## Balanced groups -/

/-- Is the token the start of a `menu` element? -/
def isMenuStart (t : Token) : Bool :=
  decide (t.name = "menu" ∧ t.tokenType = TokenType.StartElement)

/-- Is the token the end of a `menu` element? -/
def isMenuEnd (t : Token) : Bool :=
  decide (t.name = "menu" ∧ t.tokenType = TokenType.EndElement)

/-- No prefix of the tokens holds more `menu` end events than `d` plus its number
of `menu` start events. -/
def BalancedFrom (d : Nat) (tokens : List Token) : Prop :=
  ∀ k, (tokens.take k).countP isMenuEnd ≤ d + (tokens.take k).countP isMenuStart

/-- No prefix of the tokens holds more `menu` end events than `menu` start
events. -/
def Balanced (tokens : List Token) : Prop :=
  ∀ k, (tokens.take k).countP isMenuEnd ≤ (tokens.take k).countP isMenuStart

/-- Following `QObject::parent()` from node `p` leads to node `r` in `d` steps,
through nodes that are not older than `r`. -/
def AncestorAt (nodes : List Node) (r : Nat) : Nat → Nat → Prop
  | 0, p => p = r
  | d + 1, p => r ≤ p ∧ ∃ q, parentOf nodes p = some q ∧ AncestorAt nodes r d q

/-- Every node of the list hangs under node `r` or under a younger node. -/
def Under (r : Nat) (added : List Node) : Prop :=
  ∀ n ∈ added, ∃ q, n.parent = some q ∧ r ≤ q

/-- A check of `BalancedFrom` that runs through the tokens once. -/
def balancedCheck : Nat → List Token → Bool
  | _, [] => true
  | d, t :: rest =>
    if isMenuStart t then balancedCheck (d + 1) rest
    else if isMenuEnd t then
      match d with
      | 0 => false
      | d1 + 1 => balancedCheck d1 rest
    else balancedCheck d rest

/-! ## What the reader delivers -/

/-- The tokens of `<menu name="Units"><property name="team"><value>red</value>
<value>blue</value></property></menu>`. -/
def sampleProperties : List Token :=
  [ tStart "menu" "Units", tStart "property" "team",
    tStart "value" "", tChars "red", tEnd "value",
    tStart "value" "", tChars "blue", tEnd "value",
    tEnd "property", tEnd "menu" ]

/-- The tokens of `<menu name="Units"><template name="guard"><property
name="team">red</property><property name="hp">10</property></template></menu>`. -/
def sampleTemplates : List Token :=
  [ tStart "menu" "Units", tStart "template" "guard",
    tStart "property" "team", tChars "red", tEnd "property",
    tStart "property" "hp", tChars "10", tEnd "property",
    tEnd "template", tEnd "menu" ]

/-- Two object groups of a sample map. -/
def sampleGroups : List ObjectGroup :=
  [ { id := 0, name := "ground", drawOrder := DrawOrder.IndexOrder },
    { id := 1, name := "sky", drawOrder := DrawOrder.TopDownOrder } ]

/-- A sample invocation: objects 1 and 2 selected, object 1 current, both files
present, the user picks node `chosen`. -/
def sampleEnv (chosen : Option Nat) : Env :=
  { doc := { selectedObjects := [1, 2], objectGroups := sampleGroups,
             currentObject := some 1, currentObjects := [1, 2] },
    objectGroupOf := fun _ => { id := 0, name := "ground", drawOrder := DrawOrder.IndexOrder },
    propertiesFile := some sampleProperties,
    templatesFile := some sampleTemplates,
    chosen := chosen }

/-- A tool whose registries hold one record each from an earlier invocation. -/
def sampleTool : AbstractObjectTool :=
  { mCustomProperties := [{ name := "old", value := "1" }],
    mCustomTemplates := [[{ name := "old", value := "1" }]] }

/-- The result of a run known to end normally. -/
def Except.okValue {α : Type} (fallback : α) : Except Crash α → α
  | Except.ok a => a
  | Except.error _ => fallback

/-- The menu built for the sample invocation. -/
def sampleBuilt : Built :=
  Except.okValue { nodes := [], propertiesAction := 0, tool := sampleTool, calls := [] }
    (buildMenu (sampleEnv none) {1, 2} sampleTool)

/-- The outcome of the sample invocation when the user picks node `chosen`. -/
def sampleOutcome (chosen : Option Nat) : Outcome :=
  Except.okValue { tool := sampleTool, scene := { selectedObjectItems := ∅ }, menu := none,
                   calls := [] }
    (showContextMenu (sampleEnv chosen) sampleTool { selectedObjectItems := {1, 2} }
      (some 1) (0, 0))

/-! ## Invariants of the loaders -/

/-- Every `addProperty` index bound in `nodes` is in `[0, np)` and every
`applyTemplate` index is in `[0, nt)`. -/
def slotsValid (nodes : List Node) (np nt : Nat) : Prop :=
  ∀ node ∈ nodes, ∀ i : Int,
    (node.slot = some (Slot.addProperty i) → 0 ≤ i ∧ i < (np : Int)) ∧
    (node.slot = some (Slot.applyTemplate i) → 0 ≤ i ∧ i < (nt : Int))

/-- The nodes that lines 322-351 add when `n` nodes exist already; they are made
from the document, the object groups of the selected items and the selection. -/
def menuTail (doc : MapDocument) (objectGroupOf : Nat → ObjectGroup) (selection : Finset Nat)
    (n : Nat) : List Node :=
  flipNodes ++ raiseLowerNodes objectGroupOf selection ++
    moveToLayerNodes doc (n + (flipNodes ++ raiseLowerNodes objectGroupOf selection).length) ++
    propertiesNodes doc

/-- What a node created by one of the two loaders looks like: no payload,
enabled, a plain text, and no slot other than `addProperty` or `applyTemplate`. -/
def LoadedNode (n : Node) : Prop :=
  n.data = none ∧ n.enabled = true ∧ (∃ text, n.text = Label.plain text) ∧
  (n.slot = none ∨ ∃ i : Int, n.slot = some (Slot.addProperty i) ∨
    n.slot = some (Slot.applyTemplate i))

/-- Every node hangs under a node created before it. -/
def parentsBelow (nodes : List Node) : Prop :=
  ∀ (k : Nat) (node : Node), nodes[k]? = some node → ∀ q, node.parent = some q → q < k

/-- The loader of custom properties keeps its pointers inside the nodes built,
adds only nodes of the loader's kind, and never touches the nodes it found. -/
def PropertyLoader.Grown (base : List Node) (s : PropertyLoader) : Prop :=
  parentsBelow s.nodes ∧
  (∀ p, s.parentMenu = some p → p < s.nodes.length) ∧
  (∀ p, s.propertyMenu = some p → p < s.nodes.length) ∧
  ∃ added, s.nodes = base ++ added ∧ ∀ n ∈ added, LoadedNode n

/-- The loader of custom templates keeps its pointer inside the nodes built,
adds only nodes of the loader's kind, and never touches the nodes it found. -/
def TemplateLoader.Grown (base : List Node) (s : TemplateLoader) : Prop :=
  parentsBelow s.nodes ∧
  (∀ p, s.parentMenu = some p → p < s.nodes.length) ∧
  ∃ added, s.nodes = base ++ added ∧ ∀ n ∈ added, LoadedNode n

/-- The entry of the submenu "Move to Layer" (node `m`) for an object group. -/
def layerEntry (m : Nat) (objectGroup : ObjectGroup) : Node :=
  { Node.act (Label.plain objectGroup.name) m none with data := some objectGroup }

/-- The nodes created before the submenu "Move to Layer" is dealt with: none of
them is that submenu, none carries a payload, and each hangs under one of them. -/
def Plain (nodes : List Node) : Prop :=
  ∀ n ∈ nodes, n.isMoveToLayerMenu = false ∧ n.data = none ∧
    ∀ q, n.parent = some q → q < nodes.length

/-- What holds of the custom-property loop as long as the groups read so far are
balanced: `parentMenu` is a node `d` levels below the submenu root `r`, where `d`
more `menu` end events than start events can still come; `propertyMenu`, when
set, and every node added hang at or below `r`. -/
def PropertyLoader.Inside (base : List Node) (r : Nat) (s : PropertyLoader) (d : Nat) : Prop :=
  (∃ p, s.parentMenu = some p ∧ AncestorAt s.nodes r d p) ∧
  (∀ pm, s.propertyMenu = some pm → r ≤ pm) ∧
  ∃ added, s.nodes = base ++ added ∧ Under r added

/-- The same for the custom-template loop. -/
def TemplateLoader.Inside (base : List Node) (r : Nat) (s : TemplateLoader) (d : Nat) : Prop :=
  (∃ p, s.parentMenu = some p ∧ AncestorAt s.nodes r d p) ∧
  ∃ added, s.nodes = base ++ added ∧ Under r added

/-- Two runs of the custom-property loop that differ only in what the registry
held before (`r1`, `r2`): the same records were added, the pointers agree and
the nodes hang under the same parents. -/
def PropertyLoader.Sim (r1 r2 : List Property) (s a : PropertyLoader) : Prop :=
  (∃ recs, s.mCustomProperties = r1 ++ recs ∧ a.mCustomProperties = r2 ++ recs) ∧
  s.parentMenu = a.parentMenu ∧ s.propertyMenu = a.propertyMenu ∧
  s.propertyName = a.propertyName ∧ s.nodes.map Node.parent = a.nodes.map Node.parent

/-- Two runs of the custom-template loop that differ only in what the registry
held before. -/
def TemplateLoader.Sim (r1 r2 : List (List Property)) (s a : TemplateLoader) : Prop :=
  (∃ recs, s.mCustomTemplates = r1 ++ recs ∧ a.mCustomTemplates = r2 ++ recs) ∧
  s.parentMenu = a.parentMenu ∧ s.templateName = a.templateName ∧
  s.currentTemplate = a.currentTemplate ∧ s.nodes.map Node.parent = a.nodes.map Node.parent

/-! ## Sample inputs without definition files -/

/-- Sample invocation without the two definition files. -/
def sampleEnvNoFiles : Env :=
  { sampleEnv none with propertiesFile := none, templatesFile := none }

/-- The menu built for the sample invocation without definition files. -/
def sampleBuiltNoFiles : Built :=
  Except.okValue { nodes := [], propertiesAction := 0, tool := sampleTool, calls := [] }
    (buildMenu sampleEnvNoFiles {1, 2} sampleTool)

/-! ## Proofs: the loops read every token at most once -/

theorem readElementText_length (tokens : List Token) (acc : String) :
    (readElementText tokens acc).2.1.length ≤ tokens.length := by
  induction tokens generalizing acc with
  | nil => simp [readElementText]
  | cons t rest ih =>
    unfold readElementText
    split <;> first
      | exact Nat.le_succ_of_le (ih _)
      | simp

theorem propertiesStep_length {t : Token} {rest : List Token} {s s1 : PropertyLoader}
    {rest1 : List Token} {err : Bool}
    (h : propertiesStep t rest s = Except.ok (s1, rest1, err)) :
    rest1.length ≤ rest.length := by
  unfold propertiesStep at h
  split_ifs at h <;> (try split at h) <;> simp at h <;>
    first
      | (obtain ⟨_, rfl, _⟩ := h; exact le_refl _)
      | (obtain ⟨_, h2⟩ := h
         have h3 := congrArg Prod.fst h2
         simp only [] at h3
         rw [← h3]
         exact readElementText_length _ _)

theorem templatesStep_length {t : Token} {rest : List Token} {s s1 : TemplateLoader}
    {rest1 : List Token} {err : Bool}
    (h : templatesStep t rest s = Except.ok (s1, rest1, err)) :
    rest1.length ≤ rest.length := by
  unfold templatesStep at h
  split_ifs at h <;> (try split at h) <;> simp at h <;>
    first
      | (obtain ⟨_, rfl, _⟩ := h; exact le_refl _)
      | (obtain ⟨_, h2⟩ := h
         have h3 := congrArg Prod.fst h2
         simp only [] at h3
         rw [← h3]
         exact readElementText_length _ _)

theorem propertiesLoop_fuel (n : Nat) :
    ∀ (m : Nat) (tokens : List Token) (s : PropertyLoader), tokens.length ≤ n → tokens.length ≤ m →
      propertiesLoop n tokens s = propertiesLoop m tokens s := by
  induction n with
  | zero =>
    intro m tokens s h _
    have : tokens = [] := List.length_eq_zero.mp (Nat.le_zero.mp h)
    subst this
    cases m <;> rfl
  | succ n ih =>
    intro m tokens s h hm
    cases tokens with
    | nil => cases m <;> rfl
    | cons t rest =>
      cases m with
      | zero => simp at hm
      | succ m =>
        simp only [propertiesLoop]
        cases hstep : propertiesStep t rest s with
        | error e => rfl
        | ok r =>
          obtain ⟨s1, rest1, err⟩ := r
          have h1 : rest1.length ≤ rest.length := propertiesStep_length hstep
          have h2 : rest.length ≤ n := Nat.le_of_succ_le_succ h
          have h3 : rest.length ≤ m := Nat.le_of_succ_le_succ hm
          simp only []
          rw [ih m rest1 s1 (le_trans h1 h2) (le_trans h1 h3)]

theorem templatesLoop_fuel (n : Nat) :
    ∀ (m : Nat) (tokens : List Token) (s : TemplateLoader), tokens.length ≤ n → tokens.length ≤ m →
      templatesLoop n tokens s = templatesLoop m tokens s := by
  induction n with
  | zero =>
    intro m tokens s h _
    have : tokens = [] := List.length_eq_zero.mp (Nat.le_zero.mp h)
    subst this
    cases m <;> rfl
  | succ n ih =>
    intro m tokens s h hm
    cases tokens with
    | nil => cases m <;> rfl
    | cons t rest =>
      cases m with
      | zero => simp at hm
      | succ m =>
        simp only [templatesLoop]
        cases hstep : templatesStep t rest s with
        | error e => rfl
        | ok r =>
          obtain ⟨s1, rest1, err⟩ := r
          have h1 : rest1.length ≤ rest.length := templatesStep_length hstep
          have h2 : rest.length ≤ n := Nat.le_of_succ_le_succ h
          have h3 : rest.length ≤ m := Nat.le_of_succ_le_succ hm
          simp only []
          rw [ih m rest1 s1 (le_trans h1 h2) (le_trans h1 h3)]

theorem loadProperties_nil (s : PropertyLoader) : loadProperties [] s = Except.ok s := rfl

theorem loadProperties_cons (t : Token) (rest : List Token) (s : PropertyLoader) :
    loadProperties (t :: rest) s =
      match propertiesStep t rest s with
      | Except.error e => Except.error e
      | Except.ok (s1, rest1, err) => if err then Except.ok s1 else loadProperties rest1 s1 := by
  simp only [loadProperties, List.length_cons, propertiesLoop]
  cases hstep : propertiesStep t rest s with
  | error e => rfl
  | ok r =>
    obtain ⟨s1, rest1, err⟩ := r
    simp only []
    rw [propertiesLoop_fuel _ _ _ _ (propertiesStep_length hstep) (le_refl _)]

theorem loadTemplates_nil (s : TemplateLoader) : loadTemplates [] s = Except.ok s := rfl

theorem loadTemplates_cons (t : Token) (rest : List Token) (s : TemplateLoader) :
    loadTemplates (t :: rest) s =
      match templatesStep t rest s with
      | Except.error e => Except.error e
      | Except.ok (s1, rest1, err) => if err then Except.ok s1 else loadTemplates rest1 s1 := by
  simp only [loadTemplates, List.length_cons, templatesLoop]
  cases hstep : templatesStep t rest s with
  | error e => rfl
  | ok r =>
    obtain ⟨s1, rest1, err⟩ := r
    simp only []
    rw [templatesLoop_fuel _ _ _ _ (templatesStep_length hstep) (le_refl _)]

/-! ## What one iteration adds -/

/-- One iteration of the custom-property loop adds nothing, or one submenu under
`parentMenu`, or one action under `propertyMenu` together with one record, the
action being bound to the index of that record. -/
theorem propertiesStep_cases {t : Token} {rest : List Token} {s s1 : PropertyLoader}
    {rest1 : List Token} {err : Bool}
    (h : propertiesStep t rest s = Except.ok (s1, rest1, err)) :
    (s1.nodes = s.nodes ∧ s1.mCustomProperties = s.mCustomProperties) ∨
    (∃ p title, s.parentMenu = some p ∧ s1.nodes = s.nodes ++ [Node.submenu title p] ∧
      s1.mCustomProperties = s.mCustomProperties) ∨
    (∃ pm v, s.propertyMenu = some pm ∧
      s1.nodes = s.nodes ++ [Node.act (Label.plain v) pm
        (some (Slot.addProperty (s.mCustomProperties.length : Int)))] ∧
      s1.mCustomProperties = s.mCustomProperties ++ [{ name := s.propertyName, value := v }]) := by
  unfold propertiesStep at h
  split_ifs at h <;> (try split at h) <;> simp at h <;> obtain ⟨rfl, _⟩ := h
  all_goals first
    | (left; exact ⟨rfl, rfl⟩)
    | (right; left; exact ⟨_, _, by assumption, rfl, rfl⟩)
    | (right; right; refine ⟨_, _, by assumption, ?_, rfl⟩; simp)

/-- One iteration of the custom-template loop adds nothing, or one submenu under
`parentMenu`, or one action under `parentMenu` together with one record, the
action being bound to the index of that record. -/
theorem templatesStep_cases {t : Token} {rest : List Token} {s s1 : TemplateLoader}
    {rest1 : List Token} {err : Bool}
    (h : templatesStep t rest s = Except.ok (s1, rest1, err)) :
    (s1.nodes = s.nodes ∧ s1.mCustomTemplates = s.mCustomTemplates) ∨
    (∃ p title, s.parentMenu = some p ∧ s1.nodes = s.nodes ++ [Node.submenu title p] ∧
      s1.mCustomTemplates = s.mCustomTemplates) ∨
    (∃ p, s.parentMenu = some p ∧
      s1.nodes = s.nodes ++ [Node.act (Label.plain s.templateName) p
        (some (Slot.applyTemplate (s.mCustomTemplates.length : Int)))] ∧
      s1.mCustomTemplates = s.mCustomTemplates ++ [s.currentTemplate]) := by
  unfold templatesStep at h
  split_ifs at h <;> (try split at h) <;> simp at h <;> obtain ⟨rfl, _⟩ := h
  all_goals first
    | (left; exact ⟨rfl, rfl⟩)
    | (right; left; exact ⟨_, _, by assumption, rfl, rfl⟩)
    | (right; right; refine ⟨_, by assumption, ?_, rfl⟩; simp)

/-- A property of the variables that every iteration keeps holds when the
custom-property loop ends. -/
theorem loadProperties_invariant (I : PropertyLoader → Prop)
    (hstep : ∀ t rest s s1 rest1 err, I s →
      propertiesStep t rest s = Except.ok (s1, rest1, err) → I s1) :
    ∀ (n : Nat) (tokens : List Token) (s s2 : PropertyLoader), tokens.length ≤ n → I s →
      loadProperties tokens s = Except.ok s2 → I s2 := by
  intro n
  induction n with
  | zero =>
    intro tokens s s2 hn hI h
    have : tokens = [] := List.length_eq_zero.mp (Nat.le_zero.mp hn)
    subst this
    rw [loadProperties_nil] at h
    cases h
    exact hI
  | succ n ih =>
    intro tokens s s2 hn hI h
    cases tokens with
    | nil =>
      rw [loadProperties_nil] at h
      cases h
      exact hI
    | cons t rest =>
      rw [loadProperties_cons] at h
      cases hs : propertiesStep t rest s with
      | error e => rw [hs] at h; cases h
      | ok r =>
        obtain ⟨s1, rest1, err⟩ := r
        rw [hs] at h
        have hI1 : I s1 := hstep _ _ _ _ _ _ hI hs
        cases err with
        | true =>
          simp only [if_true] at h
          cases h
          exact hI1
        | false =>
          simp only [Bool.false_eq_true, if_false] at h
          exact ih rest1 s1 s2
            (le_trans (propertiesStep_length hs) (Nat.le_of_succ_le_succ hn)) hI1 h

/-- A property of the variables that every iteration keeps holds when the
custom-template loop ends. -/
theorem loadTemplates_invariant (I : TemplateLoader → Prop)
    (hstep : ∀ t rest s s1 rest1 err, I s →
      templatesStep t rest s = Except.ok (s1, rest1, err) → I s1) :
    ∀ (n : Nat) (tokens : List Token) (s s2 : TemplateLoader), tokens.length ≤ n → I s →
      loadTemplates tokens s = Except.ok s2 → I s2 := by
  intro n
  induction n with
  | zero =>
    intro tokens s s2 hn hI h
    have : tokens = [] := List.length_eq_zero.mp (Nat.le_zero.mp hn)
    subst this
    rw [loadTemplates_nil] at h
    cases h
    exact hI
  | succ n ih =>
    intro tokens s s2 hn hI h
    cases tokens with
    | nil =>
      rw [loadTemplates_nil] at h
      cases h
      exact hI
    | cons t rest =>
      rw [loadTemplates_cons] at h
      cases hs : templatesStep t rest s with
      | error e => rw [hs] at h; cases h
      | ok r =>
        obtain ⟨s1, rest1, err⟩ := r
        rw [hs] at h
        have hI1 : I s1 := hstep _ _ _ _ _ _ hI hs
        cases err with
        | true =>
          simp only [if_true] at h
          cases h
          exact hI1
        | false =>
          simp only [Bool.false_eq_true, if_false] at h
          exact ih rest1 s1 s2
            (le_trans (templatesStep_length hs) (Nat.le_of_succ_le_succ hn)) hI1 h

/-! ## The parts of `buildMenu` -/

theorem readPropertiesFile_ok {file : Option (List Token)} {s ps : PropertyLoader}
    {calls : List Call} (h : readPropertiesFile file s = Except.ok (ps, calls)) :
    (file = none ∧ ps = s ∧ calls = [Call.print "Can't open customProperties.xml"]) ∨
    (∃ tokens, file = some tokens ∧ loadProperties tokens s = Except.ok ps ∧ calls = []) := by
  unfold readPropertiesFile at h
  cases file with
  | none =>
    simp at h
    exact Or.inl ⟨rfl, h.1.symm, h.2.symm⟩
  | some tokens =>
    right
    cases hl : loadProperties tokens s with
    | error e => simp [hl] at h
    | ok s1 =>
      simp [hl] at h
      exact ⟨tokens, rfl, by rw [← h.1]; exact hl, h.2⟩

theorem readTemplatesFile_ok {file : Option (List Token)} {s ts : TemplateLoader}
    {calls : List Call} (h : readTemplatesFile file s = Except.ok (ts, calls)) :
    (file = none ∧ ts = s ∧ calls = [Call.print "Can't open customTemplates.xml"]) ∨
    (∃ tokens, file = some tokens ∧ loadTemplates tokens s = Except.ok ts ∧ calls = []) := by
  unfold readTemplatesFile at h
  cases file with
  | none =>
    simp at h
    exact Or.inl ⟨rfl, h.1.symm, h.2.symm⟩
  | some tokens =>
    right
    cases hl : loadTemplates tokens s with
    | error e => simp [hl] at h
    | ok s1 =>
      simp [hl] at h
      exact ⟨tokens, rfl, by rw [← h.1]; exact hl, h.2⟩

theorem buildMenu_ok {env : Env} {selection : Finset Nat} {tool : AbstractObjectTool}
    {b : Built} (h : buildMenu env selection tool = Except.ok b) :
    ∃ ps calls1 ts calls2,
      readPropertiesFile env.propertiesFile (propertiesInit selection tool) =
        Except.ok (ps, calls1) ∧
      readTemplatesFile env.templatesFile (templatesInit ps.nodes tool) =
        Except.ok (ts, calls2) ∧
      b.nodes = menuEnd env selection ts.nodes ∧
      b.propertiesAction = (menuEnd env selection ts.nodes).length - 1 ∧
      b.tool = { mCustomProperties := ps.mCustomProperties,
                 mCustomTemplates := ts.mCustomTemplates } ∧
      b.calls = calls1 ++ calls2 ++
        [Call.setThemeIcon 2 "edit-delete",
         Call.setThemeIcon ((menuEnd env selection ts.nodes).length - 1) "document-properties"] := by
  unfold buildMenu at h
  cases h1 : readPropertiesFile env.propertiesFile (propertiesInit selection tool) with
  | error e => simp [h1] at h
  | ok r1 =>
    obtain ⟨ps, calls1⟩ := r1
    simp only [h1] at h
    cases h2 : readTemplatesFile env.templatesFile (templatesInit ps.nodes tool) with
    | error e => simp [h2] at h
    | ok r2 =>
      obtain ⟨ts, calls2⟩ := r2
      simp only [h2] at h
      cases h
      exact ⟨ps, calls1, ts, calls2, rfl, h2, rfl, rfl, rfl, rfl⟩

theorem buildMenu_ok_nodes {env : Env} {selection : Finset Nat} {tool : AbstractObjectTool}
    {b : Built} (h : buildMenu env selection tool = Except.ok b) :
    b.propertiesAction = b.nodes.length - 1 := by
  obtain ⟨_, _, _, _, _, _, hn, hpa, _, _⟩ := buildMenu_ok h
  rw [hpa, hn]

/-! ## Bound indices stay inside the registries -/

theorem slotsValid_append {nodes added : List Node} {np nt : Nat}
    (h1 : slotsValid nodes np nt) (h2 : slotsValid added np nt) :
    slotsValid (nodes ++ added) np nt := by
  intro node hn
  rcases List.mem_append.mp hn with h | h
  · exact h1 node h
  · exact h2 node h

theorem slotsValid_mono {nodes : List Node} {np nt np1 nt1 : Nat}
    (h : slotsValid nodes np nt) (hp : np ≤ np1) (ht : nt ≤ nt1) :
    slotsValid nodes np1 nt1 := by
  intro node hn i
  have hp1 : (np : Int) ≤ np1 := by exact_mod_cast hp
  have ht1 : (nt : Int) ≤ nt1 := by exact_mod_cast ht
  refine ⟨fun hs => ?_, fun hs => ?_⟩
  · have := (h node hn i).1 hs
    exact ⟨this.1, lt_of_lt_of_le this.2 hp1⟩
  · have := (h node hn i).2 hs
    exact ⟨this.1, lt_of_lt_of_le this.2 ht1⟩

theorem slotsValid_of_unbound {nodes : List Node} (np nt : Nat)
    (h : ∀ node ∈ nodes, ∀ i : Int,
      node.slot ≠ some (Slot.addProperty i) ∧ node.slot ≠ some (Slot.applyTemplate i)) :
    slotsValid nodes np nt := by
  intro node hn i
  exact ⟨fun hs => absurd hs (h node hn i).1, fun hs => absurd hs (h node hn i).2⟩

theorem propertiesStep_slotsValid (nt : Nat) {t : Token} {rest : List Token}
    {s s1 : PropertyLoader} {rest1 : List Token} {err : Bool}
    (hI : slotsValid s.nodes s.mCustomProperties.length nt)
    (h : propertiesStep t rest s = Except.ok (s1, rest1, err)) :
    slotsValid s1.nodes s1.mCustomProperties.length nt := by
  rcases propertiesStep_cases h with ⟨hn, hr⟩ | ⟨p, title, _, hn, hr⟩ | ⟨pm, v, _, hn, hr⟩
  · rw [hn, hr]; exact hI
  · rw [hn, hr]
    refine slotsValid_append hI (slotsValid_of_unbound _ _ ?_)
    intro node hmem i
    rw [List.mem_singleton] at hmem
    subst hmem
    simp [Node.submenu]
  · rw [hn, hr]
    refine slotsValid_append (slotsValid_mono hI (by simp) (le_refl _)) ?_
    intro node hmem i
    rw [List.mem_singleton] at hmem
    subst hmem
    simp only [Node.act, Option.some.injEq, Slot.addProperty.injEq, List.length_append,
      List.length_singleton, reduceCtorEq, false_implies, and_true]
    intro hi
    subst hi
    push_cast
    omega

theorem templatesStep_slotsValid (np : Nat) {t : Token} {rest : List Token}
    {s s1 : TemplateLoader} {rest1 : List Token} {err : Bool}
    (hI : slotsValid s.nodes np s.mCustomTemplates.length)
    (h : templatesStep t rest s = Except.ok (s1, rest1, err)) :
    slotsValid s1.nodes np s1.mCustomTemplates.length := by
  rcases templatesStep_cases h with ⟨hn, hr⟩ | ⟨p, title, _, hn, hr⟩ | ⟨p, _, hn, hr⟩
  · rw [hn, hr]; exact hI
  · rw [hn, hr]
    refine slotsValid_append hI (slotsValid_of_unbound _ _ ?_)
    intro node hmem i
    rw [List.mem_singleton] at hmem
    subst hmem
    simp [Node.submenu]
  · rw [hn, hr]
    refine slotsValid_append (slotsValid_mono hI (le_refl _) (by simp)) ?_
    intro node hmem i
    rw [List.mem_singleton] at hmem
    subst hmem
    simp only [Node.act, Option.some.injEq, Slot.applyTemplate.injEq, List.length_append,
      List.length_singleton, reduceCtorEq, false_implies, true_and]
    intro hi
    subst hi
    push_cast
    omega

theorem menuEnd_eq (env : Env) (selection : Finset Nat) (nodes : List Node) :
    menuEnd env selection nodes = nodes ++ menuTail env.doc env.objectGroupOf selection nodes.length := by
  simp [menuEnd, menuTail, List.append_assoc]

theorem raiseLowerNodes_cases (objectGroupOf : Nat → ObjectGroup) (selection : Finset Nat) :
    raiseLowerNodes objectGroupOf selection = [] ∨
    raiseLowerNodes objectGroupOf selection = Node.sep 0 :: raiseLowerActions := by
  unfold raiseLowerNodes
  split
  · split_ifs
    · exact Or.inr rfl
    · exact Or.inl rfl
  · exact Or.inl rfl

theorem menuTail_unbound (doc : MapDocument) (objectGroupOf : Nat → ObjectGroup)
    (selection : Finset Nat) (n : Nat) :
    ∀ node ∈ menuTail doc objectGroupOf selection n, ∀ i : Int,
      node.slot ≠ some (Slot.addProperty i) ∧ node.slot ≠ some (Slot.applyTemplate i) := by
  intro node hn i
  unfold menuTail at hn
  simp only [List.mem_append] at hn
  rcases hn with ((hn | hn) | hn) | hn
  · simp [flipNodes, Node.sep, Node.act] at hn
    rcases hn with rfl | rfl | rfl <;> simp
  · rcases raiseLowerNodes_cases objectGroupOf selection with h | h
    · rw [h] at hn; cases hn
    · rw [h] at hn
      simp [raiseLowerActions, Node.sep, Node.act] at hn
      rcases hn with rfl | rfl | rfl | rfl | rfl <;> simp
  · unfold moveToLayerNodes at hn
    split_ifs at hn
    · simp [Node.sep, Node.submenu, Node.act] at hn
      rcases hn with rfl | rfl | ⟨g, _, rfl⟩ <;> simp
    · cases hn
  · simp [propertiesNodes, Node.sep, Node.act] at hn
    rcases hn with rfl | rfl <;> simp

theorem menuStart_unbound (selection : Finset Nat) :
    ∀ node ∈ menuStart selection, ∀ i : Int,
      node.slot ≠ some (Slot.addProperty i) ∧ node.slot ≠ some (Slot.applyTemplate i) := by
  intro node hn i
  simp [menuStart, Node.root, Node.sep, Node.submenu, Node.act] at hn
  rcases hn with rfl | rfl | rfl | rfl | rfl <;> simp

theorem buildMenu_slotsValid {env : Env} {selection : Finset Nat} {tool : AbstractObjectTool}
    {b : Built} (h : buildMenu env selection tool = Except.ok b) :
    slotsValid b.nodes b.tool.mCustomProperties.length b.tool.mCustomTemplates.length := by
  obtain ⟨ps, calls1, ts, calls2, h1, h2, hn, _, ht, _⟩ := buildMenu_ok h
  have hp : slotsValid ps.nodes ps.mCustomProperties.length tool.mCustomTemplates.length := by
    have h0 : slotsValid (propertiesInit selection tool).nodes
        (propertiesInit selection tool).mCustomProperties.length
        tool.mCustomTemplates.length :=
      slotsValid_of_unbound _ _ (menuStart_unbound selection)
    rcases readPropertiesFile_ok h1 with ⟨_, rfl, _⟩ | ⟨tokens, _, hl, _⟩
    · exact h0
    · exact loadProperties_invariant
        (fun s => slotsValid s.nodes s.mCustomProperties.length tool.mCustomTemplates.length)
        (fun _ _ _ _ _ _ hI hs => propertiesStep_slotsValid _ hI hs) _ tokens _ _ (le_refl _) h0 hl
  have hts : slotsValid ts.nodes ps.mCustomProperties.length ts.mCustomTemplates.length := by
    have h0 : slotsValid (templatesInit ps.nodes tool).nodes ps.mCustomProperties.length
        (templatesInit ps.nodes tool).mCustomTemplates.length := by
      refine slotsValid_append hp (slotsValid_of_unbound _ _ ?_)
      intro node hmem i
      rw [List.mem_singleton] at hmem
      subst hmem
      simp [Node.submenu]
    rcases readTemplatesFile_ok h2 with ⟨_, rfl, _⟩ | ⟨tokens, _, hl, _⟩
    · exact h0
    · exact loadTemplates_invariant
        (fun s => slotsValid s.nodes ps.mCustomProperties.length s.mCustomTemplates.length)
        (fun _ _ _ _ _ _ hI hs => templatesStep_slotsValid _ hI hs) _ tokens _ _ (le_refl _) h0 hl
  rw [hn, ht, menuEnd_eq]
  exact slotsValid_append hts (slotsValid_of_unbound _ _ (menuTail_unbound _ _ _ _))

theorem addProperty_ok_of_valid (tool : AbstractObjectTool) (doc : MapDocument) (i : Int)
    (h0 : 0 ≤ i) (h1 : i < (tool.mCustomProperties.length : Int)) :
    ∃ calls, tool.addProperty doc i = Except.ok (tool, calls) := by
  unfold AbstractObjectTool.addProperty
  cases doc.currentObject with
  | none => exact ⟨_, rfl⟩
  | some o =>
    have hlt : i.toNat < tool.mCustomProperties.length := by omega
    simp [h0, List.getElem?_eq_getElem hlt]

theorem applyTemplate_ok_of_valid (tool : AbstractObjectTool) (doc : MapDocument) (i : Int)
    (h0 : 0 ≤ i) (h1 : i < (tool.mCustomTemplates.length : Int)) :
    ∃ calls, tool.applyTemplate doc i = Except.ok (tool, calls) := by
  unfold AbstractObjectTool.applyTemplate
  cases doc.currentObject with
  | none => exact ⟨_, rfl⟩
  | some o =>
    have hlt : i.toNat < tool.mCustomTemplates.length := by omega
    simp [h0, List.getElem?_eq_getElem hlt]

/-! ## The nodes the loaders create -/

theorem loadedNode_submenu (title : String) (p : Nat) :
    LoadedNode (Node.submenu (Label.plain title) p) :=
  ⟨rfl, rfl, ⟨title, rfl⟩, Or.inl rfl⟩

theorem loadedNode_act (text : String) (p : Nat) (slot : Slot)
    (h : ∃ i : Int, slot = Slot.addProperty i ∨ slot = Slot.applyTemplate i) :
    LoadedNode (Node.act (Label.plain text) p (some slot)) := by
  obtain ⟨i, hi⟩ := h
  refine ⟨rfl, rfl, ⟨text, rfl⟩, Or.inr ⟨i, ?_⟩⟩
  rcases hi with rfl | rfl
  · exact Or.inl rfl
  · exact Or.inr rfl

theorem parentsBelow_append_one {nodes : List Node} {n : Node}
    (h : parentsBelow nodes) (hn : ∀ q, n.parent = some q → q < nodes.length) :
    parentsBelow (nodes ++ [n]) := by
  intro k node hk q hq
  by_cases hlt : k < nodes.length
  · rw [List.getElem?_append_left hlt] at hk
    exact h k node hk q hq
  · have hge : nodes.length ≤ k := Nat.le_of_not_lt hlt
    rw [List.getElem?_append_right hge] at hk
    have hk0 : k - nodes.length = 0 := by
      by_contra hne
      obtain ⟨j, hj⟩ := Nat.exists_eq_succ_of_ne_zero hne
      rw [hj] at hk
      simp at hk
    rw [hk0] at hk
    simp at hk
    subst hk
    exact lt_of_lt_of_le (hn q hq) hge

theorem parentOf_lt {nodes : List Node} (h : parentsBelow nodes) {p q : Nat}
    (hq : parentOf nodes p = some q) : q < p ∧ p < nodes.length := by
  unfold parentOf at hq
  cases hp : nodes[p]? with
  | none => simp [hp] at hq
  | some node =>
    rw [hp] at hq
    simp at hq
    refine ⟨h p node hp q hq, ?_⟩
    by_contra hge
    rw [List.getElem?_eq_none (Nat.le_of_not_lt hge)] at hp
    cases hp

theorem grown_append_one {base nodes : List Node} {n : Node}
    (h : ∃ added, nodes = base ++ added ∧ ∀ n ∈ added, LoadedNode n) (hn : LoadedNode n) :
    ∃ added, nodes ++ [n] = base ++ added ∧ ∀ n ∈ added, LoadedNode n := by
  obtain ⟨added, ha, hl⟩ := h
  refine ⟨added ++ [n], by rw [ha, List.append_assoc], ?_⟩
  intro m hm
  rcases List.mem_append.mp hm with h1 | h1
  · exact hl m h1
  · rw [List.mem_singleton] at h1
    subst h1
    exact hn

/-- The six things one iteration of the custom-property loop can do. -/
theorem propertiesStep_spec {t : Token} {rest : List Token} {s s1 : PropertyLoader}
    {rest1 : List Token} {err : Bool}
    (h : propertiesStep t rest s = Except.ok (s1, rest1, err)) :
    (s1 = s ∧ rest1 = rest ∧
      ¬ (t.name = "menu" ∧ t.tokenType = TokenType.StartElement) ∧
      ¬ (t.name = "menu" ∧ t.tokenType = TokenType.EndElement)) ∨
    (∃ p, s.parentMenu = some p ∧ t.name = "menu" ∧ t.tokenType = TokenType.StartElement ∧
      rest1 = rest ∧
      s1 = { s with nodes := s.nodes ++ [Node.submenu (Label.plain t.nameAttr) p],
                    parentMenu := some s.nodes.length }) ∨
    (∃ p, s.parentMenu = some p ∧ t.name = "menu" ∧ t.tokenType = TokenType.EndElement ∧
      rest1 = rest ∧ s1 = { s with parentMenu := parentOf s.nodes p }) ∨
    (∃ p, s.parentMenu = some p ∧ t.name = "property" ∧
      t.tokenType = TokenType.StartElement ∧ rest1 = rest ∧
      s1 = { s with nodes := s.nodes ++ [Node.submenu (Label.plain t.nameAttr) p],
                    propertyMenu := some s.nodes.length,
                    propertyName := t.nameAttr }) ∨
    (t.name = "property" ∧ t.tokenType = TokenType.EndElement ∧ rest1 = rest ∧
      s1 = { s with propertyMenu := none }) ∨
    (∃ pm, s.propertyMenu = some pm ∧ t.name = "value" ∧
      t.tokenType = TokenType.StartElement ∧
      rest1 = (readElementText rest "").2.1 ∧ err = (readElementText rest "").2.2 ∧
      s1 = { s with nodes := s.nodes ++
                      [Node.act (Label.plain (readElementText rest "").1) pm
                        (some (Slot.addProperty (s.mCustomProperties.length : Int)))],
                    mCustomProperties := s.mCustomProperties ++
                      [{ name := s.propertyName, value := (readElementText rest "").1 }] }) := by
  unfold propertiesStep at h
  split_ifs at h with h1 h2 h3 h4 h5 h6 h7 h8
  · split at h
    · cases h
    · rename_i p hp
      simp only [Except.ok.injEq, Prod.mk.injEq] at h
      obtain ⟨rfl, rfl, _⟩ := h
      exact Or.inr (Or.inl ⟨p, hp, h1, h2, rfl, rfl⟩)
  · split at h
    · cases h
    · rename_i p hp
      simp only [Except.ok.injEq, Prod.mk.injEq] at h
      obtain ⟨rfl, rfl, _⟩ := h
      exact Or.inr (Or.inr (Or.inl ⟨p, hp, h1, h3, rfl, rfl⟩))
  · simp only [Except.ok.injEq, Prod.mk.injEq] at h
    obtain ⟨rfl, rfl, _⟩ := h
    exact Or.inl ⟨rfl, rfl, fun hc => h2 hc.2, fun hc => h3 hc.2⟩
  · split at h
    · cases h
    · rename_i p hp
      simp only [Except.ok.injEq, Prod.mk.injEq] at h
      obtain ⟨rfl, rfl, _⟩ := h
      exact Or.inr (Or.inr (Or.inr (Or.inl ⟨p, hp, h4, h5, rfl, rfl⟩)))
  · simp only [Except.ok.injEq, Prod.mk.injEq] at h
    obtain ⟨rfl, rfl, _⟩ := h
    exact Or.inr (Or.inr (Or.inr (Or.inr (Or.inl ⟨h4, h6, rfl, rfl⟩))))
  · simp only [Except.ok.injEq, Prod.mk.injEq] at h
    obtain ⟨rfl, rfl, _⟩ := h
    exact Or.inl ⟨rfl, rfl, fun hc => h1 hc.1, fun hc => h1 hc.1⟩
  · split at h
    · simp only [Except.ok.injEq, Prod.mk.injEq] at h
      obtain ⟨rfl, rfl, _⟩ := h
      exact Or.inl ⟨rfl, rfl, fun hc => h1 hc.1, fun hc => h1 hc.1⟩
    · rename_i pm hp
      simp only [Except.ok.injEq, Prod.mk.injEq] at h
      obtain ⟨rfl, rfl, rfl⟩ := h
      refine Or.inr (Or.inr (Or.inr (Or.inr (Or.inr ⟨pm, hp, h7, h8, rfl, rfl, ?_⟩))))
      simp
  · simp only [Except.ok.injEq, Prod.mk.injEq] at h
    obtain ⟨rfl, rfl, _⟩ := h
    exact Or.inl ⟨rfl, rfl, fun hc => h1 hc.1, fun hc => h1 hc.1⟩
  · simp only [Except.ok.injEq, Prod.mk.injEq] at h
    obtain ⟨rfl, rfl, _⟩ := h
    exact Or.inl ⟨rfl, rfl, fun hc => h1 hc.1, fun hc => h1 hc.1⟩

theorem propertiesStep_grown (base : List Node) {t : Token} {rest : List Token}
    {s s1 : PropertyLoader} {rest1 : List Token} {err : Bool}
    (hI : s.Grown base) (h : propertiesStep t rest s = Except.ok (s1, rest1, err)) :
    s1.Grown base := by
  obtain ⟨hpb, hpm, hprm, hadd⟩ := hI
  rcases propertiesStep_spec h with ⟨rfl, _⟩ | ⟨p, hp, _, _, _, rfl⟩ | ⟨p, hp, _, _, _, rfl⟩ |
    ⟨p, hp, _, _, _, rfl⟩ | ⟨_, _, _, rfl⟩ | ⟨pm, hp, _, _, _, _, rfl⟩
  · exact ⟨hpb, hpm, hprm, hadd⟩
  · refine ⟨parentsBelow_append_one hpb ?_, ?_, ?_, grown_append_one hadd
      (loadedNode_submenu _ _)⟩
    · intro q hq
      have : p = q := by simpa [Node.submenu] using hq
      subst this
      exact hpm _ hp
    · intro q hq
      have : s.nodes.length = q := by simpa using hq
      subst this
      simp
    · intro q hq
      have := hprm q hq
      simp only [List.length_append, List.length_singleton]
      omega
  · refine ⟨hpb, ?_, hprm, hadd⟩
    intro q hq
    exact lt_trans (parentOf_lt hpb hq).1 (parentOf_lt hpb hq).2
  · refine ⟨parentsBelow_append_one hpb ?_, ?_, ?_, grown_append_one hadd
      (loadedNode_submenu _ _)⟩
    · intro q hq
      have : p = q := by simpa [Node.submenu] using hq
      subst this
      exact hpm _ hp
    · intro q hq
      have := hpm q hq
      simp only [List.length_append, List.length_singleton]
      omega
    · intro q hq
      have : s.nodes.length = q := by simpa using hq
      subst this
      simp
  · refine ⟨hpb, hpm, ?_, hadd⟩
    intro q hq
    cases hq
  · refine ⟨parentsBelow_append_one hpb ?_, ?_, ?_, grown_append_one hadd
      (loadedNode_act _ _ _ ⟨_, Or.inl rfl⟩)⟩
    · intro q hq
      have : pm = q := by simpa [Node.act] using hq
      subst this
      exact hprm _ hp
    · intro q hq
      have := hpm q hq
      simp only [List.length_append, List.length_singleton]
      omega
    · intro q hq
      have := hprm q hq
      simp only [List.length_append, List.length_singleton]
      omega

/-- The six things one iteration of the custom-template loop can do. -/
theorem templatesStep_spec {t : Token} {rest : List Token} {s s1 : TemplateLoader}
    {rest1 : List Token} {err : Bool}
    (h : templatesStep t rest s = Except.ok (s1, rest1, err)) :
    (s1 = s ∧ rest1 = rest ∧
      ¬ (t.name = "menu" ∧ t.tokenType = TokenType.StartElement) ∧
      ¬ (t.name = "menu" ∧ t.tokenType = TokenType.EndElement)) ∨
    (∃ p, s.parentMenu = some p ∧ t.name = "menu" ∧ t.tokenType = TokenType.StartElement ∧
      rest1 = rest ∧
      s1 = { s with nodes := s.nodes ++ [Node.submenu (Label.plain t.nameAttr) p],
                    parentMenu := some s.nodes.length }) ∨
    (∃ p, s.parentMenu = some p ∧ t.name = "menu" ∧ t.tokenType = TokenType.EndElement ∧
      rest1 = rest ∧ s1 = { s with parentMenu := parentOf s.nodes p }) ∨
    (t.name = "template" ∧ t.tokenType = TokenType.StartElement ∧ rest1 = rest ∧
      s1 = { s with templateName := t.nameAttr }) ∨
    (∃ p, s.parentMenu = some p ∧ t.name = "template" ∧
      t.tokenType = TokenType.EndElement ∧ rest1 = rest ∧
      s1 = { s with nodes := s.nodes ++
                      [Node.act (Label.plain s.templateName) p
                        (some (Slot.applyTemplate (s.mCustomTemplates.length : Int)))],
                    mCustomTemplates := s.mCustomTemplates ++ [s.currentTemplate],
                    currentTemplate := [],
                    templateName := "" }) ∨
    (t.name = "property" ∧ t.tokenType = TokenType.StartElement ∧
      rest1 = (readElementText rest "").2.1 ∧ err = (readElementText rest "").2.2 ∧
      s1 = { s with currentTemplate := s.currentTemplate ++
                      [{ name := t.nameAttr, value := (readElementText rest "").1 }] }) := by
  unfold templatesStep at h
  split_ifs at h with h1 h2 h3 h4 h5 h6 h7 h8
  · split at h
    · cases h
    · rename_i p hp
      simp only [Except.ok.injEq, Prod.mk.injEq] at h
      obtain ⟨rfl, rfl, _⟩ := h
      exact Or.inr (Or.inl ⟨p, hp, h1, h2, rfl, rfl⟩)
  · split at h
    · cases h
    · rename_i p hp
      simp only [Except.ok.injEq, Prod.mk.injEq] at h
      obtain ⟨rfl, rfl, _⟩ := h
      exact Or.inr (Or.inr (Or.inl ⟨p, hp, h1, h3, rfl, rfl⟩))
  · simp only [Except.ok.injEq, Prod.mk.injEq] at h
    obtain ⟨rfl, rfl, _⟩ := h
    exact Or.inl ⟨rfl, rfl, fun hc => h2 hc.2, fun hc => h3 hc.2⟩
  · simp only [Except.ok.injEq, Prod.mk.injEq] at h
    obtain ⟨rfl, rfl, _⟩ := h
    exact Or.inr (Or.inr (Or.inr (Or.inl ⟨h4, h5, rfl, rfl⟩)))
  · split at h
    · cases h
    · rename_i p hp
      simp only [Except.ok.injEq, Prod.mk.injEq] at h
      obtain ⟨rfl, rfl, _⟩ := h
      refine Or.inr (Or.inr (Or.inr (Or.inr (Or.inl ⟨p, hp, h4, h6, rfl, ?_⟩))))
      simp
  · simp only [Except.ok.injEq, Prod.mk.injEq] at h
    obtain ⟨rfl, rfl, _⟩ := h
    exact Or.inl ⟨rfl, rfl, fun hc => h1 hc.1, fun hc => h1 hc.1⟩
  · simp only [Except.ok.injEq, Prod.mk.injEq] at h
    obtain ⟨rfl, rfl, rfl⟩ := h
    exact Or.inr (Or.inr (Or.inr (Or.inr (Or.inr ⟨h7, h8, rfl, rfl, rfl⟩))))
  · simp only [Except.ok.injEq, Prod.mk.injEq] at h
    obtain ⟨rfl, rfl, _⟩ := h
    exact Or.inl ⟨rfl, rfl, fun hc => h1 hc.1, fun hc => h1 hc.1⟩
  · simp only [Except.ok.injEq, Prod.mk.injEq] at h
    obtain ⟨rfl, rfl, _⟩ := h
    exact Or.inl ⟨rfl, rfl, fun hc => h1 hc.1, fun hc => h1 hc.1⟩

theorem templatesStep_grown (base : List Node) {t : Token} {rest : List Token}
    {s s1 : TemplateLoader} {rest1 : List Token} {err : Bool}
    (hI : s.Grown base) (h : templatesStep t rest s = Except.ok (s1, rest1, err)) :
    s1.Grown base := by
  obtain ⟨hpb, hpm, hadd⟩ := hI
  rcases templatesStep_spec h with ⟨rfl, _⟩ | ⟨p, hp, _, _, _, rfl⟩ | ⟨p, hp, _, _, _, rfl⟩ |
    ⟨_, _, _, rfl⟩ | ⟨p, hp, _, _, _, rfl⟩ | ⟨_, _, _, _, rfl⟩
  · exact ⟨hpb, hpm, hadd⟩
  · refine ⟨parentsBelow_append_one hpb ?_, ?_, grown_append_one hadd
      (loadedNode_submenu _ _)⟩
    · intro q hq
      have : p = q := by simpa [Node.submenu] using hq
      subst this
      exact hpm _ hp
    · intro q hq
      have : s.nodes.length = q := by simpa using hq
      subst this
      simp
  · refine ⟨hpb, ?_, hadd⟩
    intro q hq
    exact lt_trans (parentOf_lt hpb hq).1 (parentOf_lt hpb hq).2
  · exact ⟨hpb, hpm, hadd⟩
  · refine ⟨parentsBelow_append_one hpb ?_, ?_, grown_append_one hadd
      (loadedNode_act _ _ _ ⟨_, Or.inr rfl⟩)⟩
    · intro q hq
      have : p = q := by simpa [Node.act] using hq
      subst this
      exact hpm _ hp
    · intro q hq
      have := hpm q hq
      simp only [List.length_append, List.length_singleton]
      omega
  · exact ⟨hpb, hpm, hadd⟩

theorem parentsBelow_menuStart (selection : Finset Nat) : parentsBelow (menuStart selection) := by
  intro k node hk q hq
  match k with
  | 0 => simp [menuStart, Node.root] at hk; subst hk; simp at hq
  | 1 => simp [menuStart, Node.act] at hk; subst hk; simp at hq; omega
  | 2 => simp [menuStart, Node.act] at hk; subst hk; simp at hq; omega
  | 3 => simp [menuStart, Node.sep] at hk; subst hk; simp at hq; omega
  | 4 => simp [menuStart, Node.submenu] at hk; subst hk; simp at hq; omega
  | k + 5 => simp [menuStart] at hk

/-- The nodes of a built menu: the fixed start, what the property loader added,
the submenu "Apply custom template", what the template loader added, and the
fixed end; the loaders' nodes are of the loaders' kind and every node up to the
fixed end hangs under an earlier node. -/
theorem buildMenu_nodes {env : Env} {selection : Finset Nat} {tool : AbstractObjectTool}
    {b : Built} (h : buildMenu env selection tool = Except.ok b) :
    ∃ addedP addedT : List Node,
      b.nodes = (menuStart selection ++ addedP ++
          [Node.submenu (Label.plain "Apply custom template") 0] ++ addedT) ++
        menuTail env.doc env.objectGroupOf selection (menuStart selection ++ addedP ++
          [Node.submenu (Label.plain "Apply custom template") 0] ++ addedT).length ∧
      (∀ n ∈ addedP, LoadedNode n) ∧ (∀ n ∈ addedT, LoadedNode n) ∧
      parentsBelow (menuStart selection ++ addedP ++
          [Node.submenu (Label.plain "Apply custom template") 0] ++ addedT) ∧
      (env.propertiesFile = none → addedP = []) ∧
      (env.templatesFile = none → addedT = []) := by
  obtain ⟨ps, calls1, ts, calls2, h1, h2, hn, _, _, _⟩ := buildMenu_ok h
  have hp : ps.Grown (menuStart selection) ∧ (env.propertiesFile = none →
      ps.nodes = menuStart selection) := by
    have h0 : (propertiesInit selection tool).Grown (menuStart selection) := by
      refine ⟨parentsBelow_menuStart selection, ?_, ?_, [], by simp [propertiesInit], by simp⟩
      · intro p hp
        have : 4 = p := by simpa [propertiesInit] using hp
        subst this
        simp [propertiesInit, menuStart]
      · intro p hp
        simp [propertiesInit] at hp
    rcases readPropertiesFile_ok h1 with ⟨_, rfl, _⟩ | ⟨tokens, hf, hl, _⟩
    · exact ⟨h0, fun _ => rfl⟩
    · exact ⟨loadProperties_invariant (PropertyLoader.Grown (menuStart selection))
        (fun _ _ _ _ _ _ hI hs => propertiesStep_grown _ hI hs) _ tokens _ _ (le_refl _) h0 hl,
        fun hnone => by rw [hf] at hnone; cases hnone⟩
  obtain ⟨⟨hpb, _, _, addedP, hPn, hPl⟩, hPnone⟩ := hp
  have ht : ts.Grown (templatesInit ps.nodes tool).nodes ∧ (env.templatesFile = none →
      ts.nodes = (templatesInit ps.nodes tool).nodes) := by
    have h0 : (templatesInit ps.nodes tool).Grown (templatesInit ps.nodes tool).nodes := by
      refine ⟨parentsBelow_append_one hpb ?_, ?_, [], by simp, by simp⟩
      · intro q hq
        have : 0 = q := by simpa [Node.submenu] using hq
        subst this
        rw [hPn]
        simp [menuStart]
      · intro p hp
        have : ps.nodes.length = p := by simpa [templatesInit] using hp
        subst this
        simp [templatesInit]
    rcases readTemplatesFile_ok h2 with ⟨_, rfl, _⟩ | ⟨tokens, hf, hl, _⟩
    · exact ⟨h0, fun _ => rfl⟩
    · exact ⟨loadTemplates_invariant (TemplateLoader.Grown (templatesInit ps.nodes tool).nodes)
        (fun _ _ _ _ _ _ hI hs => templatesStep_grown _ hI hs) _ tokens _ _ (le_refl _) h0 hl,
        fun hnone => by rw [hf] at hnone; cases hnone⟩
  obtain ⟨⟨htb, _, addedT, hTn, hTl⟩, hTnone⟩ := ht
  have hts : ts.nodes = menuStart selection ++ addedP ++
      [Node.submenu (Label.plain "Apply custom template") 0] ++ addedT := by
    rw [hTn]
    simp only [templatesInit]
    rw [hPn]
  refine ⟨addedP, addedT, ?_, hPl, hTl, ?_, ?_, ?_⟩
  · rw [hn, menuEnd_eq, hts]
  · rw [← hts]; exact htb
  · intro hnone
    have := hPnone hnone
    rw [hPn] at this
    exact List.append_right_eq_self.mp this
  · intro hnone
    have := hTnone hnone
    rw [hTn] at this
    exact List.append_right_eq_self.mp this

/-! ## Routing -/

theorem runSlot_spec {tool tool1 : AbstractObjectTool} {doc : MapDocument} {slot : Slot}
    {calls : List Call} (h : runSlot tool doc slot = Except.ok (tool1, calls)) :
    tool1 = tool ∧ ∀ c ∈ calls, c.isMove = false ∧ c.isSetSelection = false := by
  cases slot <;> simp only [runSlot, Except.ok.injEq, Prod.mk.injEq] at h
  case addProperty i =>
    unfold AbstractObjectTool.addProperty at h
    split at h
    · simp only [Except.ok.injEq, Prod.mk.injEq] at h
      obtain ⟨rfl, rfl⟩ := h
      simp
    · split_ifs at h
      split at h
      · cases h
      · simp only [Except.ok.injEq, Prod.mk.injEq] at h
        obtain ⟨rfl, rfl⟩ := h
        simp [Call.isMove, Call.isSetSelection]
  case applyTemplate i =>
    unfold AbstractObjectTool.applyTemplate at h
    split at h
    · simp only [Except.ok.injEq, Prod.mk.injEq] at h
      obtain ⟨rfl, rfl⟩ := h
      simp
    · split_ifs at h
      split at h
      · cases h
      · simp only [Except.ok.injEq, Prod.mk.injEq] at h
        obtain ⟨rfl, rfl⟩ := h
        simp [Call.isMove, Call.isSetSelection]
  all_goals
    obtain ⟨rfl, rfl⟩ := h
    simp [AbstractObjectTool.duplicateObjects, AbstractObjectTool.removeObjects,
      Call.isMove, Call.isSetSelection]

/-- What the routing of the chosen action does: the tool is left as it is, no
call changes the scene selection, and `moveObjectsToGroup` is called once, with
the document selection and the payload, if the action is not the properties
action and carries an object group, and not at all otherwise. -/
theorem route_spec {env : Env} {b : Built} {action : Option Nat} {tool1 : AbstractObjectTool}
    {calls : List Call} (h : route env b action = Except.ok (tool1, calls)) :
    tool1 = b.tool ∧ (∀ c ∈ calls, c.isSetSelection = false) ∧
    (∀ a node, action = some a → b.nodes[a]? = some node → a ≠ b.propertiesAction →
      ∀ g, node.data = some g →
        calls.filter Call.isMove = [Call.moveObjectsToGroup env.doc.selectedObjects g]) ∧
    ((action = none ∨ ∃ a, action = some a ∧
        (b.nodes[a]? = none ∨ a = b.propertiesAction ∨
          ∃ node, b.nodes[a]? = some node ∧ node.data = none)) →
      calls.filter Call.isMove = []) := by
  unfold route at h
  cases action with
  | none =>
    simp only [Except.ok.injEq, Prod.mk.injEq] at h
    obtain ⟨rfl, rfl⟩ := h
    simp
  | some a =>
    simp only at h
    cases hn : b.nodes[a]? with
    | none =>
      simp only [hn, Except.ok.injEq, Prod.mk.injEq] at h
      obtain ⟨rfl, rfl⟩ := h
      refine ⟨rfl, by simp, ?_, by simp⟩
      intro a1 node1 ha1 hn1
      simp only [Option.some.injEq] at ha1
      subst ha1
      rw [hn1] at hn
      cases hn
    | some node =>
      simp only [hn] at h
      have htrig : ∀ r, (match node.slot with
          | some slot => runSlot b.tool env.doc slot
          | none => Except.ok (b.tool, [])) = Except.ok r →
          r.1 = b.tool ∧ ∀ c ∈ r.2, c.isMove = false ∧ c.isSetSelection = false := by
        intro r hr
        cases hslot : node.slot with
        | none =>
          simp only [hslot, Except.ok.injEq] at hr
          subst hr
          simp
        | some slot =>
          simp only [hslot] at hr
          exact runSlot_spec hr
      cases htr : (match node.slot with
          | some slot => runSlot b.tool env.doc slot
          | none => Except.ok (b.tool, [])) with
      | error e => simp [htr] at h
      | ok r =>
        obtain ⟨t1, c1⟩ := r
        obtain ⟨ht1, hc1⟩ := htrig _ htr
        simp only at ht1 hc1
        subst ht1
        have hnomove : c1.filter Call.isMove = [] := by
          rw [List.filter_eq_nil_iff]
          intro c hc
          simp [(hc1 c hc).1]
        simp only [htr] at h
        split_ifs at h with hpa
        · split at h
          · cases h
          · simp only [Except.ok.injEq, Prod.mk.injEq] at h
            obtain ⟨rfl, rfl⟩ := h
            refine ⟨rfl, ?_, ?_, ?_⟩
            · intro c hc
              rcases List.mem_append.mp hc with hc | hc
              · exact (hc1 c hc).2
              · simp at hc
                rcases hc with rfl | rfl <;> rfl
            · intro a1 node1 ha1 _ hne
              simp only [Option.some.injEq] at ha1
              subst ha1
              exact absurd hpa hne
            · intro _
              simp [List.filter_append, hnomove, Call.isMove, List.filter]
        · cases hd : node.data with
          | none =>
            simp only [hd, Except.ok.injEq, Prod.mk.injEq] at h
            obtain ⟨rfl, rfl⟩ := h
            refine ⟨rfl, fun c hc => (hc1 c hc).2, ?_, fun _ => hnomove⟩
            intro a1 node1 ha1 hn1 _ g hg
            simp only [Option.some.injEq] at ha1
            subst ha1
            rw [hn1] at hn
            simp only [Option.some.injEq] at hn
            subst hn
            rw [hd] at hg
            cases hg
          | some g =>
            simp only [hd, Except.ok.injEq, Prod.mk.injEq] at h
            obtain ⟨rfl, rfl⟩ := h
            refine ⟨rfl, ?_, ?_, ?_⟩
            · intro c hc
              rcases List.mem_append.mp hc with hc | hc
              · exact (hc1 c hc).2
              · simp at hc
                subst hc
                rfl
            · intro a1 node1 ha1 hn1 _ g1 hg1
              simp only [Option.some.injEq] at ha1
              subst ha1
              rw [hn1] at hn
              simp only [Option.some.injEq] at hn
              subst hn
              rw [hd] at hg1
              simp only [Option.some.injEq] at hg1
              subst hg1
              simp [List.filter_append, hnomove, Call.isMove, List.filter]
            · rintro (hnone | ⟨a1, ha1, hcase⟩)
              · cases hnone
              · simp only [Option.some.injEq] at ha1
                subst ha1
                rcases hcase with hc | hc | ⟨node1, hc, hdn⟩
                · rw [hc] at hn; cases hn
                · exact absurd hc hpa
                · rw [hc] at hn
                  simp only [Option.some.injEq] at hn
                  subst hn
                  rw [hd] at hdn
                  cases hdn

theorem route_tool {env : Env} {b : Built} {action : Option Nat} {tool1 : AbstractObjectTool}
    {calls : List Call} (h : route env b action = Except.ok (tool1, calls)) :
    tool1 = b.tool :=
  (route_spec h).1

/-! ## The fixed entries -/

theorem showContextMenu_ok {env : Env} {tool : AbstractObjectTool} {scene : MapScene}
    {clicked : Option Nat} {pos : Int × Int} {o : Outcome}
    (h : showContextMenu env tool scene clicked pos = Except.ok o) :
    ((adjustSelection scene clicked).1 = ∅ ∧
      o = { tool := tool, scene := (adjustSelection scene clicked).2.1, menu := none,
            calls := (adjustSelection scene clicked).2.2 }) ∨
    ((adjustSelection scene clicked).1 ≠ ∅ ∧ ∃ b calls1,
      buildMenu env (adjustSelection scene clicked).1 tool = Except.ok b ∧
      route env b (execResult b.nodes env.chosen) = Except.ok (b.tool, calls1) ∧
      o = { tool := b.tool, scene := (adjustSelection scene clicked).2.1,
            menu := some b.nodes,
            calls := (adjustSelection scene clicked).2.2 ++ b.calls ++ [Call.exec pos] ++
              calls1 }) := by
  unfold showContextMenu at h
  simp only at h
  split_ifs at h with hsel
  · left
    simp only [Except.ok.injEq] at h
    exact ⟨hsel, h.symm⟩
  · right
    refine ⟨hsel, ?_⟩
    cases hb : buildMenu env (adjustSelection scene clicked).1 tool with
    | error e => simp [hb] at h
    | ok b =>
      simp only [hb] at h
      cases hr : route env b (execResult b.nodes env.chosen) with
      | error e => simp [hr] at h
      | ok r =>
        obtain ⟨tool1, calls1⟩ := r
        simp only [hr, Except.ok.injEq] at h
        have ht : tool1 = b.tool := route_tool hr
        subst ht
        exact ⟨b, calls1, rfl, hr, h.symm⟩

theorem sameObjectGroup_eq_some (objectGroupOf : Nat → ObjectGroup) (items : Finset Nat)
    (hne : items ≠ ∅) (g : ObjectGroup) :
    sameObjectGroup objectGroupOf items = some g ↔ ∀ i ∈ items, objectGroupOf i = g := by
  have hn : items.Nonempty := Finset.nonempty_iff_ne_empty.mpr hne
  unfold sameObjectGroup
  rw [dif_pos hn]
  constructor
  · intro h
    split_ifs at h with hall
    simp only [Option.some.injEq] at h
    intro i hi
    rw [hall i hi, h]
  · intro h
    have hmin : objectGroupOf (items.min' hn) = g := h _ (Finset.min'_mem items hn)
    rw [if_pos (fun i hi => by rw [h i hi, hmin]), hmin]

theorem loadedNode_not_raiseLower {n : Node} (h : LoadedNode n) : n.isRaiseLower = false := by
  obtain ⟨_, _, _, hs | ⟨i, hs | hs⟩⟩ := h <;> simp [Node.isRaiseLower, hs, Slot.isRaiseLower]

theorem raiseLower_filter_tail (env : Env) (selection : Finset Nat) (n : Nat) :
    (menuTail env.doc env.objectGroupOf selection n).filter Node.isRaiseLower =
      (raiseLowerNodes env.objectGroupOf selection).filter Node.isRaiseLower := by
  have h1 : flipNodes.filter Node.isRaiseLower = [] := by decide
  have h2 : ∀ first, (moveToLayerNodes env.doc first).filter Node.isRaiseLower = [] := by
    intro first
    rw [List.filter_eq_nil_iff]
    intro a ha
    unfold moveToLayerNodes at ha
    split_ifs at ha
    · simp [Node.sep, Node.submenu, Node.act] at ha
      rcases ha with rfl | rfl | ⟨g, _, rfl⟩ <;> simp [Node.isRaiseLower]
    · cases ha
  have h3 : (propertiesNodes env.doc).filter Node.isRaiseLower = [] := by
    simp [propertiesNodes, Node.sep, Node.act, Node.isRaiseLower, List.filter]
  simp only [menuTail, List.filter_append, h1, h2, h3, List.nil_append, List.append_nil]

theorem buildMenu_raiseLower {env : Env} {selection : Finset Nat} {tool : AbstractObjectTool}
    {b : Built} (h : buildMenu env selection tool = Except.ok b) :
    b.nodes.filter Node.isRaiseLower =
      (raiseLowerNodes env.objectGroupOf selection).filter Node.isRaiseLower := by
  obtain ⟨addedP, addedT, hn, hP, hT, _, _, _⟩ := buildMenu_nodes h
  rw [hn, List.filter_append, raiseLower_filter_tail]
  have hpre : (menuStart selection ++ addedP ++
      [Node.submenu (Label.plain "Apply custom template") 0] ++ addedT).filter
        Node.isRaiseLower = [] := by
    rw [List.filter_eq_nil_iff]
    intro a ha
    simp only [List.mem_append, List.mem_singleton] at ha
    rcases ha with ((ha | ha) | ha) | ha
    · simp [menuStart, Node.root, Node.sep, Node.submenu, Node.act] at ha
      rcases ha with rfl | rfl | rfl | rfl | rfl <;>
        simp [Node.isRaiseLower, Slot.isRaiseLower]
    · simp [loadedNode_not_raiseLower (hP a ha)]
    · subst ha
      simp [Node.isRaiseLower, Node.submenu]
    · simp [loadedNode_not_raiseLower (hT a ha)]
  rw [hpre, List.nil_append]

theorem buildMenu_calls {env : Env} {selection : Finset Nat} {tool : AbstractObjectTool}
    {b : Built} (h : buildMenu env selection tool = Except.ok b) :
    ∀ c ∈ b.calls, c.isMove = false ∧ c.isSetSelection = false := by
  obtain ⟨ps, calls1, ts, calls2, h1, h2, _, _, _, hc⟩ := buildMenu_ok h
  have hc1 : ∀ c ∈ calls1, c.isMove = false ∧ c.isSetSelection = false := by
    rcases readPropertiesFile_ok h1 with ⟨_, _, rfl⟩ | ⟨_, _, _, rfl⟩
    · intro c hc
      simp at hc
      subst hc
      exact ⟨rfl, rfl⟩
    · simp
  have hc2 : ∀ c ∈ calls2, c.isMove = false ∧ c.isSetSelection = false := by
    rcases readTemplatesFile_ok h2 with ⟨_, _, rfl⟩ | ⟨_, _, _, rfl⟩
    · intro c hc
      simp at hc
      subst hc
      exact ⟨rfl, rfl⟩
    · simp
  intro c hmem
  rw [hc] at hmem
  simp only [List.mem_append, List.mem_cons, List.mem_singleton, List.not_mem_nil,
    or_false] at hmem
  rcases hmem with (hm | hm) | hm | hm
  · exact hc1 c hm
  · exact hc2 c hm
  · subst hm; exact ⟨rfl, rfl⟩
  · subst hm; exact ⟨rfl, rfl⟩

theorem adjustSelection_clicked_new (scene : MapScene) (c : Nat)
    (h : c ∉ scene.selectedObjectItems) :
    adjustSelection scene (some c) =
      ({c}, scene.setSelectedObjectItems {c}, [Call.setSelectedObjectItems {c}]) := by
  simp [adjustSelection, h]

theorem adjustSelection_kept (scene : MapScene) (clicked : Option Nat)
    (h : clicked = none ∨ ∃ c, clicked = some c ∧ c ∈ scene.selectedObjectItems) :
    adjustSelection scene clicked = (scene.selectedObjectItems, scene, []) := by
  rcases h with rfl | ⟨c, rfl, hc⟩
  · rfl
  · simp [adjustSelection, hc]

/-! ## The submenu "Move to Layer" -/

theorem index_of_only {α : Type} (P : α → Prop) {l A B : List α} {x : α}
    (hl : l = A ++ x :: B) (hA : ∀ a ∈ A, ¬ P a) (hB : ∀ a ∈ B, ¬ P a)
    {m : Nat} {a : α} (hm : l[m]? = some a) (hP : P a) : m = A.length := by
  subst hl
  rcases Nat.lt_trichotomy m A.length with hlt | heq | hgt
  · rw [List.getElem?_append_left hlt] at hm
    exact absurd hP (hA a (List.getElem?_mem hm))
  · exact heq
  · rw [List.getElem?_append_right (Nat.le_of_lt hgt)] at hm
    obtain ⟨k, hk⟩ : ∃ k, m - A.length = k + 1 := ⟨m - A.length - 1, by omega⟩
    rw [hk, List.getElem?_cons_succ] at hm
    exact absurd hP (hB a (List.getElem?_mem hm))

theorem loadedNode_plain {n : Node} (h : LoadedNode n) :
    n.isMoveToLayerMenu = false ∧ n.data = none := by
  obtain ⟨hd, _, ⟨text, ht⟩, _⟩ := h
  exact ⟨by simp [Node.isMoveToLayerMenu, ht], hd⟩

/-- The nodes of a built menu up to the check of `objectGroups.size()`. -/
theorem buildMenu_split {env : Env} {selection : Finset Nat} {tool : AbstractObjectTool}
    {b : Built} (h : buildMenu env selection tool = Except.ok b) :
    ∃ A : List Node, Plain A ∧ 0 < A.length ∧
      b.nodes = A ++ moveToLayerNodes env.doc A.length ++ propertiesNodes env.doc := by
  obtain ⟨addedP, addedT, hn, hP, hT, hpb, _, _⟩ := buildMenu_nodes h
  refine ⟨(menuStart selection ++ addedP ++
      [Node.submenu (Label.plain "Apply custom template") 0] ++ addedT) ++
      (flipNodes ++ raiseLowerNodes env.objectGroupOf selection), ?_, ?_, ?_⟩
  · intro n hmem
    have hlen : 0 < (menuStart selection ++ addedP ++
        [Node.submenu (Label.plain "Apply custom template") 0] ++ addedT).length := by
      simp [menuStart]
    rcases List.mem_append.mp hmem with hpre | htail
    · have hparent : ∀ q, n.parent = some q → q <
          ((menuStart selection ++ addedP ++
            [Node.submenu (Label.plain "Apply custom template") 0] ++ addedT) ++
            (flipNodes ++ raiseLowerNodes env.objectGroupOf selection)).length := by
        intro q hq
        obtain ⟨k, hk⟩ := List.getElem?_of_mem hpre
        have h1 := hpb k n hk q hq
        have h2 : k < (menuStart selection ++ addedP ++
            [Node.submenu (Label.plain "Apply custom template") 0] ++ addedT).length := by
          by_contra hge
          rw [List.getElem?_eq_none (Nat.le_of_not_lt hge)] at hk
          cases hk
        rw [List.length_append]
        omega
      simp only [List.mem_append, List.mem_singleton] at hpre
      rcases hpre with ((ha | ha) | ha) | ha
      · refine ⟨?_, ?_, hparent⟩
        · simp [menuStart, Node.root, Node.sep, Node.submenu, Node.act] at ha
          rcases ha with rfl | rfl | rfl | rfl | rfl <;> simp [Node.isMoveToLayerMenu]
        · simp [menuStart, Node.root, Node.sep, Node.submenu, Node.act] at ha
          rcases ha with rfl | rfl | rfl | rfl | rfl <;> rfl
      · exact ⟨(loadedNode_plain (hP n ha)).1, (loadedNode_plain (hP n ha)).2, hparent⟩
      · subst ha
        exact ⟨rfl, rfl, hparent⟩
      · exact ⟨(loadedNode_plain (hT n ha)).1, (loadedNode_plain (hT n ha)).2, hparent⟩
    · have hzero : n.isMoveToLayerMenu = false ∧ n.data = none ∧ n.parent = some 0 := by
        rcases List.mem_append.mp htail with hf | hr
        · simp [flipNodes, Node.sep, Node.act] at hf
          rcases hf with rfl | rfl | rfl <;> exact ⟨rfl, rfl, rfl⟩
        · rcases raiseLowerNodes_cases env.objectGroupOf selection with hc | hc
          · rw [hc] at hr; cases hr
          · rw [hc] at hr
            simp [raiseLowerActions, Node.sep, Node.act] at hr
            rcases hr with rfl | rfl | rfl | rfl | rfl <;> exact ⟨rfl, rfl, rfl⟩
      refine ⟨hzero.1, hzero.2.1, ?_⟩
      intro q hq
      rw [hzero.2.2] at hq
      simp only [Option.some.injEq] at hq
      subst hq
      rw [List.length_append]
      omega
  · simp [menuStart]
  · rw [hn, menuTail]
    simp only [List.append_assoc, List.length_append, Nat.add_assoc]

theorem menuEntries_of_plain {A : List Node} (hA : Plain A) {m : Nat} (hm : A.length ≤ m) :
    menuEntries A m = [] := by
  unfold menuEntries
  rw [List.filter_eq_nil_iff]
  intro n hn hp
  simp only [decide_eq_true_eq] at hp
  have := (hA n hn).2.2 m hp
  omega

theorem last_of_append_two {α : Type} (l : List α) (x y : α) :
    (l ++ [x, y])[(l ++ [x, y]).length - 1]? = some y := by
  have : (l ++ [x, y]).length - 1 = l.length + 1 := by simp
  rw [this, List.getElem?_append_right (Nat.le_succ _)]
  simp

theorem moveToLayerNodes_many {doc : MapDocument} (h : 1 < doc.objectGroups.length) (first : Nat) :
    moveToLayerNodes doc first =
      [Node.sep 0,
       Node.submenu (Label.plural "Move %n Object(s) to Layer" doc.selectedObjects.length) 0] ++
      doc.objectGroups.map (layerEntry (first + 1)) := by
  unfold moveToLayerNodes
  rw [if_pos h]
  rfl

theorem moveToLayerNodes_few {doc : MapDocument} (h : ¬ 1 < doc.objectGroups.length)
    (first : Nat) : moveToLayerNodes doc first = [] := by
  unfold moveToLayerNodes
  rw [if_neg h]

theorem propertiesNodes_plain (doc : MapDocument) :
    ∀ n ∈ propertiesNodes doc,
      n.isMoveToLayerMenu = false ∧ n.data = none ∧ n.parent = some 0 := by
  intro n hn
  simp [propertiesNodes, Node.sep, Node.act] at hn
  rcases hn with rfl | rfl <;> exact ⟨rfl, rfl, rfl⟩

/-- A node of a built menu that carries an object group is an enabled action
that is not the properties action. -/
theorem buildMenu_payload {env : Env} {selection : Finset Nat} {tool : AbstractObjectTool}
    {b : Built} (h : buildMenu env selection tool = Except.ok b)
    {a : Nat} {node : Node} {g : ObjectGroup}
    (ha : b.nodes[a]? = some node) (hg : node.data = some g) :
    node.kind = NodeKind.action ∧ node.enabled = true ∧ a ≠ b.propertiesAction := by
  obtain ⟨A, hA, _, hn⟩ := buildMenu_split h
  have hmem : node ∈ b.nodes := List.getElem?_mem ha
  refine ⟨?_, ?_, ?_⟩
  · rw [hn] at hmem
    simp only [List.mem_append] at hmem
    rcases hmem with (hm | hm) | hm
    · rw [(hA node hm).2.1] at hg; cases hg
    · unfold moveToLayerNodes at hm
      split_ifs at hm
      · simp [Node.sep, Node.submenu, Node.act] at hm
        rcases hm with rfl | rfl | ⟨g1, _, rfl⟩
        · cases hg
        · cases hg
        · rfl
      · cases hm
    · rw [(propertiesNodes_plain _ node hm).2.1] at hg; cases hg
  · rw [hn] at hmem
    simp only [List.mem_append] at hmem
    rcases hmem with (hm | hm) | hm
    · rw [(hA node hm).2.1] at hg; cases hg
    · unfold moveToLayerNodes at hm
      split_ifs at hm
      · simp [Node.sep, Node.submenu, Node.act] at hm
        rcases hm with rfl | rfl | ⟨g1, _, rfl⟩
        · cases hg
        · cases hg
        · rfl
      · cases hm
    · rw [(propertiesNodes_plain _ node hm).2.1] at hg; cases hg
  · intro heq
    subst heq
    rw [buildMenu_ok_nodes h, hn] at ha
    have hlast := last_of_append_two (A ++ moveToLayerNodes env.doc A.length) (Node.sep 0)
      { Node.act (Label.plain "Object &Properties...") 0 none with
          icon := ":images/16x16/document-properties.png",
          enabled := decide (env.doc.selectedObjects.length = 1) }
    have hp : propertiesNodes env.doc = [Node.sep 0,
      { Node.act (Label.plain "Object &Properties...") 0 none with
          icon := ":images/16x16/document-properties.png",
          enabled := decide (env.doc.selectedObjects.length = 1) }] := rfl
    rw [hp, hlast] at ha
    simp only [Option.some.injEq] at ha
    subst ha
    cases hg

theorem adjustSelection_calls (scene : MapScene) (clicked : Option Nat) :
    ∀ c ∈ (adjustSelection scene clicked).2.2, c.isMove = false := by
  intro c hc
  by_cases hk : clicked = none ∨ ∃ c0, clicked = some c0 ∧ c0 ∈ scene.selectedObjectItems
  · rw [adjustSelection_kept scene clicked hk] at hc
    cases hc
  · cases clicked with
    | none => exact absurd (Or.inl rfl) hk
    | some c0 =>
      have hnot : c0 ∉ scene.selectedObjectItems := fun hin => hk (Or.inr ⟨c0, rfl, hin⟩)
      rw [adjustSelection_clicked_new scene c0 hnot] at hc
      simp only [List.mem_singleton] at hc
      subst hc
      rfl

/-! ## Balanced groups keep the loaders inside their submenu -/

theorem balanced_iff (tokens : List Token) : Balanced tokens ↔ BalancedFrom 0 tokens := by
  simp [Balanced, BalancedFrom]

theorem balancedFrom_mono {d d1 : Nat} {tokens : List Token} (h : BalancedFrom d tokens)
    (hd : d ≤ d1) : BalancedFrom d1 tokens := by
  intro k
  have := h k
  omega

theorem not_start_and_end (t : Token) (h : isMenuEnd t = true) : isMenuStart t = false := by
  simp only [isMenuEnd, decide_eq_true_eq] at h
  simp [isMenuStart, h.2]

theorem balancedFrom_start {d : Nat} {t : Token} {rest : List Token}
    (ht : isMenuStart t = true) (h : BalancedFrom d (t :: rest)) :
    BalancedFrom (d + 1) rest := by
  intro k
  have := h (k + 1)
  have he : isMenuEnd t = false := by
    cases hE : isMenuEnd t with
    | false => rfl
    | true => rw [not_start_and_end t hE] at ht; cases ht
  simp only [List.take_succ_cons, List.countP_cons, ht, he, if_true] at this
  simp only [Bool.false_eq_true, if_false] at this
  omega

theorem balancedFrom_end {d : Nat} {t : Token} {rest : List Token}
    (ht : isMenuEnd t = true) (h : BalancedFrom d (t :: rest)) :
    ∃ d1, d = d1 + 1 ∧ BalancedFrom d1 rest := by
  have hs := not_start_and_end t ht
  have h1 := h 1
  simp only [List.take_succ_cons, List.take_zero, List.countP_cons, List.countP_nil, ht, hs,
    if_true, Bool.false_eq_true, if_false] at h1
  refine ⟨d - 1, by omega, ?_⟩
  intro k
  have := h (k + 1)
  simp only [List.take_succ_cons, List.countP_cons, ht, hs, if_true, Bool.false_eq_true,
    if_false] at this
  omega

theorem balancedFrom_skip {d : Nat} {t : Token} {rest : List Token}
    (ht : isMenuStart t = false) (h : BalancedFrom d (t :: rest)) :
    BalancedFrom d rest := by
  intro k
  have := h (k + 1)
  simp only [List.take_succ_cons, List.countP_cons, ht, Bool.false_eq_true, if_false] at this
  split_ifs at this <;> omega

theorem balancedFrom_readElementText {d : Nat} (tokens : List Token) (acc : String)
    (herr : (readElementText tokens acc).2.2 = false) (h : BalancedFrom d tokens) :
    BalancedFrom d (readElementText tokens acc).2.1 := by
  induction tokens generalizing acc with
  | nil => simp [readElementText] at herr
  | cons t rest ih =>
    have hskip : t.tokenType ≠ TokenType.StartElement → BalancedFrom d rest := by
      intro hne
      exact balancedFrom_skip (by simp [isMenuStart, hne]) h
    unfold readElementText at herr ⊢
    split at herr <;> rename_i htype
    · exact ih _ herr (hskip (by rw [htype]; simp))
    · exact ih _ herr (hskip (by rw [htype]; simp))
    · exact hskip (by rw [htype]; simp)
    · exact ih _ herr (hskip (by rw [htype]; simp))
    · exact ih _ herr (hskip (by rw [htype]; simp))
    · simp at herr

theorem parentOf_append {nodes : List Node} {p q : Nat} (more : List Node)
    (h : parentOf nodes p = some q) : parentOf (nodes ++ more) p = some q := by
  unfold parentOf at h ⊢
  cases hp : nodes[p]? with
  | none => simp [hp] at h
  | some node =>
    have hlt : p < nodes.length := by
      by_contra hge
      rw [List.getElem?_eq_none (Nat.le_of_not_lt hge)] at hp
      cases hp
    rw [List.getElem?_append_left hlt, hp]
    rw [hp] at h
    exact h

theorem parentOf_new (nodes : List Node) (n : Node) :
    parentOf (nodes ++ [n]) nodes.length = n.parent := by
  unfold parentOf
  rw [List.getElem?_append_right (le_refl _)]
  simp

theorem ancestorAt_append {nodes : List Node} {r : Nat} (more : List Node) :
    ∀ (d p : Nat), AncestorAt nodes r d p → AncestorAt (nodes ++ more) r d p := by
  intro d
  induction d with
  | zero => intro p h; exact h
  | succ d ih =>
    intro p h
    obtain ⟨hr, q, hq, ha⟩ := h
    exact ⟨hr, q, parentOf_append more hq, ih q ha⟩

theorem ancestorAt_ge {nodes : List Node} {r d p : Nat} (h : AncestorAt nodes r d p) :
    r ≤ p := by
  cases d with
  | zero => exact le_of_eq h.symm
  | succ d => exact h.1

theorem under_append_one {r : Nat} {base nodes : List Node} {n : Node}
    (h : ∃ added, nodes = base ++ added ∧ Under r added)
    (hn : ∃ q, n.parent = some q ∧ r ≤ q) :
    ∃ added, nodes ++ [n] = base ++ added ∧ Under r added := by
  obtain ⟨added, ha, hu⟩ := h
  refine ⟨added ++ [n], by rw [ha, List.append_assoc], ?_⟩
  intro m hm
  rcases List.mem_append.mp hm with h1 | h1
  · exact hu m h1
  · rw [List.mem_singleton] at h1
    subst h1
    exact hn

/-- A rule for the custom-property loop ending normally: a property of the unread
tokens and the variables under which no iteration fails and which every
iteration keeps. -/
theorem loadProperties_total (I : List Token → PropertyLoader → Prop) (Q : PropertyLoader → Prop)
    (hnil : ∀ s, I [] s → Q s)
    (hstep : ∀ t rest s, I (t :: rest) s → ∃ s1 rest1 err,
      propertiesStep t rest s = Except.ok (s1, rest1, err) ∧
      (err = true → Q s1) ∧ (err = false → I rest1 s1)) :
    ∀ (n : Nat) (tokens : List Token) (s : PropertyLoader), tokens.length ≤ n → I tokens s →
      ∃ s2, loadProperties tokens s = Except.ok s2 ∧ Q s2 := by
  intro n
  induction n with
  | zero =>
    intro tokens s hn hI
    have : tokens = [] := List.length_eq_zero.mp (Nat.le_zero.mp hn)
    subst this
    exact ⟨s, rfl, hnil s hI⟩
  | succ n ih =>
    intro tokens s hn hI
    cases tokens with
    | nil => exact ⟨s, rfl, hnil s hI⟩
    | cons t rest =>
      obtain ⟨s1, rest1, err, hs, hQ, hI1⟩ := hstep t rest s hI
      rw [loadProperties_cons, hs]
      cases err with
      | true => exact ⟨s1, rfl, hQ rfl⟩
      | false =>
        simp only [Bool.false_eq_true, if_false]
        exact ih rest1 s1 (le_trans (propertiesStep_length hs) (Nat.le_of_succ_le_succ hn))
          (hI1 rfl)

/-- A rule for the custom-template loop ending normally: a property of the unread
tokens and the variables under which no iteration fails and which every
iteration keeps. -/
theorem loadTemplates_total (I : List Token → TemplateLoader → Prop) (Q : TemplateLoader → Prop)
    (hnil : ∀ s, I [] s → Q s)
    (hstep : ∀ t rest s, I (t :: rest) s → ∃ s1 rest1 err,
      templatesStep t rest s = Except.ok (s1, rest1, err) ∧
      (err = true → Q s1) ∧ (err = false → I rest1 s1)) :
    ∀ (n : Nat) (tokens : List Token) (s : TemplateLoader), tokens.length ≤ n → I tokens s →
      ∃ s2, loadTemplates tokens s = Except.ok s2 ∧ Q s2 := by
  intro n
  induction n with
  | zero =>
    intro tokens s hn hI
    have : tokens = [] := List.length_eq_zero.mp (Nat.le_zero.mp hn)
    subst this
    exact ⟨s, rfl, hnil s hI⟩
  | succ n ih =>
    intro tokens s hn hI
    cases tokens with
    | nil => exact ⟨s, rfl, hnil s hI⟩
    | cons t rest =>
      obtain ⟨s1, rest1, err, hs, hQ, hI1⟩ := hstep t rest s hI
      rw [loadTemplates_cons, hs]
      cases err with
      | true => exact ⟨s1, rfl, hQ rfl⟩
      | false =>
        simp only [Bool.false_eq_true, if_false]
        exact ih rest1 s1 (le_trans (templatesStep_length hs) (Nat.le_of_succ_le_succ hn))
          (hI1 rfl)

theorem propertiesStep_progress (t : Token) (rest : List Token) {s : PropertyLoader} {p : Nat}
    (hp : s.parentMenu = some p) :
    ∃ s1 rest1 err, propertiesStep t rest s = Except.ok (s1, rest1, err) := by
  unfold propertiesStep
  split_ifs <;> simp only [hp] <;> (try split) <;> exact ⟨_, _, _, rfl⟩

theorem templatesStep_progress (t : Token) (rest : List Token) {s : TemplateLoader} {p : Nat}
    (hp : s.parentMenu = some p) :
    ∃ s1 rest1 err, templatesStep t rest s = Except.ok (s1, rest1, err) := by
  unfold templatesStep
  split_ifs <;> simp only [hp] <;> exact ⟨_, _, _, rfl⟩

theorem isMenuStart_of_name {t : Token} (h : t.name ≠ "menu") : isMenuStart t = false := by
  simp [isMenuStart, h]

theorem propertiesStep_inside {base : List Node} {r d : Nat} {t : Token} {rest : List Token}
    {s : PropertyLoader} (hr : r < base.length) (hI : s.Inside base r d)
    (hb : BalancedFrom d (t :: rest)) :
    ∃ s1 rest1 err, propertiesStep t rest s = Except.ok (s1, rest1, err) ∧
      ∃ d1, s1.Inside base r d1 ∧ (err = false → BalancedFrom d1 rest1) := by
  obtain ⟨⟨p, hp, hanc⟩, hprm, hadd⟩ := hI
  obtain ⟨s1, rest1, err, hs⟩ := propertiesStep_progress t rest hp
  refine ⟨s1, rest1, err, hs, ?_⟩
  have hlen : r < s.nodes.length := by
    obtain ⟨added, ha, _⟩ := hadd
    rw [ha, List.length_append]
    omega
  rcases propertiesStep_spec hs with ⟨rfl, rfl, hns, _⟩ | ⟨p1, hp1, hname, htype, rfl, rfl⟩ |
    ⟨p1, hp1, hname, htype, rfl, rfl⟩ | ⟨p1, hp1, hname, _, rfl, rfl⟩ |
    ⟨hname, _, rfl, rfl⟩ | ⟨pm, hpm, hname, _, rfl, herr, rfl⟩
  · refine ⟨d, ⟨⟨p, hp, hanc⟩, hprm, hadd⟩, fun _ => balancedFrom_skip ?_ hb⟩
    simpa [isMenuStart] using hns
  · rw [hp] at hp1
    simp only [Option.some.injEq] at hp1
    subst hp1
    refine ⟨d + 1, ⟨⟨s.nodes.length, rfl, ?_⟩, hprm, under_append_one hadd
      ⟨p, rfl, ancestorAt_ge hanc⟩⟩, fun _ => balancedFrom_start (by simp [isMenuStart, hname, htype]) hb⟩
    exact ⟨Nat.le_of_lt hlen, p, by rw [parentOf_new]; rfl, ancestorAt_append _ _ _ hanc⟩
  · rw [hp] at hp1
    simp only [Option.some.injEq] at hp1
    subst hp1
    obtain ⟨d1, rfl, hb1⟩ := balancedFrom_end (by simp [isMenuEnd, hname, htype]) hb
    obtain ⟨_, q, hq, haq⟩ := hanc
    exact ⟨d1, ⟨⟨q, hq, haq⟩, hprm, hadd⟩, fun _ => hb1⟩
  · rw [hp] at hp1
    simp only [Option.some.injEq] at hp1
    subst hp1
    refine ⟨d, ⟨⟨p, hp, ancestorAt_append _ _ _ hanc⟩, ?_, under_append_one hadd
      ⟨p, rfl, ancestorAt_ge hanc⟩⟩,
      fun _ => balancedFrom_skip (isMenuStart_of_name (by rw [hname]; decide)) hb⟩
    intro pm hpm
    simp only [Option.some.injEq] at hpm
    omega
  · refine ⟨d, ⟨⟨p, hp, hanc⟩, ?_, hadd⟩,
      fun _ => balancedFrom_skip (isMenuStart_of_name (by rw [hname]; decide)) hb⟩
    intro pm hpm
    cases hpm
  · refine ⟨d, ⟨⟨p, hp, ancestorAt_append _ _ _ hanc⟩, hprm, under_append_one hadd
      ⟨pm, rfl, hprm pm hpm⟩⟩, fun he => ?_⟩
    rw [herr] at he
    exact balancedFrom_readElementText rest "" he
      (balancedFrom_skip (isMenuStart_of_name (by rw [hname]; decide)) hb)

theorem templatesStep_inside {base : List Node} {r d : Nat} {t : Token} {rest : List Token}
    {s : TemplateLoader} (hr : r < base.length) (hI : s.Inside base r d)
    (hb : BalancedFrom d (t :: rest)) :
    ∃ s1 rest1 err, templatesStep t rest s = Except.ok (s1, rest1, err) ∧
      ∃ d1, s1.Inside base r d1 ∧ (err = false → BalancedFrom d1 rest1) := by
  obtain ⟨⟨p, hp, hanc⟩, hadd⟩ := hI
  obtain ⟨s1, rest1, err, hs⟩ := templatesStep_progress t rest hp
  refine ⟨s1, rest1, err, hs, ?_⟩
  have hlen : r < s.nodes.length := by
    obtain ⟨added, ha, _⟩ := hadd
    rw [ha, List.length_append]
    omega
  rcases templatesStep_spec hs with ⟨rfl, rfl, hns, _⟩ | ⟨p1, hp1, hname, htype, rfl, rfl⟩ |
    ⟨p1, hp1, hname, htype, rfl, rfl⟩ | ⟨hname, _, rfl, rfl⟩ |
    ⟨p1, hp1, hname, _, rfl, rfl⟩ | ⟨hname, _, rfl, herr, rfl⟩
  · refine ⟨d, ⟨⟨p, hp, hanc⟩, hadd⟩, fun _ => balancedFrom_skip ?_ hb⟩
    simpa [isMenuStart] using hns
  · rw [hp] at hp1
    simp only [Option.some.injEq] at hp1
    subst hp1
    refine ⟨d + 1, ⟨⟨s.nodes.length, rfl, ?_⟩, under_append_one hadd
      ⟨p, rfl, ancestorAt_ge hanc⟩⟩, fun _ => balancedFrom_start (by simp [isMenuStart, hname, htype]) hb⟩
    exact ⟨Nat.le_of_lt hlen, p, by rw [parentOf_new]; rfl, ancestorAt_append _ _ _ hanc⟩
  · rw [hp] at hp1
    simp only [Option.some.injEq] at hp1
    subst hp1
    obtain ⟨d1, rfl, hb1⟩ := balancedFrom_end (by simp [isMenuEnd, hname, htype]) hb
    obtain ⟨_, q, hq, haq⟩ := hanc
    exact ⟨d1, ⟨⟨q, hq, haq⟩, hadd⟩, fun _ => hb1⟩
  · exact ⟨d, ⟨⟨p, hp, hanc⟩, hadd⟩,
      fun _ => balancedFrom_skip (isMenuStart_of_name (by rw [hname]; decide)) hb⟩
  · rw [hp] at hp1
    simp only [Option.some.injEq] at hp1
    subst hp1
    exact ⟨d, ⟨⟨p, hp, ancestorAt_append _ _ _ hanc⟩, under_append_one hadd
      ⟨p, rfl, ancestorAt_ge hanc⟩⟩,
      fun _ => balancedFrom_skip (isMenuStart_of_name (by rw [hname]; decide)) hb⟩
  · refine ⟨d, ⟨⟨p, hp, hanc⟩, hadd⟩, fun he => ?_⟩
    rw [herr] at he
    exact balancedFrom_readElementText rest "" he
      (balancedFrom_skip (isMenuStart_of_name (by rw [hname]; decide)) hb)

theorem loadProperties_balanced {tokens : List Token} (hb : Balanced tokens)
    (s : PropertyLoader) (r : Nat) (hp : s.parentMenu = some r) (hr : r < s.nodes.length)
    (hprm : ∀ pm, s.propertyMenu = some pm → r ≤ pm) :
    ∃ s1, loadProperties tokens s = Except.ok s1 ∧ ∃ d, s1.Inside s.nodes r d := by
  refine loadProperties_total
    (fun toks st => ∃ d, st.Inside s.nodes r d ∧ BalancedFrom d toks)
    (fun st => ∃ d, st.Inside s.nodes r d)
    (fun st h => by obtain ⟨d, hI, _⟩ := h; exact ⟨d, hI⟩) ?_ tokens.length tokens s (le_refl _)
    ⟨0, ⟨⟨r, hp, rfl⟩, hprm, [], by simp, by intro n hn; cases hn⟩,
      (balanced_iff tokens).mp hb⟩
  rintro t rest st ⟨d, hI, hbal⟩
  obtain ⟨s1, rest1, err, hs, d1, hI1, hb1⟩ := propertiesStep_inside hr hI hbal
  exact ⟨s1, rest1, err, hs, fun _ => ⟨d1, hI1⟩, fun he => ⟨d1, hI1, hb1 he⟩⟩

theorem loadTemplates_balanced {tokens : List Token} (hb : Balanced tokens)
    (s : TemplateLoader) (r : Nat) (hp : s.parentMenu = some r) (hr : r < s.nodes.length) :
    ∃ s1, loadTemplates tokens s = Except.ok s1 ∧ ∃ d, s1.Inside s.nodes r d := by
  refine loadTemplates_total
    (fun toks st => ∃ d, st.Inside s.nodes r d ∧ BalancedFrom d toks)
    (fun st => ∃ d, st.Inside s.nodes r d)
    (fun st h => by obtain ⟨d, hI, _⟩ := h; exact ⟨d, hI⟩) ?_ tokens.length tokens s (le_refl _)
    ⟨0, ⟨⟨r, hp, rfl⟩, [], by simp, by intro n hn; cases hn⟩,
      (balanced_iff tokens).mp hb⟩
  rintro t rest st ⟨d, hI, hbal⟩
  obtain ⟨s1, rest1, err, hs, d1, hI1, hb1⟩ := templatesStep_inside hr hI hbal
  exact ⟨s1, rest1, err, hs, fun _ => ⟨d1, hI1⟩, fun he => ⟨d1, hI1, hb1 he⟩⟩

theorem balancedFrom_of_check (tokens : List Token) :
    ∀ d, balancedCheck d tokens = true → BalancedFrom d tokens := by
  induction tokens with
  | nil =>
    intro d _ k
    simp
  | cons t rest ih =>
    intro d h k
    cases k with
    | zero => simp
    | succ k =>
      simp only [List.take_succ_cons, List.countP_cons]
      unfold balancedCheck at h
      by_cases hs : isMenuStart t = true
      · rw [if_pos hs] at h
        have he : isMenuEnd t = false := by
          cases hE : isMenuEnd t with
          | false => rfl
          | true => rw [not_start_and_end t hE] at hs; cases hs
        have := ih (d + 1) h k
        simp only [hs, he, if_true, Bool.false_eq_true, if_false]
        omega
      · rw [if_neg hs] at h
        by_cases he : isMenuEnd t = true
        · rw [if_pos he] at h
          cases d with
          | zero => cases h
          | succ d1 =>
            have := ih d1 h k
            simp only [hs, he, if_true, if_false]
            omega
        · rw [if_neg he] at h
          have := ih d h k
          simp only [hs, he, if_false]
          omega

theorem balanced_of_check (tokens : List Token) (h : balancedCheck 0 tokens = true) :
    Balanced tokens :=
  (balanced_iff tokens).mpr (balancedFrom_of_check tokens 0 h)

/-! ## The loaders append to the registries -/

theorem parentOf_congr {n1 n2 : List Node} (h : n1.map Node.parent = n2.map Node.parent)
    (p : Nat) : parentOf n1 p = parentOf n2 p := by
  have h1 : ∀ (n : List Node), parentOf n p = (n.map Node.parent)[p]?.join := by
    intro n
    unfold parentOf
    rw [List.getElem?_map]
    cases n[p]? <;> rfl
  rw [h1, h1, h]

theorem length_congr {n1 n2 : List Node} (h : n1.map Node.parent = n2.map Node.parent) :
    n1.length = n2.length := by
  have := congrArg List.length h
  simpa using this

theorem propertiesStep_sim {r1 r2 : List Property} {t : Token} {rest : List Token}
    {s a s1 : PropertyLoader} {rest1 : List Token} {err : Bool}
    (hsim : PropertyLoader.Sim r1 r2 s a)
    (h : propertiesStep t rest s = Except.ok (s1, rest1, err)) :
    ∃ a1, propertiesStep t rest a = Except.ok (a1, rest1, err) ∧
      PropertyLoader.Sim r1 r2 s1 a1 := by
  obtain ⟨⟨recs, hs, ha⟩, hpm, hprm, hname, hpar⟩ := hsim
  have hlen := length_congr hpar
  unfold propertiesStep at h ⊢
  rw [← hpm, ← hprm, ← hname]
  split_ifs at h ⊢
  · split at h
    · cases h
    · rename_i p hp
      simp only [Except.ok.injEq, Prod.mk.injEq] at h
      obtain ⟨rfl, rfl, rfl⟩ := h
      simp only [hp]
      exact ⟨_, rfl, ⟨recs, hs, ha⟩, by simp [hlen], rfl, rfl, by simp [hpar, Node.submenu]⟩
  · split at h
    · cases h
    · rename_i p hp
      simp only [Except.ok.injEq, Prod.mk.injEq] at h
      obtain ⟨rfl, rfl, rfl⟩ := h
      simp only [hp]
      exact ⟨_, rfl, ⟨recs, hs, ha⟩, parentOf_congr hpar p, rfl, rfl, hpar⟩
  · simp only [Except.ok.injEq, Prod.mk.injEq] at h
    obtain ⟨rfl, rfl, rfl⟩ := h
    exact ⟨_, rfl, ⟨recs, hs, ha⟩, hpm, hprm, hname, hpar⟩
  · split at h
    · cases h
    · rename_i p hp
      simp only [Except.ok.injEq, Prod.mk.injEq] at h
      obtain ⟨rfl, rfl, rfl⟩ := h
      simp only [hp]
      exact ⟨_, rfl, ⟨recs, hs, ha⟩, rfl, by simp [hlen], rfl, by simp [hpar, Node.submenu]⟩
  · simp only [Except.ok.injEq, Prod.mk.injEq] at h
    obtain ⟨rfl, rfl, rfl⟩ := h
    exact ⟨_, rfl, ⟨recs, hs, ha⟩, rfl, rfl, rfl, hpar⟩
  · simp only [Except.ok.injEq, Prod.mk.injEq] at h
    obtain ⟨rfl, rfl, rfl⟩ := h
    exact ⟨_, rfl, ⟨recs, hs, ha⟩, hpm, hprm, hname, hpar⟩
  · split at h
    · rename_i hp
      simp only [Except.ok.injEq, Prod.mk.injEq] at h
      obtain ⟨rfl, rfl, rfl⟩ := h
      simp only [hp]
      exact ⟨_, rfl, ⟨recs, hs, ha⟩, hpm, hprm, hname, hpar⟩
    · rename_i pm hp
      simp only [Except.ok.injEq, Prod.mk.injEq] at h
      obtain ⟨rfl, rfl, rfl⟩ := h
      simp only [hp]
      refine ⟨_, rfl, ⟨recs ++ [Property.mk s.propertyName (readElementText rest "").1],
        ?_, ?_⟩, rfl, rfl, rfl, ?_⟩
      · simp [hs]
      · simp [ha]
      · simp [hpar, Node.act]
  · simp only [Except.ok.injEq, Prod.mk.injEq] at h
    obtain ⟨rfl, rfl, rfl⟩ := h
    exact ⟨_, rfl, ⟨recs, hs, ha⟩, hpm, hprm, hname, hpar⟩
  · simp only [Except.ok.injEq, Prod.mk.injEq] at h
    obtain ⟨rfl, rfl, rfl⟩ := h
    exact ⟨_, rfl, ⟨recs, hs, ha⟩, hpm, hprm, hname, hpar⟩

theorem templatesStep_sim {r1 r2 : List (List Property)} {t : Token} {rest : List Token}
    {s a s1 : TemplateLoader} {rest1 : List Token} {err : Bool}
    (hsim : TemplateLoader.Sim r1 r2 s a)
    (h : templatesStep t rest s = Except.ok (s1, rest1, err)) :
    ∃ a1, templatesStep t rest a = Except.ok (a1, rest1, err) ∧
      TemplateLoader.Sim r1 r2 s1 a1 := by
  obtain ⟨⟨recs, hs, ha⟩, hpm, hname, hcur, hpar⟩ := hsim
  have hlen := length_congr hpar
  unfold templatesStep at h ⊢
  rw [← hpm, ← hname, ← hcur]
  split_ifs at h ⊢
  · split at h
    · cases h
    · rename_i p hp
      simp only [Except.ok.injEq, Prod.mk.injEq] at h
      obtain ⟨rfl, rfl, rfl⟩ := h
      simp only [hp]
      exact ⟨_, rfl, ⟨recs, hs, ha⟩, by simp [hlen], rfl, rfl, by simp [hpar, Node.submenu]⟩
  · split at h
    · cases h
    · rename_i p hp
      simp only [Except.ok.injEq, Prod.mk.injEq] at h
      obtain ⟨rfl, rfl, rfl⟩ := h
      simp only [hp]
      exact ⟨_, rfl, ⟨recs, hs, ha⟩, parentOf_congr hpar p, rfl, rfl, hpar⟩
  · simp only [Except.ok.injEq, Prod.mk.injEq] at h
    obtain ⟨rfl, rfl, rfl⟩ := h
    exact ⟨_, rfl, ⟨recs, hs, ha⟩, hpm, hname, hcur, hpar⟩
  · simp only [Except.ok.injEq, Prod.mk.injEq] at h
    obtain ⟨rfl, rfl, rfl⟩ := h
    exact ⟨_, rfl, ⟨recs, hs, ha⟩, rfl, rfl, rfl, hpar⟩
  · split at h
    · cases h
    · rename_i p hp
      simp only [Except.ok.injEq, Prod.mk.injEq] at h
      obtain ⟨rfl, rfl, rfl⟩ := h
      simp only [hp]
      refine ⟨_, rfl, ⟨recs ++ [s.currentTemplate], ?_, ?_⟩, rfl, rfl, rfl, ?_⟩
      · simp [hs]
      · simp [ha]
      · simp [hpar, Node.act]
  · simp only [Except.ok.injEq, Prod.mk.injEq] at h
    obtain ⟨rfl, rfl, rfl⟩ := h
    exact ⟨_, rfl, ⟨recs, hs, ha⟩, hpm, hname, hcur, hpar⟩
  · simp only [Except.ok.injEq, Prod.mk.injEq] at h
    obtain ⟨rfl, rfl, rfl⟩ := h
    exact ⟨_, rfl, ⟨recs, hs, ha⟩, rfl, rfl, by simp [hcur], hpar⟩
  · simp only [Except.ok.injEq, Prod.mk.injEq] at h
    obtain ⟨rfl, rfl, rfl⟩ := h
    exact ⟨_, rfl, ⟨recs, hs, ha⟩, hpm, hname, hcur, hpar⟩
  · simp only [Except.ok.injEq, Prod.mk.injEq] at h
    obtain ⟨rfl, rfl, rfl⟩ := h
    exact ⟨_, rfl, ⟨recs, hs, ha⟩, hpm, hname, hcur, hpar⟩

theorem loadProperties_sim {r1 r2 : List Property} {tokens : List Token}
    {s a s2 : PropertyLoader} (hsim : PropertyLoader.Sim r1 r2 s a)
    (h : loadProperties tokens s = Except.ok s2) :
    ∃ a2, loadProperties tokens a = Except.ok a2 ∧ PropertyLoader.Sim r1 r2 s2 a2 := by
  refine loadProperties_total
    (fun toks st => ∃ s0, PropertyLoader.Sim r1 r2 s0 st ∧
      loadProperties toks s0 = Except.ok s2)
    (fun st => PropertyLoader.Sim r1 r2 s2 st) ?_ ?_ tokens.length tokens a (le_refl _)
    ⟨s, hsim, h⟩
  · rintro st ⟨s0, hs0, hl⟩
    rw [loadProperties_nil] at hl
    cases hl
    exact hs0
  · rintro t rest st ⟨s0, hs0, hl⟩
    rw [loadProperties_cons] at hl
    cases hstep : propertiesStep t rest s0 with
    | error e => rw [hstep] at hl; cases hl
    | ok r =>
      obtain ⟨s1, rest1, err⟩ := r
      rw [hstep] at hl
      obtain ⟨a1, ha1, hsim1⟩ := propertiesStep_sim hs0 hstep
      refine ⟨a1, rest1, err, ha1, ?_, ?_⟩
      · intro he
        subst he
        simp only [if_true, Except.ok.injEq] at hl
        subst hl
        exact hsim1
      · intro he
        subst he
        simp only [Bool.false_eq_true, if_false] at hl
        exact ⟨s1, hsim1, hl⟩

theorem loadTemplates_sim {r1 r2 : List (List Property)} {tokens : List Token}
    {s a s2 : TemplateLoader} (hsim : TemplateLoader.Sim r1 r2 s a)
    (h : loadTemplates tokens s = Except.ok s2) :
    ∃ a2, loadTemplates tokens a = Except.ok a2 ∧ TemplateLoader.Sim r1 r2 s2 a2 := by
  refine loadTemplates_total
    (fun toks st => ∃ s0, TemplateLoader.Sim r1 r2 s0 st ∧
      loadTemplates toks s0 = Except.ok s2)
    (fun st => TemplateLoader.Sim r1 r2 s2 st) ?_ ?_ tokens.length tokens a (le_refl _)
    ⟨s, hsim, h⟩
  · rintro st ⟨s0, hs0, hl⟩
    rw [loadTemplates_nil] at hl
    cases hl
    exact hs0
  · rintro t rest st ⟨s0, hs0, hl⟩
    rw [loadTemplates_cons] at hl
    cases hstep : templatesStep t rest s0 with
    | error e => rw [hstep] at hl; cases hl
    | ok r =>
      obtain ⟨s1, rest1, err⟩ := r
      rw [hstep] at hl
      obtain ⟨a1, ha1, hsim1⟩ := templatesStep_sim hs0 hstep
      refine ⟨a1, rest1, err, ha1, ?_, ?_⟩
      · intro he
        subst he
        simp only [if_true, Except.ok.injEq] at hl
        subst hl
        exact hsim1
      · intro he
        subst he
        simp only [Bool.false_eq_true, if_false] at hl
        exact ⟨s1, hsim1, hl⟩

theorem readPropertiesFile_sim {r1 r2 : List Property} {file : Option (List Token)}
    {s a ps : PropertyLoader} {calls : List Call} (hsim : PropertyLoader.Sim r1 r2 s a)
    (h : readPropertiesFile file s = Except.ok (ps, calls)) :
    ∃ pa, readPropertiesFile file a = Except.ok (pa, calls) ∧
      PropertyLoader.Sim r1 r2 ps pa := by
  rcases readPropertiesFile_ok h with ⟨rfl, rfl, rfl⟩ | ⟨tokens, rfl, hl, rfl⟩
  · exact ⟨a, rfl, hsim⟩
  · obtain ⟨a2, ha2, hsim2⟩ := loadProperties_sim hsim hl
    exact ⟨a2, by simp [readPropertiesFile, ha2], hsim2⟩

theorem readTemplatesFile_sim {r1 r2 : List (List Property)} {file : Option (List Token)}
    {s a ts : TemplateLoader} {calls : List Call} (hsim : TemplateLoader.Sim r1 r2 s a)
    (h : readTemplatesFile file s = Except.ok (ts, calls)) :
    ∃ ta, readTemplatesFile file a = Except.ok (ta, calls) ∧
      TemplateLoader.Sim r1 r2 ts ta := by
  rcases readTemplatesFile_ok h with ⟨rfl, rfl, rfl⟩ | ⟨tokens, rfl, hl, rfl⟩
  · exact ⟨a, rfl, hsim⟩
  · obtain ⟨a2, ha2, hsim2⟩ := loadTemplates_sim hsim hl
    exact ⟨a2, by simp [readTemplatesFile, ha2], hsim2⟩

/-! ## Loading a well-formed custom-property stream -/

theorem readElementText_payload (payload : List Token) (name : String) (k : List Token) :
    ∀ acc, payload.all isTextToken = true →
      readElementText (payload ++ tEnd name :: k) acc = (appendText acc payload, k, false) := by
  induction payload with
  | nil => intro acc _; rfl
  | cons t rest ih =>
    intro acc h
    simp only [List.all_cons, Bool.and_eq_true] at h
    obtain ⟨ht, hrest⟩ := h
    simp only [isTextToken, decide_eq_true_eq] at ht
    simp only [List.cons_append, readElementText, appendText]
    rcases ht with ht | ht | ht | ht <;> simp [ht, ih _ hrest]

theorem templatesStep_filler {t : Token} (h : isTemplateFiller t = true) (rest : List Token)
    (s : TemplateLoader) : templatesStep t rest s = Except.ok (s, rest, false) := by
  simp only [isTemplateFiller, decide_eq_true_eq] at h
  obtain ⟨hinv, himp⟩ := h
  unfold templatesStep
  split_ifs with h1 h2 h3 h4 h5 h6 h7 h8
  · exact absurd h1 (himp (Or.inl h2)).1
  · exact absurd h1 (himp (Or.inr h3)).1
  · simp [hinv]
  · exact absurd h4 (himp (Or.inl h5)).2.1
  · exact absurd h4 (himp (Or.inr h6)).2.1
  · simp [hinv]
  · exact absurd h7 (himp (Or.inl h8)).2.2
  · simp [hinv]
  · simp [hinv]

theorem loadTemplates_filler {t : Token} (h : isTemplateFiller t = true) (rest : List Token)
    (s : TemplateLoader) : loadTemplates (t :: rest) s = loadTemplates rest s := by
  rw [loadTemplates_cons, templatesStep_filler h]
  simp

theorem loadTemplates_menuStart (name : String) (rest : List Token) (nodes : List Node)
    (p : Nat) (tn : String) (cur : List Property) (reg : List (List Property)) :
    loadTemplates (tStart "menu" name :: rest)
        { nodes := nodes, parentMenu := some p, templateName := tn, currentTemplate := cur,
          mCustomTemplates := reg } =
      loadTemplates rest
        { nodes := nodes ++ [Node.submenu (Label.plain name) p],
          parentMenu := some nodes.length, templateName := tn, currentTemplate := cur,
          mCustomTemplates := reg } := by
  rw [loadTemplates_cons]
  simp [templatesStep, tStart]

theorem loadTemplates_menuEnd (rest : List Token) (nodes : List Node)
    (p : Nat) (tn : String) (cur : List Property) (reg : List (List Property)) :
    loadTemplates (tEnd "menu" :: rest)
        { nodes := nodes, parentMenu := some p, templateName := tn, currentTemplate := cur,
          mCustomTemplates := reg } =
      loadTemplates rest
        { nodes := nodes, parentMenu := parentOf nodes p, templateName := tn,
          currentTemplate := cur, mCustomTemplates := reg } := by
  rw [loadTemplates_cons]
  simp [templatesStep, tEnd]

theorem loadTemplates_templateStart (name : String) (rest : List Token) (nodes : List Node)
    (pm : Option Nat) (tn : String) (cur : List Property) (reg : List (List Property)) :
    loadTemplates (tStart "template" name :: rest)
        { nodes := nodes, parentMenu := pm, templateName := tn, currentTemplate := cur,
          mCustomTemplates := reg } =
      loadTemplates rest
        { nodes := nodes, parentMenu := pm, templateName := name, currentTemplate := cur,
          mCustomTemplates := reg } := by
  rw [loadTemplates_cons]
  simp [templatesStep, tStart]

theorem loadTemplates_templateEnd (rest : List Token) (nodes : List Node)
    (p : Nat) (tn : String) (cur : List Property) (reg : List (List Property)) :
    loadTemplates (tEnd "template" :: rest)
        { nodes := nodes, parentMenu := some p, templateName := tn, currentTemplate := cur,
          mCustomTemplates := reg } =
      loadTemplates rest
        { nodes := nodes ++ [Node.act (Label.plain tn) p
            (some (Slot.applyTemplate (reg.length : Int)))],
          parentMenu := some p, templateName := "", currentTemplate := [],
          mCustomTemplates := reg ++ [cur] } := by
  rw [loadTemplates_cons]
  simp [templatesStep, tEnd]

theorem loadTemplates_property (name : String) (payload : List Token)
    (hp : payload.all isTextToken = true) (rest : List Token) (nodes : List Node)
    (pm : Option Nat) (tn : String) (cur : List Property) (reg : List (List Property)) :
    loadTemplates (tStart "property" name :: (payload ++ tEnd "property" :: rest))
        { nodes := nodes, parentMenu := pm, templateName := tn, currentTemplate := cur,
          mCustomTemplates := reg } =
      loadTemplates rest
        { nodes := nodes, parentMenu := pm, templateName := tn,
          currentTemplate := cur ++ [{ name := name, value := payloadText payload }],
          mCustomTemplates := reg } := by
  rw [loadTemplates_cons]
  simp [templatesStep, tStart, readElementText_payload payload "property" rest "" hp,
    payloadText]

theorem templateDef_nodes_length (d : TemplateDef) :
    ∀ parent first firstId, (d.nodes parent first firstId).length = d.nodeCount := by
  induction d with
  | done => intros; rfl
  | filler t rest ih => intros; simp [TemplateDef.nodes, TemplateDef.nodeCount, ih]
  | menu name children rest ihc ihr =>
    intros
    simp [TemplateDef.nodes, TemplateDef.nodeCount, ihc, ihr]
    omega
  | template name content rest ih =>
    intros
    simp [TemplateDef.nodes, TemplateDef.nodeCount, ih]
    omega

theorem templateDef_records_length (d : TemplateDef) : d.records.length = d.templateCount := by
  induction d with
  | done => rfl
  | filler t rest ih => simp [TemplateDef.records, TemplateDef.templateCount, ih]
  | menu name children rest ihc ihr =>
    simp [TemplateDef.records, TemplateDef.templateCount, ihc, ihr]
  | template name content rest ih =>
    simp [TemplateDef.records, TemplateDef.templateCount, ih]
    omega

theorem loadTemplates_content (content : List TemplateItem) :
    content.all TemplateItem.wellFormed = true →
    ∀ (k : List Token) (nodes : List Node) (pm : Option Nat) (tn : String)
      (cur : List Property) (reg : List (List Property)),
      loadTemplates (templateTokens content ++ k)
          { nodes := nodes, parentMenu := pm, templateName := tn, currentTemplate := cur,
            mCustomTemplates := reg } =
        loadTemplates k
          { nodes := nodes, parentMenu := pm, templateName := tn,
            currentTemplate := cur ++ templateProperties content,
            mCustomTemplates := reg } := by
  induction content with
  | nil =>
    intro _ k nodes pm tn cur reg
    simp [templateTokens, templateProperties]
  | cons item rest ih =>
    intro hwf k nodes pm tn cur reg
    simp only [List.all_cons, Bool.and_eq_true] at hwf
    obtain ⟨hitem, hrest⟩ := hwf
    cases item with
    | filler t =>
      simp only [templateTokens, TemplateItem.tokens, List.singleton_append, List.cons_append,
        List.nil_append, templateProperties]
      rw [loadTemplates_filler hitem, ih hrest]
    | property name payload =>
      simp only [templateTokens, TemplateItem.tokens, List.cons_append, List.append_assoc,
        List.singleton_append, List.nil_append, templateProperties]
      rw [loadTemplates_property name payload hitem, ih hrest]
      simp

/-- Loading the tokens of a well-formed custom-template stream, from under the
menu `p` and with no property collected, adds the menu tree and the records of
the stream and comes back to where it started. -/
theorem loadTemplates_def (d : TemplateDef) :
    d.wellFormed = true →
    ∀ (k : List Token) (nodes : List Node) (p : Nat) (tn : String)
      (reg : List (List Property)),
      ∃ tn1, loadTemplates (d.tokens ++ k)
          { nodes := nodes, parentMenu := some p, templateName := tn, currentTemplate := [],
            mCustomTemplates := reg } =
        loadTemplates k
          { nodes := nodes ++ d.nodes p nodes.length reg.length,
            parentMenu := some p, templateName := tn1, currentTemplate := [],
            mCustomTemplates := reg ++ d.records } := by
  induction d with
  | done =>
    intro _ k nodes p tn reg
    exact ⟨tn, by simp [TemplateDef.tokens, TemplateDef.nodes, TemplateDef.records]⟩
  | filler t rest ih =>
    intro hwf k nodes p tn reg
    simp only [TemplateDef.wellFormed, Bool.and_eq_true] at hwf
    obtain ⟨tn1, h1⟩ := ih hwf.2 k nodes p tn reg
    refine ⟨tn1, ?_⟩
    simp only [TemplateDef.tokens, List.cons_append, TemplateDef.nodes, TemplateDef.records]
    rw [loadTemplates_filler hwf.1, h1]
  | menu name children rest ihc ihr =>
    intro hwf k nodes p tn reg
    simp only [TemplateDef.wellFormed, Bool.and_eq_true] at hwf
    obtain ⟨tn1, h1⟩ := ihc hwf.1 (tEnd "menu" :: (rest.tokens ++ k))
      (nodes ++ [Node.submenu (Label.plain name) p]) nodes.length tn reg
    obtain ⟨tn2, h2⟩ := ihr hwf.2 k
      (nodes ++ [Node.submenu (Label.plain name) p] ++
        children.nodes nodes.length (nodes ++ [Node.submenu (Label.plain name) p]).length
          reg.length) p tn1 (reg ++ children.records)
    refine ⟨tn2, ?_⟩
    simp only [TemplateDef.tokens, List.cons_append, List.append_assoc, TemplateDef.nodes,
      TemplateDef.records]
    rw [loadTemplates_menuStart, h1, loadTemplates_menuEnd]
    have hpar : parentOf (nodes ++ [Node.submenu (Label.plain name) p] ++
        children.nodes nodes.length (nodes ++ [Node.submenu (Label.plain name) p]).length
          reg.length) nodes.length = some p :=
      parentOf_append _ (by rw [parentOf_new]; rfl)
    rw [hpar, h2]
    simp [templateDef_nodes_length, templateDef_records_length, Nat.add_assoc, Nat.add_comm 1]
  | template name content rest ih =>
    intro hwf k nodes p tn reg
    simp only [TemplateDef.wellFormed, Bool.and_eq_true] at hwf
    obtain ⟨tn2, h2⟩ := ih hwf.2 k
      (nodes ++ [Node.act (Label.plain name) p (some (Slot.applyTemplate (reg.length : Int)))])
      p "" (reg ++ [templateProperties content])
    refine ⟨tn2, ?_⟩
    simp only [TemplateDef.tokens, List.cons_append, List.append_assoc, TemplateDef.nodes,
      TemplateDef.records]
    rw [loadTemplates_templateStart, loadTemplates_content content hwf.1,
      loadTemplates_templateEnd, List.nil_append, h2]
    simp

theorem templateDef_nodes_ids (d : TemplateDef) :
    ∀ parent first firstId, (d.nodes parent first firstId).filterMap Node.templateId =
      (List.range' firstId d.templateCount).map Int.ofNat := by
  induction d with
  | done => intros; rfl
  | filler t rest ih => intros; simp [TemplateDef.nodes, TemplateDef.templateCount, ih]
  | menu name children rest ihc ihr =>
    intro parent first firstId
    simp only [TemplateDef.nodes, TemplateDef.templateCount, List.filterMap_cons,
      Node.templateId, Node.submenu, List.filterMap_append, ihc, ihr]
    rw [← List.map_append, List.range'_append_1, Nat.add_comm]
  | template name content rest ih =>
    intro parent first firstId
    simp only [TemplateDef.nodes, TemplateDef.templateCount, List.filterMap_cons,
      Node.templateId, Node.act, ih]
    rw [Nat.add_comm 1, List.range'_succ]
    rfl

theorem templateDef_nodes_labels (d : TemplateDef) :
    ∀ parent first firstId,
      ((d.nodes parent first firstId).filter Node.isAction).map Node.text =
        d.names.map Label.plain := by
  induction d with
  | done => intros; rfl
  | filler t rest ih => intros; simp [TemplateDef.nodes, TemplateDef.names, ih]
  | menu name children rest ihc ihr =>
    intro parent first firstId
    simp [TemplateDef.nodes, TemplateDef.names, Node.isAction, Node.submenu] at ihc ihr ⊢
    rw [ihc, ihr]
  | template name content rest ih =>
    intro parent first firstId
    simp [TemplateDef.nodes, TemplateDef.names, Node.isAction, Node.act] at ih ⊢
    rw [ih]

/-- When the tokens of each definition file that can be opened are balanced,
building the menu does not fail. -/
theorem buildMenu_of_balanced (env : Env) (selection : Finset Nat) (tool : AbstractObjectTool)
    (hP : ∀ tokens, env.propertiesFile = some tokens → Balanced tokens)
    (hT : ∀ tokens, env.templatesFile = some tokens → Balanced tokens) :
    ∃ b, buildMenu env selection tool = Except.ok b := by
  have h1 : ∃ ps calls1, readPropertiesFile env.propertiesFile
      (propertiesInit selection tool) = Except.ok (ps, calls1) := by
    cases hf : env.propertiesFile with
    | none => exact ⟨_, _, rfl⟩
    | some tokens =>
      obtain ⟨s1, hs1, _⟩ := loadProperties_balanced (hP tokens hf)
        (propertiesInit selection tool) 4 rfl (by simp [propertiesInit, menuStart])
        (fun pm hpm => by simp [propertiesInit] at hpm)
      exact ⟨s1, [], by simp [readPropertiesFile, hs1]⟩
  obtain ⟨ps, calls1, hps⟩ := h1
  have h2 : ∃ ts calls2, readTemplatesFile env.templatesFile
      (templatesInit ps.nodes tool) = Except.ok (ts, calls2) := by
    cases hf : env.templatesFile with
    | none => exact ⟨_, _, rfl⟩
    | some tokens =>
      obtain ⟨s1, hs1, _⟩ := loadTemplates_balanced (hT tokens hf)
        (templatesInit ps.nodes tool) ps.nodes.length rfl (by simp [templatesInit])
      exact ⟨s1, [], by simp [readTemplatesFile, hs1]⟩
  obtain ⟨ts, calls2, hts⟩ := h2
  exact ⟨_, by simp only [buildMenu, hps, hts]; rfl⟩

/-! ## The reader keeps the groups balanced -/

theorem buildMenu_propertiesAction {env : Env} {selection : Finset Nat}
    {tool : AbstractObjectTool} {b : Built} (h : buildMenu env selection tool = Except.ok b) :
    ∃ node, b.nodes[b.propertiesAction]? = some node ∧
      node.enabled = decide (env.doc.selectedObjects.length = 1) := by
  obtain ⟨A, _, _, hn⟩ := buildMenu_split h
  have hp : propertiesNodes env.doc = [Node.sep 0,
    { Node.act (Label.plain "Object &Properties...") 0 none with
        icon := ":images/16x16/document-properties.png",
        enabled := decide (env.doc.selectedObjects.length = 1) }] := rfl
  refine ⟨{ Node.act (Label.plain "Object &Properties...") 0 none with
      icon := ":images/16x16/document-properties.png",
      enabled := decide (env.doc.selectedObjects.length = 1) }, ?_, rfl⟩
  rw [buildMenu_ok_nodes h, hn, hp]
  exact last_of_append_two _ _ _

theorem runSlot_ok {env : Env} {selection : Finset Nat} {tool : AbstractObjectTool} {b : Built}
    (h : buildMenu env selection tool = Except.ok b) {node : Node} (hn : node ∈ b.nodes)
    {slot : Slot} (hs : node.slot = some slot) :
    ∃ calls, runSlot b.tool env.doc slot = Except.ok (b.tool, calls) := by
  have hv := buildMenu_slotsValid h node hn
  cases slot with
  | addProperty i =>
    obtain ⟨h0, h1⟩ := (hv i).1 hs
    exact addProperty_ok_of_valid _ _ _ h0 h1
  | applyTemplate i =>
    obtain ⟨h0, h1⟩ := (hv i).2 hs
    exact applyTemplate_ok_of_valid _ _ _ h0 h1
  | _ => exact ⟨_, rfl⟩

/-- Routing what `menu.exec` returns from a built menu does not fail. -/
theorem route_ok {env : Env} {selection : Finset Nat} {tool : AbstractObjectTool} {b : Built}
    (h : buildMenu env selection tool = Except.ok b) :
    ∃ calls, route env b (execResult b.nodes env.chosen) = Except.ok (b.tool, calls) := by
  cases hex : execResult b.nodes env.chosen with
  | none => exact ⟨[], rfl⟩
  | some a =>
    have hnode : ∃ node, b.nodes[a]? = some node ∧ node.enabled = true := by
      unfold execResult at hex
      cases hch : env.chosen with
      | none => simp [hch] at hex
      | some a1 =>
        simp only [hch] at hex
        cases hn1 : b.nodes[a1]? with
        | none => simp [hn1] at hex
        | some node1 =>
          simp only [hn1] at hex
          split_ifs at hex with hc
          simp only [Option.some.injEq] at hex
          subst hex
          exact ⟨node1, hn1, hc.2⟩
    obtain ⟨node, hn, hen⟩ := hnode
    have htrig : ∃ calls1, (match node.slot with
        | some slot => runSlot b.tool env.doc slot
        | none => Except.ok (b.tool, [])) = Except.ok (b.tool, calls1) := by
      cases hslot : node.slot with
      | none => exact ⟨[], rfl⟩
      | some slot => exact runSlot_ok h (List.getElem?_mem hn) hslot
    obtain ⟨calls1, hc1⟩ := htrig
    unfold route
    simp only [hn, hc1]
    split_ifs with hpa
    · obtain ⟨pnode, hpn, hpe⟩ := buildMenu_propertiesAction h
      rw [← hpa, hn] at hpn
      simp only [Option.some.injEq] at hpn
      subst hpn
      rw [hen] at hpe
      have hlen : env.doc.selectedObjects.length = 1 := by simpa using hpe.symm
      cases hso : env.doc.selectedObjects with
      | nil => rw [hso] at hlen; simp at hlen
      | cons x rest => exact ⟨_, rfl⟩
    · cases node.data with
      | none => exact ⟨_, rfl⟩
      | some g => exact ⟨_, rfl⟩

/-- C9: for a valid index, `addProperty` makes no call and leaves the tool as it is
when the document has no current object, and otherwise pushes exactly one
`SetProperty` with the name and value of the indexed record on all current
objects; `applyTemplate` does the same with one `ApplyTemplate` carrying the
indexed template, properties in loaded order.  The registries are unchanged. -/
theorem dispatch_pushes_one_command (tool : AbstractObjectTool) (doc : MapDocument) (i : Nat) :
    (i < tool.mCustomProperties.length →
      (doc.currentObject = none → tool.addProperty doc (i : Int) = Except.ok (tool, [])) ∧
      (doc.currentObject ≠ none → ∃ p, tool.mCustomProperties[i]? = some p ∧
        tool.addProperty doc (i : Int) = Except.ok
          (tool, [Call.undoPush (Command.SetProperty doc.currentObjects p.name p.value)]))) ∧
    (i < tool.mCustomTemplates.length →
      (doc.currentObject = none → tool.applyTemplate doc (i : Int) = Except.ok (tool, [])) ∧
      (doc.currentObject ≠ none → ∃ t, tool.mCustomTemplates[i]? = some t ∧
        tool.applyTemplate doc (i : Int) = Except.ok
          (tool, [Call.undoPush (Command.ApplyTemplate doc.currentObjects t)]))) := by
  refine ⟨fun hi => ⟨fun hc => ?_, fun hc => ?_⟩, fun hi => ⟨fun hc => ?_, fun hc => ?_⟩⟩
  · simp [AbstractObjectTool.addProperty, hc]
  · obtain ⟨o, ho⟩ := Option.ne_none_iff_exists'.mp hc
    obtain ⟨p, hp⟩ : ∃ p, tool.mCustomProperties[i]? = some p :=
      ⟨_, List.getElem?_eq_getElem hi⟩
    refine ⟨p, hp, ?_⟩
    simp [AbstractObjectTool.addProperty, ho, hp]
  · simp [AbstractObjectTool.applyTemplate, hc]
  · obtain ⟨o, ho⟩ := Option.ne_none_iff_exists'.mp hc
    obtain ⟨t, ht⟩ : ∃ t, tool.mCustomTemplates[i]? = some t :=
      ⟨_, List.getElem?_eq_getElem hi⟩
    refine ⟨t, ht, ?_⟩
    simp [AbstractObjectTool.applyTemplate, ho, ht]

/-- C2: whatever the registries held before and whatever tokens the two readers
deliver, when the menu has been built every action bound to `addProperty i` has
`0 ≤ i < mCustomProperties.size()` and every action bound to `applyTemplate i`
has `0 ≤ i < mCustomTemplates.size()`, the registries being those of the moment
`menu.exec` is called; so the slot, run from the menu, does not index out of
bounds. -/
theorem bound_indices_in_range (env : Env) (selection : Finset Nat) (tool : AbstractObjectTool)
    (b : Built) (h : buildMenu env selection tool = Except.ok b) :
    ∀ node ∈ b.nodes, ∀ i : Int,
      (node.slot = some (Slot.addProperty i) →
        0 ≤ i ∧ i < (b.tool.mCustomProperties.length : Int) ∧
        ∃ calls, b.tool.addProperty env.doc i = Except.ok (b.tool, calls)) ∧
      (node.slot = some (Slot.applyTemplate i) →
        0 ≤ i ∧ i < (b.tool.mCustomTemplates.length : Int) ∧
        ∃ calls, b.tool.applyTemplate env.doc i = Except.ok (b.tool, calls)) := by
  intro node hn i
  have hv := buildMenu_slotsValid h node hn i
  refine ⟨fun hs => ?_, fun hs => ?_⟩
  · obtain ⟨h0, h1⟩ := hv.1 hs
    exact ⟨h0, h1, addProperty_ok_of_valid _ _ _ h0 h1⟩
  · obtain ⟨h0, h1⟩ := hv.2 hs
    exact ⟨h0, h1, applyTemplate_ok_of_valid _ _ _ h0 h1⟩

/-- C7: in a menu that `showContextMenu` has built, the actions connected to
`raise`, `lower`, `raiseToTop` and `lowerToBottom` are exactly the four entries
"Raise Object", "Lower Object", "Raise Object to Top", "Lower Object to Bottom",
together and in that order, when all selected object items are in one object
group whose draw order is `IndexOrder`, and there is none of them otherwise;
all selected items being in one such group is the same as `sameObjectGroup`
returning a group with that draw order. -/
theorem raise_lower_entries (env : Env) (tool : AbstractObjectTool) (scene : MapScene)
    (clicked : Option Nat) (pos : Int × Int) (o : Outcome) (nodes : List Node)
    (h : showContextMenu env tool scene clicked pos = Except.ok o)
    (hm : o.menu = some nodes) :
    (nodes.filter Node.isRaiseLower = raiseLowerActions ↔
      ∃ g : ObjectGroup, (∀ i ∈ (adjustSelection scene clicked).1, env.objectGroupOf i = g) ∧
        g.drawOrder = DrawOrder.IndexOrder) ∧
    ((∃ g : ObjectGroup, (∀ i ∈ (adjustSelection scene clicked).1, env.objectGroupOf i = g) ∧
        g.drawOrder = DrawOrder.IndexOrder) → raiseLowerActions <:+: nodes) ∧
    ((¬ ∃ g : ObjectGroup, (∀ i ∈ (adjustSelection scene clicked).1, env.objectGroupOf i = g) ∧
        g.drawOrder = DrawOrder.IndexOrder) → nodes.filter Node.isRaiseLower = []) ∧
    ((∃ g : ObjectGroup,
        sameObjectGroup env.objectGroupOf (adjustSelection scene clicked).1 = some g ∧
        g.drawOrder = DrawOrder.IndexOrder) ↔
      ∃ g : ObjectGroup, (∀ i ∈ (adjustSelection scene clicked).1, env.objectGroupOf i = g) ∧
        g.drawOrder = DrawOrder.IndexOrder) := by
  rcases showContextMenu_ok h with ⟨_, ho⟩ | ⟨hne, b, calls1, hb, _, ho⟩
  · rw [ho] at hm
    cases hm
  rw [ho] at hm
  simp only [Option.some.injEq] at hm
  subst hm
  have hfilter := buildMenu_raiseLower hb
  have hyes : (∃ g : ObjectGroup,
      (∀ i ∈ (adjustSelection scene clicked).1, env.objectGroupOf i = g) ∧
        g.drawOrder = DrawOrder.IndexOrder) →
      raiseLowerNodes env.objectGroupOf (adjustSelection scene clicked).1 =
        Node.sep 0 :: raiseLowerActions := by
    rintro ⟨g, hg, hd⟩
    unfold raiseLowerNodes
    rw [(sameObjectGroup_eq_some _ _ hne g).mpr hg]
    simp [hd]
  have hno : (¬ ∃ g : ObjectGroup,
      (∀ i ∈ (adjustSelection scene clicked).1, env.objectGroupOf i = g) ∧
        g.drawOrder = DrawOrder.IndexOrder) →
      raiseLowerNodes env.objectGroupOf (adjustSelection scene clicked).1 = [] := by
    intro hng
    unfold raiseLowerNodes
    cases hs : sameObjectGroup env.objectGroupOf (adjustSelection scene clicked).1 with
    | none => rfl
    | some g =>
      have hg := (sameObjectGroup_eq_some _ _ hne g).mp hs
      simp only
      rw [if_neg (fun hd => hng ⟨g, hg, hd⟩)]
  have hfour : (Node.sep 0 :: raiseLowerActions).filter Node.isRaiseLower = raiseLowerActions := by
    decide
  refine ⟨⟨fun heq => ?_, fun hg => ?_⟩, fun hg => ?_, fun hng => ?_, ⟨?_, ?_⟩⟩
  rotate_left 4
  · rintro ⟨g, hs, hd⟩
    exact ⟨g, (sameObjectGroup_eq_some _ _ hne g).mp hs, hd⟩
  · rintro ⟨g, hg, hd⟩
    exact ⟨g, (sameObjectGroup_eq_some _ _ hne g).mpr hg, hd⟩
  · by_contra hng
    rw [hfilter, hno hng] at heq
    cases heq
  · rw [hfilter, hyes hg, hfour]
  · obtain ⟨addedP, addedT, hn, _⟩ := buildMenu_nodes hb
    rw [hn, menuTail, hyes hg]
    have e : ∀ (A F M P : List Node),
        A ++ (F ++ (Node.sep 0 :: raiseLowerActions) ++ M ++ P) =
          (A ++ F ++ [Node.sep 0]) ++ raiseLowerActions ++ (M ++ P) := by
      intros
      simp
    rw [e]
    exact List.infix_append _ _ _
  · rw [hfilter, hno hng]
    rfl

/-- C8: in a menu that `showContextMenu` has built, the submenu "Move to Layer"
is present if and only if the map has at least two object groups; its entries
are one action per object group, in the order of `objectGroups()`, each named
after its group and carrying it as payload; when the user picks an entry that
carries the group `L`, `moveObjectsToGroup` is called exactly once, with the
document selection and `L`; and when the user picks an entry without such a
payload, or nothing, it is not called. -/
theorem move_to_layer (env : Env) (tool : AbstractObjectTool) (scene : MapScene)
    (clicked : Option Nat) (pos : Int × Int) (o : Outcome) (nodes : List Node)
    (h : showContextMenu env tool scene clicked pos = Except.ok o)
    (hm : o.menu = some nodes) :
    ((∃ n ∈ nodes, n.isMoveToLayerMenu = true) ↔ 2 ≤ env.doc.objectGroups.length) ∧
    (∀ m node, nodes[m]? = some node → node.isMoveToLayerMenu = true →
      node.parent = some 0 ∧
      menuEntries nodes m = env.doc.objectGroups.map (layerEntry m)) ∧
    (∀ a node L, env.chosen = some a → nodes[a]? = some node → node.data = some L →
      o.calls.filter Call.isMove =
        [Call.moveObjectsToGroup env.doc.selectedObjects L]) ∧
    ((env.chosen = none ∨ ∃ a node, env.chosen = some a ∧ nodes[a]? = some node ∧
        node.data = none) →
      o.calls.filter Call.isMove = []) := by
  rcases showContextMenu_ok h with ⟨_, ho⟩ | ⟨hne, b, calls1, hb, hr, ho⟩
  · rw [ho] at hm
    cases hm
  rw [ho] at hm
  simp only [Option.some.injEq] at hm
  subst hm
  obtain ⟨A, hA, hpos, hn⟩ := buildMenu_split hb
  have hcalls : o.calls.filter Call.isMove = calls1.filter Call.isMove := by
    rw [ho]
    simp only [List.filter_append]
    have e1 : ((adjustSelection scene clicked).2.2).filter Call.isMove = [] := by
      rw [List.filter_eq_nil_iff]
      intro c hc
      simp [adjustSelection_calls scene clicked c hc]
    have e2 : b.calls.filter Call.isMove = [] := by
      rw [List.filter_eq_nil_iff]
      intro c hc
      simp [(buildMenu_calls hb c hc).1]
    have e3 : [Call.exec pos].filter Call.isMove = [] := rfl
    rw [e1, e2, e3]
    rfl
  have hfew : ¬ 1 < env.doc.objectGroups.length → ∀ n ∈ b.nodes, n.isMoveToLayerMenu = false := by
    intro hlen n hmem
    rw [hn, moveToLayerNodes_few hlen, List.append_nil] at hmem
    rcases List.mem_append.mp hmem with hm | hm
    · exact (hA n hm).1
    · exact (propertiesNodes_plain _ n hm).1
  have hshape : 1 < env.doc.objectGroups.length →
      b.nodes = (A ++ [Node.sep 0]) ++
        Node.submenu (Label.plural "Move %n Object(s) to Layer"
          env.doc.selectedObjects.length) 0 ::
        (env.doc.objectGroups.map (layerEntry (A.length + 1)) ++ propertiesNodes env.doc) := by
    intro hlen
    rw [hn, moveToLayerNodes_many hlen]
    simp
  refine ⟨⟨?_, ?_⟩, ?_, ?_, ?_⟩
  · rintro ⟨n, hmem, hmove⟩
    by_contra hlen
    have := hfew (by omega) n hmem
    rw [this] at hmove
    cases hmove
  · intro hlen
    refine ⟨Node.submenu (Label.plural "Move %n Object(s) to Layer"
      env.doc.selectedObjects.length) 0, ?_, by simp [Node.isMoveToLayerMenu, Node.submenu]⟩
    rw [hshape (by omega)]
    simp
  · intro m node hmn hmove
    by_cases hlen : 1 < env.doc.objectGroups.length
    · have hA1 : ∀ a ∈ A ++ [Node.sep 0], ¬ (a.isMoveToLayerMenu = true) := by
        intro a ha
        rcases List.mem_append.mp ha with h1 | h1
        · simp [(hA a h1).1]
        · rw [List.mem_singleton] at h1
          subst h1
          simp [Node.isMoveToLayerMenu, Node.sep]
      have hB1 : ∀ a ∈ env.doc.objectGroups.map (layerEntry (A.length + 1)) ++
          propertiesNodes env.doc, ¬ (a.isMoveToLayerMenu = true) := by
        intro a ha
        rcases List.mem_append.mp ha with h1 | h1
        · obtain ⟨g, _, rfl⟩ := List.mem_map.mp h1
          simp [Node.isMoveToLayerMenu, layerEntry, Node.act]
        · simp [(propertiesNodes_plain _ a h1).1]
      have hidx : m = (A ++ [Node.sep 0]).length :=
        index_of_only (fun n => n.isMoveToLayerMenu = true) (hshape hlen) hA1 hB1 hmn hmove
      have hm1 : m = A.length + 1 := by simpa using hidx
      subst hm1
      constructor
      · rw [hshape hlen] at hmn
        have hlt : A.length + 1 = (A ++ [Node.sep 0]).length := by simp
        rw [List.getElem?_append_right (by simp)] at hmn
        simp at hmn
        rw [← hmn]
        rfl
      · rw [hshape hlen]
        unfold menuEntries
        simp only [List.filter_append, List.filter_cons]
        have f1 : A.filter (fun n => decide (n.parent = some (A.length + 1))) = [] :=
          menuEntries_of_plain hA (Nat.le_succ _)
        have f2 : (env.doc.objectGroups.map (layerEntry (A.length + 1))).filter
            (fun n => decide (n.parent = some (A.length + 1))) =
            env.doc.objectGroups.map (layerEntry (A.length + 1)) := by
          rw [List.filter_eq_self]
          intro a ha
          obtain ⟨g, _, rfl⟩ := List.mem_map.mp ha
          simp [layerEntry, Node.act]
        have f3 : (propertiesNodes env.doc).filter
            (fun n => decide (n.parent = some (A.length + 1))) = [] := by
          rw [List.filter_eq_nil_iff]
          intro a ha
          rw [(propertiesNodes_plain _ a ha).2.2]
          simp
        rw [f1, f2, f3]
        simp [Node.sep, Node.submenu]
    · have := hfew hlen node (List.getElem?_mem hmn)
      rw [this] at hmove
      cases hmove
  · intro a node L hch hnode hdata
    obtain ⟨hkind, hen, hnp⟩ := buildMenu_payload hb hnode hdata
    have hexec : execResult b.nodes env.chosen = some a := by
      simp [execResult, hch, hnode, hkind, hen]
    rw [hexec] at hr
    rw [hcalls]
    exact (route_spec hr).2.2.1 a node rfl hnode hnp L hdata
  · intro hcase
    rw [hcalls]
    refine (route_spec hr).2.2.2 ?_
    rcases hcase with hnone | ⟨a, node, hch, hnode, hdata⟩
    · left
      simp [execResult, hnone]
    · by_cases hex : execResult b.nodes env.chosen = none
      · exact Or.inl hex
      · right
        refine ⟨a, ?_, Or.inr (Or.inr ⟨node, hnode, hdata⟩)⟩
        simp only [execResult, hch, hnode] at hex ⊢
        split_ifs at hex ⊢
        · rfl
        · exact absurd rfl hex

theorem bound_indices_in_range_witness :
    buildMenu (sampleEnv none) {1, 2} sampleTool = Except.ok sampleBuilt ∧
    ∀ node ∈ sampleBuilt.nodes, ∀ i : Int,
      (node.slot = some (Slot.addProperty i) →
        0 ≤ i ∧ i < (sampleBuilt.tool.mCustomProperties.length : Int) ∧
        ∃ calls, sampleBuilt.tool.addProperty (sampleEnv none).doc i =
          Except.ok (sampleBuilt.tool, calls)) ∧
      (node.slot = some (Slot.applyTemplate i) →
        0 ≤ i ∧ i < (sampleBuilt.tool.mCustomTemplates.length : Int) ∧
        ∃ calls, sampleBuilt.tool.applyTemplate (sampleEnv none).doc i =
          Except.ok (sampleBuilt.tool, calls)) :=
  ⟨by decide, bound_indices_in_range (sampleEnv none) {1, 2} sampleTool sampleBuilt (by decide)⟩

theorem raise_lower_entries_witness :
    showContextMenu (sampleEnv none) sampleTool { selectedObjectItems := {1, 2} } (some 1) (0, 0) =
      Except.ok (sampleOutcome none) ∧
    (sampleOutcome none).menu = some sampleBuilt.nodes ∧
    raiseLowerActions <:+: sampleBuilt.nodes :=
  ⟨by decide, by decide,
    (raise_lower_entries (sampleEnv none) sampleTool { selectedObjectItems := {1, 2} } (some 1)
      (0, 0) (sampleOutcome none) sampleBuilt.nodes (by decide) (by decide)).2.1
      ⟨{ id := 0, name := "ground", drawOrder := DrawOrder.IndexOrder }, fun _ _ => rfl, rfl⟩⟩

theorem move_to_layer_witness :
    showContextMenu (sampleEnv (some 23)) sampleTool { selectedObjectItems := {1, 2} } (some 1)
      (0, 0) = Except.ok (sampleOutcome (some 23)) ∧
    (sampleOutcome (some 23)).menu = some sampleBuilt.nodes ∧
    (sampleOutcome (some 23)).calls.filter Call.isMove =
      [Call.moveObjectsToGroup [1, 2]
        { id := 1, name := "sky", drawOrder := DrawOrder.TopDownOrder }] :=
  ⟨by decide, by decide,
    (move_to_layer (sampleEnv (some 23)) sampleTool { selectedObjectItems := {1, 2} } (some 1)
      (0, 0) (sampleOutcome (some 23)) sampleBuilt.nodes (by decide) (by decide)).2.2.1
      23 (layerEntry 21 { id := 1, name := "sky", drawOrder := DrawOrder.TopDownOrder })
      { id := 1, name := "sky", drawOrder := DrawOrder.TopDownOrder } rfl (by decide) rfl⟩

/-- C3, claim as stated, fails: the registries are not rebuilt.  Started with
empty registries the sample files leave two property records and one template;
a second invocation on the same files, started with those, leaves four and
two. -/
theorem registries_not_rebuilt :
    (buildMenu (sampleEnv none) {1, 2} { mCustomProperties := [], mCustomTemplates := [] }).map
        Built.tool =
      Except.ok { mCustomProperties := [⟨"team", "red"⟩, ⟨"team", "blue"⟩],
                  mCustomTemplates := [[⟨"team", "red"⟩, ⟨"hp", "10"⟩]] } ∧
    (buildMenu (sampleEnv none) {1, 2}
        { mCustomProperties := [⟨"team", "red"⟩, ⟨"team", "blue"⟩],
          mCustomTemplates := [[⟨"team", "red"⟩, ⟨"hp", "10"⟩]] }).map Built.tool =
      Except.ok { mCustomProperties :=
                    [⟨"team", "red"⟩, ⟨"team", "blue"⟩, ⟨"team", "red"⟩, ⟨"team", "blue"⟩],
                  mCustomTemplates :=
                    [[⟨"team", "red"⟩, ⟨"hp", "10"⟩], [⟨"team", "red"⟩, ⟨"hp", "10"⟩]] } := by
  constructor <;> decide

/-- C3, amended: the registries are never cleared.  After the loading loops each
registry is what it held before followed by the records read from its definition
file in this invocation; which records are read does not depend on what the
registries held, so a second invocation on the same files appends the same
records once more. -/
theorem registries_grow_by_loaded_records (env : Env) (selection : Finset Nat)
    (tool : AbstractObjectTool) (b : Built) (h : buildMenu env selection tool = Except.ok b) :
    ∃ (recsP : List Property) (recsT : List (List Property)),
      b.tool.mCustomProperties = tool.mCustomProperties ++ recsP ∧
      b.tool.mCustomTemplates = tool.mCustomTemplates ++ recsT ∧
      ∀ tool2 : AbstractObjectTool, ∃ b2, buildMenu env selection tool2 = Except.ok b2 ∧
        b2.tool.mCustomProperties = tool2.mCustomProperties ++ recsP ∧
        b2.tool.mCustomTemplates = tool2.mCustomTemplates ++ recsT := by
  obtain ⟨ps, calls1, ts, calls2, h1, h2, _, _, ht, _⟩ := buildMenu_ok h
  have sim1 : ∀ tool2 : AbstractObjectTool,
      PropertyLoader.Sim tool.mCustomProperties tool2.mCustomProperties
        (propertiesInit selection tool) (propertiesInit selection tool2) := by
    intro tool2
    exact ⟨⟨[], by simp [propertiesInit], by simp [propertiesInit]⟩, rfl, rfl, rfl, rfl⟩
  obtain ⟨pa0, _, ⟨recsP, hP, _⟩, _⟩ := readPropertiesFile_sim (sim1 tool) h1
  have sim2 : ∀ (tool2 : AbstractObjectTool) (nodes2 : List Node),
      ps.nodes.map Node.parent = nodes2.map Node.parent →
      TemplateLoader.Sim tool.mCustomTemplates tool2.mCustomTemplates
        (templatesInit ps.nodes tool) (templatesInit nodes2 tool2) := by
    intro tool2 nodes2 hpar
    refine ⟨⟨[], by simp [templatesInit], by simp [templatesInit]⟩, ?_, rfl, rfl, ?_⟩
    · simp [templatesInit, length_congr hpar]
    · simp [templatesInit, hpar]
  obtain ⟨ta0, _, ⟨recsT, hT, _⟩, _⟩ := readTemplatesFile_sim (sim2 tool ps.nodes rfl) h2
  refine ⟨recsP, recsT, by rw [ht]; exact hP, by rw [ht]; exact hT, ?_⟩
  intro tool2
  obtain ⟨pa, hpa, ⟨recsP2, hP2, hPa⟩, _, _, _, hpar⟩ := readPropertiesFile_sim (sim1 tool2) h1
  obtain ⟨ta, hta, ⟨recsT2, hT2, hTa⟩, _⟩ :=
    readTemplatesFile_sim (sim2 tool2 pa.nodes hpar) h2
  have eP : recsP2 = recsP := List.append_cancel_left (hP2.symm.trans hP)
  have eT : recsT2 = recsT := List.append_cancel_left (hT2.symm.trans hT)
  subst eP eT
  refine ⟨_, by simp only [buildMenu, hpa, hta]; rfl, hPa, hTa⟩

theorem registries_grow_by_loaded_records_witness :
    buildMenu (sampleEnv none) {1, 2} sampleTool = Except.ok sampleBuilt ∧
    ∃ (recsP : List Property) (recsT : List (List Property)),
      sampleBuilt.tool.mCustomProperties = sampleTool.mCustomProperties ++ recsP ∧
      sampleBuilt.tool.mCustomTemplates = sampleTool.mCustomTemplates ++ recsT ∧
      ∀ tool2 : AbstractObjectTool, ∃ b2,
        buildMenu (sampleEnv none) {1, 2} tool2 = Except.ok b2 ∧
        b2.tool.mCustomProperties = tool2.mCustomProperties ++ recsP ∧
        b2.tool.mCustomTemplates = tool2.mCustomTemplates ++ recsT :=
  ⟨by decide,
    registries_grow_by_loaded_records (sampleEnv none) {1, 2} sampleTool sampleBuilt (by decide)⟩

/-- C5, claim as stated, fails: when neither definition file can be opened the
submenus "Add custom property" and "Apply custom template" are not omitted; they
are nodes 4 and 5 of the menu, under the top-level menu. -/
theorem missing_file_submenu_not_omitted :
    (buildMenu sampleEnvNoFiles {1, 2} sampleTool).map
        (fun b => (b.nodes[4]?, b.nodes[5]?)) =
      Except.ok (some (Node.submenu (Label.plain "Add custom property") 0),
                 some (Node.submenu (Label.plain "Apply custom template") 0)) := by
  decide

/-- C5, amended: the nodes of a built menu are the fixed start (duplicate, remove,
separator, the submenu "Add custom property" as node 4), the nodes of the
property loader, the submenu "Apply custom template", the nodes of the template
loader, and the fixed end (flip, conditional raise/lower, conditional
move-to-layer, properties), start and end being made from the selection and the
document alone.  When a definition file cannot be opened its loader adds no
node and no record and a message is printed; its submenu is in the menu all the
same. -/
theorem missing_file_keeps_submenu (env : Env) (selection : Finset Nat)
    (tool : AbstractObjectTool) (b : Built) (h : buildMenu env selection tool = Except.ok b) :
    ∃ addedP addedT : List Node,
      b.nodes = (menuStart selection ++ addedP ++
          [Node.submenu (Label.plain "Apply custom template") 0] ++ addedT) ++
        menuTail env.doc env.objectGroupOf selection (menuStart selection ++ addedP ++
          [Node.submenu (Label.plain "Apply custom template") 0] ++ addedT).length ∧
      b.nodes[4]? = some (Node.submenu (Label.plain "Add custom property") 0) ∧
      (env.propertiesFile = none →
        addedP = [] ∧ b.tool.mCustomProperties = tool.mCustomProperties ∧
        Call.print "Can't open customProperties.xml" ∈ b.calls) ∧
      (env.templatesFile = none →
        addedT = [] ∧ b.tool.mCustomTemplates = tool.mCustomTemplates ∧
        Call.print "Can't open customTemplates.xml" ∈ b.calls) := by
  obtain ⟨addedP, addedT, hn, _, _, _, hPnone, hTnone⟩ := buildMenu_nodes h
  obtain ⟨ps, calls1, ts, calls2, h1, h2, _, _, ht, hc⟩ := buildMenu_ok h
  refine ⟨addedP, addedT, hn, ?_, ?_, ?_⟩
  · rw [hn]
    simp [menuStart]
  · intro hnone
    refine ⟨hPnone hnone, ?_, ?_⟩
    · rcases readPropertiesFile_ok h1 with ⟨_, hps, _⟩ | ⟨tokens, hf, _, _⟩
      · rw [ht, hps]
        rfl
      · rw [hf] at hnone; cases hnone
    · rcases readPropertiesFile_ok h1 with ⟨_, _, hcalls⟩ | ⟨tokens, hf, _, _⟩
      · rw [hc, hcalls]
        simp
      · rw [hf] at hnone; cases hnone
  · intro hnone
    refine ⟨hTnone hnone, ?_, ?_⟩
    · rcases readTemplatesFile_ok h2 with ⟨_, hts, _⟩ | ⟨tokens, hf, _, _⟩
      · rw [ht, hts]
        rfl
      · rw [hf] at hnone; cases hnone
    · rcases readTemplatesFile_ok h2 with ⟨_, _, hcalls⟩ | ⟨tokens, hf, _, _⟩
      · rw [hc, hcalls]
        simp
      · rw [hf] at hnone; cases hnone

theorem missing_file_keeps_submenu_witness :
    buildMenu sampleEnvNoFiles {1, 2} sampleTool = Except.ok sampleBuiltNoFiles ∧
    ∃ addedP addedT : List Node,
      sampleBuiltNoFiles.nodes = (menuStart {1, 2} ++ addedP ++
          [Node.submenu (Label.plain "Apply custom template") 0] ++ addedT) ++
        menuTail sampleEnvNoFiles.doc sampleEnvNoFiles.objectGroupOf {1, 2}
          (menuStart {1, 2} ++ addedP ++
            [Node.submenu (Label.plain "Apply custom template") 0] ++ addedT).length ∧
      sampleBuiltNoFiles.nodes[4]? =
        some (Node.submenu (Label.plain "Add custom property") 0) ∧
      (sampleEnvNoFiles.propertiesFile = none →
        addedP = [] ∧ sampleBuiltNoFiles.tool.mCustomProperties = sampleTool.mCustomProperties ∧
        Call.print "Can't open customProperties.xml" ∈ sampleBuiltNoFiles.calls) ∧
      (sampleEnvNoFiles.templatesFile = none →
        addedT = [] ∧ sampleBuiltNoFiles.tool.mCustomTemplates = sampleTool.mCustomTemplates ∧
        Call.print "Can't open customTemplates.xml" ∈ sampleBuiltNoFiles.calls) :=
  ⟨by decide,
    missing_file_keeps_submenu sampleEnvNoFiles {1, 2} sampleTool sampleBuiltNoFiles
      (by decide)⟩

/-- C10: for a well-formed custom-template stream with `k` template elements,
each holding only property elements with a name attribute and a text payload,
the loading loop, started under a menu with no property collected, ends
normally and appends exactly `k` records to `mCustomTemplates`, in document
order, the record of a template being exactly the (name, text) pairs of the
properties nested in it; the nodes added are the menu tree of the stream, in
which every template has one action under its enclosing menu group, labelled
with the template's name and bound to the index of its record. -/
theorem templates_loader_records (d : TemplateDef) (hwf : d.wellFormed = true)
    (nodes : List Node) (p : Nat) (tn : String) (reg : List (List Property)) :
    ∃ (s1 : TemplateLoader) (added : List Node),
      loadTemplates d.tokens
          { nodes := nodes, parentMenu := some p, templateName := tn, currentTemplate := [],
            mCustomTemplates := reg } = Except.ok s1 ∧
      s1.mCustomTemplates = reg ++ d.records ∧
      d.records.length = d.templateCount ∧
      s1.currentTemplate = [] ∧
      s1.nodes = nodes ++ added ∧
      added = d.nodes p nodes.length reg.length ∧
      (added.filter Node.isAction).map Node.text = d.names.map Label.plain ∧
      added.filterMap Node.templateId =
        (List.range' reg.length d.templateCount).map Int.ofNat := by
  obtain ⟨tn1, h⟩ := loadTemplates_def d hwf [] nodes p tn reg
  rw [List.append_nil, loadTemplates_nil] at h
  exact ⟨_, d.nodes p nodes.length reg.length, h, rfl, templateDef_records_length d, rfl, rfl,
    rfl, templateDef_nodes_labels d _ _ _, templateDef_nodes_ids d _ _ _⟩

theorem templates_loader_records_witness :
    sampleTemplateDef.wellFormed = true ∧ sampleTemplateDef.tokens = sampleTemplates ∧
    ∃ (s1 : TemplateLoader) (added : List Node),
      loadTemplates sampleTemplateDef.tokens
          { nodes := menuStart {1, 2} ++ [Node.submenu (Label.plain "Apply custom template") 0],
            parentMenu := some 5, templateName := "", currentTemplate := [],
            mCustomTemplates := sampleTool.mCustomTemplates } = Except.ok s1 ∧
      s1.mCustomTemplates = sampleTool.mCustomTemplates ++ sampleTemplateDef.records ∧
      sampleTemplateDef.records.length = sampleTemplateDef.templateCount ∧
      s1.currentTemplate = [] ∧
      s1.nodes = (menuStart {1, 2} ++
        [Node.submenu (Label.plain "Apply custom template") 0]) ++ added ∧
      added = sampleTemplateDef.nodes 5 (menuStart {1, 2} ++
        [Node.submenu (Label.plain "Apply custom template") 0]).length
        sampleTool.mCustomTemplates.length ∧
      (added.filter Node.isAction).map Node.text = sampleTemplateDef.names.map Label.plain ∧
      added.filterMap Node.templateId =
        (List.range' sampleTool.mCustomTemplates.length
          sampleTemplateDef.templateCount).map Int.ofNat :=
  ⟨by decide, by decide,
    templates_loader_records sampleTemplateDef (by decide)
      (menuStart {1, 2} ++ [Node.submenu (Label.plain "Apply custom template") 0]) 5 ""
      sampleTool.mCustomTemplates⟩

theorem dispatch_pushes_one_command_witness :
    1 < sampleBuilt.tool.mCustomProperties.length ∧
    (sampleEnv none).doc.currentObject ≠ none ∧
    ∃ p, sampleBuilt.tool.mCustomProperties[1]? = some p ∧
      sampleBuilt.tool.addProperty (sampleEnv none).doc ((1 : Nat) : Int) = Except.ok
        (sampleBuilt.tool,
          [Call.undoPush (Command.SetProperty (sampleEnv none).doc.currentObjects
            p.name p.value)]) :=
  ⟨by decide, by decide,
    ((dispatch_pushes_one_command sampleBuilt.tool (sampleEnv none).doc 1).1
      (by decide)).2 (by decide)⟩

/-- C6: with definition files whose tokens are balanced, as all that the reader
delivers are, `showContextMenu` returns.  If an item `c` outside the scene
selection was clicked, the scene selection is set to exactly `{c}`, as the first
call of the function and before the menu is built and shown; if `c` is in the
selection or nothing was clicked, the scene is left as it is and
`setSelectedObjectItems` is not called.  When nothing was clicked and the
selection is empty the function returns with no menu built and no call made;
in every other case the menu is built from the adjusted selection, starting with
the entries of lines 205-220, and that menu is shown with `menu.exec`. -/
theorem selection_adjustment (env : Env) (tool : AbstractObjectTool) (scene : MapScene)
    (clicked : Option Nat) (pos : Int × Int)
    (hP : ∀ tokens, env.propertiesFile = some tokens → Balanced tokens)
    (hT : ∀ tokens, env.templatesFile = some tokens → Balanced tokens) :
    ∃ o, showContextMenu env tool scene clicked pos = Except.ok o ∧
      (∀ c, clicked = some c → c ∉ scene.selectedObjectItems →
        o.scene.selectedObjectItems = {c} ∧
        ∃ later, (∀ call ∈ later, call.isSetSelection = false) ∧ Call.exec pos ∈ later ∧
          o.calls = Call.setSelectedObjectItems {c} :: later) ∧
      ((clicked = none ∨ ∃ c, clicked = some c ∧ c ∈ scene.selectedObjectItems) →
        o.scene = scene ∧ ∀ call ∈ o.calls, call.isSetSelection = false) ∧
      ((clicked = none ∧ scene.selectedObjectItems = ∅) →
        o = { tool := tool, scene := scene, menu := none, calls := [] }) ∧
      (¬ (clicked = none ∧ scene.selectedObjectItems = ∅) →
        Call.exec pos ∈ o.calls ∧
        ∃ b, buildMenu env (adjustSelection scene clicked).1 tool = Except.ok b ∧
          o.menu = some b.nodes ∧
          menuStart (adjustSelection scene clicked).1 <+: b.nodes) := by
  have hcond : (adjustSelection scene clicked).1 = ∅ ↔
      (clicked = none ∧ scene.selectedObjectItems = ∅) := by
    constructor
    · intro hsel
      cases clicked with
      | none => exact ⟨rfl, by simpa [adjustSelection] using hsel⟩
      | some c =>
        by_cases hc : c ∈ scene.selectedObjectItems
        · rw [adjustSelection_kept scene (some c) (Or.inr ⟨c, rfl, hc⟩)] at hsel
          simp only at hsel
          rw [hsel] at hc
          simp at hc
        · rw [adjustSelection_clicked_new scene c hc] at hsel
          simp at hsel
    · rintro ⟨rfl, hS⟩
      simpa [adjustSelection] using hS
  by_cases hsel : (adjustSelection scene clicked).1 = ∅
  · obtain ⟨hnone, hS⟩ := hcond.mp hsel
    subst hnone
    refine ⟨{ tool := tool, scene := scene, menu := none, calls := [] },
      by simp [showContextMenu, adjustSelection, hS], ?_, ?_, ?_, ?_⟩
    · intro c hc
      cases hc
    · intro _
      exact ⟨rfl, by simp⟩
    · intro _
      rfl
    · intro hn
      exact absurd ⟨rfl, hS⟩ hn
  · obtain ⟨b, hb⟩ := buildMenu_of_balanced env (adjustSelection scene clicked).1 tool hP hT
    obtain ⟨calls1, hr⟩ := route_ok hb
    have hlater : ∀ call ∈ b.calls ++ [Call.exec pos] ++ calls1,
        call.isSetSelection = false := by
      intro call hmem
      simp only [List.mem_append, List.mem_singleton] at hmem
      rcases hmem with (hm | hm) | hm
      · exact (buildMenu_calls hb call hm).2
      · subst hm; rfl
      · exact (route_spec hr).2.1 call hm
    refine ⟨{ tool := b.tool, scene := (adjustSelection scene clicked).2.1,
              menu := some b.nodes,
              calls := (adjustSelection scene clicked).2.2 ++ b.calls ++ [Call.exec pos] ++
                calls1 },
      by simp only [showContextMenu, hsel, if_false, hb, hr], ?_, ?_, ?_, ?_⟩
    · rintro c rfl hc
      rw [adjustSelection_clicked_new scene c hc]
      exact ⟨rfl, b.calls ++ [Call.exec pos] ++ calls1, hlater, by simp, by simp⟩
    · intro hk
      rw [adjustSelection_kept scene clicked hk]
      refine ⟨rfl, ?_⟩
      intro call hmem
      exact hlater call (by simpa using hmem)
    · intro hc
      exact absurd (hcond.mpr hc) hsel
    · intro _
      refine ⟨by simp, b, hb, rfl, ?_⟩
      obtain ⟨addedP, addedT, hn, _⟩ := buildMenu_nodes hb
      rw [hn]
      simp only [List.append_assoc]
      exact List.prefix_append _ _

theorem selection_adjustment_witness :
    ∃ o, showContextMenu (sampleEnv none) sampleTool { selectedObjectItems := {1, 2} } (some 3)
        (0, 0) = Except.ok o ∧
      o.scene.selectedObjectItems = {3} ∧
      (∃ later, (∀ call ∈ later, call.isSetSelection = false) ∧ Call.exec (0, 0) ∈ later ∧
        o.calls = Call.setSelectedObjectItems {3} :: later) ∧
      Call.exec (0, 0) ∈ o.calls ∧
      ∃ b, buildMenu (sampleEnv none) {3} sampleTool = Except.ok b ∧
        o.menu = some b.nodes ∧ menuStart {3} <+: b.nodes :=
  match selection_adjustment (sampleEnv none) sampleTool { selectedObjectItems := {1, 2} }
      (some 3) (0, 0)
      (fun _ h => Option.some.inj h ▸ balanced_of_check sampleProperties (by decide))
      (fun _ h => Option.some.inj h ▸ balanced_of_check sampleTemplates (by decide)) with
  | ⟨o, ho, h1, _, _, h4⟩ =>
    ⟨o, ho, (h1 3 rfl (by decide)).1, (h1 3 rfl (by decide)).2,
      (h4 (fun hc => Option.noConfusion hc.1)).1, (h4 (fun hc => Option.noConfusion hc.1)).2⟩

end Tiled
